import Mathlib

/-!
# diginfractl: `artifact follow`, `artifact config` and `driver config`

Shallow embedding of `cmd/artifact/follow/follow.go` (`backoffConfig.backoff`,
`backoffTransport.RoundTrip`, `retrieveDiginfraVersions`, `RunArtifactFollow`, the flags
of `PreRunE`), of `cmd/artifact/config/config.go` (`RunArtifactConfig`), of
`cmd/driver/config/config.go` and of `pkg/driver/type/type.go`. What these call outside
themselves is an environment of oracles; the follower's requirement check, the index cache
and the puller, whose bodies are not among the sources, are modelled from the
specification and marked as such.

## Numbers

* `time.Duration` and `time.Time` are `Int` nanoseconds.
* `float64` is modelled exactly: a value is NaN, an infinity, or a finite dyadic number
  `m * 2^e`; every arithmetic result is rounded to the nearest binary64 value, ties to even,
  overflowing to an infinity.  The sign of a zero is not kept: the code observes floats only
  through `<`, `>` and the conversion to an integer, none of which sees it.
* Go leaves the result of converting a NaN or an out-of-range `float64` to an integer to the
  implementation; the embedding takes that choice as a parameter (`Indefinite`: one result
  for NaN, one for values above the 64-bit range, one for values below it), with the choices
  of amd64 and arm64 given as `amd64` and `arm64`.
-/

set_option maxRecDepth 100000

namespace Diginfractl

/-! ## binary64 -/

/-- The implementation's choice for `int64(f)` when `f` is NaN, too large (`above`, which
includes `+Inf`) or too small (`below`, which includes `-Inf`) for 64 bits. -/
structure Indefinite where
  nan : Int
  above : Int
  below : Int
  deriving DecidableEq, Repr

/-- A `float64` value. `fin m e` stands for the number `m * 2^e`. -/
inductive F64 where
  | nan : F64
  | inf (neg : Bool) : F64
  | fin (m : Int) (e : Int) : F64
  deriving DecidableEq, Repr

namespace F64

/-- Number of binary digits of `m`, counted by halving at most `fuel` times. -/
def bitLenAux : Nat → Nat → Nat
  | 0, _ => 0
  | fuel + 1, m => if m = 0 then 0 else bitLenAux fuel (m / 2) + 1

/-- Number of binary digits of `m` (zero for `m = 0`). -/
def bitLen (m : Nat) : Nat := bitLenAux m m

/-- Exponent of the unit in the last place used to store the magnitude `m * 2^e`:
53 significant bits, and never below the subnormal exponent `-1074`. -/
def ulpExp (m : Nat) (e : Int) : Int := max (e + (bitLen m : Int) - 53) (-1074)

/-- Round the magnitude `m * 2^e` to the nearest multiple of `2^(ulpExp m e)`, ties to the
even multiple. The result `(k, t)` stands for `k * 2^t`. -/
def roundMag (m : Nat) (e : Int) : Nat × Int :=
  let t := ulpExp m e
  if t ≤ e then (m, e)
  else
    let s := (t - e).toNat
    let k := m / 2 ^ s
    let r := m % 2 ^ s
    let half := 2 ^ (s - 1)
    if r < half then (k, t)
    else if half < r then (k + 1, t)
    else if k % 2 = 0 then (k, t)
    else (k + 1, t)

/-- Does the magnitude `k * 2^t` reach `2^1024`, the first power of two beyond the largest
binary64 number? For `k ≠ 0` that is `bitLen k + t > 1024`. -/
def overflows (k : Nat) (t : Int) : Bool :=
  decide (k ≠ 0) && decide (1024 < (bitLen k : Int) + t)

/-- Round the exact dyadic number `m * 2^e` to binary64. -/
def round (m : Int) (e : Int) : F64 :=
  let kt := roundMag m.natAbs e
  if overflows kt.1 kt.2 then inf (decide (m < 0))
  else if m < 0 then fin (-(kt.1 : Int)) kt.2 else fin (kt.1 : Int) kt.2

/-- Conversion `float64(n)` of an integer. -/
def ofInt (n : Int) : F64 := round n 0

/-- Floating-point product, `a * b` in Go. -/
def mul : F64 → F64 → F64
  | nan, _ => nan
  | _, nan => nan
  | inf s, inf s' => inf (s != s')
  | inf s, fin m _ => if m = 0 then nan else inf (s != decide (m < 0))
  | fin m _, inf s => if m = 0 then nan else inf (decide (m < 0) != s)
  | fin m e, fin m' e' => round (m * m') (e + e')

/-- Comparison of the dyadic numbers `m * 2^e < m' * 2^e'`, on integers. -/
def dyadicLt (m e m' e' : Int) : Bool :=
  let c := min e e'
  decide (m * 2 ^ (e - c).toNat < m' * 2 ^ (e' - c).toNat)

/-- The comparison `a < b` of Go: false whenever an operand is NaN. -/
def lt : F64 → F64 → Bool
  | nan, _ => false
  | _, nan => false
  | inf s, inf s' => s && !s'
  | inf s, fin _ _ => s
  | fin _ _, inf s => !s
  | fin m e, fin m' e' => dyadicLt m e m' e'

/-- The comparison `a > b` of Go. -/
def gt (a b : F64) : Bool := lt b a

/-- The comparison `a <= b` of Go: false whenever an operand is NaN. -/
def le : F64 → F64 → Bool
  | nan, _ => false
  | _, nan => false
  | inf s, inf s' => s || !s'
  | inf s, fin _ _ => s
  | fin _ _, inf s => !s
  | fin m e, fin m' e' => !dyadicLt m' e' m e

/-- Integer part of `m * 2^e`, rounded toward zero. -/
def trunc (m e : Int) : Int :=
  if 0 ≤ e then m * 2 ^ e.toNat else Int.tdiv m (2 ^ (-e).toNat)

/-- Conversion `int64(f)`, as `time.Duration(f)` performs it: the integer part when it fits
in 64 bits, and the implementation's choice otherwise. -/
def toInt64 (indef : Indefinite) : F64 → Int
  | nan => indef.nan
  | inf neg => if neg then indef.below else indef.above
  | fin m e =>
    if -(2 : Int) ^ 63 ≤ trunc m e ∧ trunc m e < (2 : Int) ^ 63 then trunc m e
    else if m < 0 then indef.below else indef.above

/-- The number a finite value stands for (zero for NaN and the infinities). -/
def toRat : F64 → ℚ
  | fin m e => (m : ℚ) * (2 : ℚ) ^ e
  | _ => 0

/-- A finite value. -/
def isFinite : F64 → Bool
  | fin _ _ => true
  | _ => false

/-- The smaller of `a` and `b`, chosen the way `if a > b { a = b }` chooses. -/
def fmin (a b : F64) : F64 := if lt b a then b else a

/-- A positive binary64 number (at most 53 significant bits, exponent at least `-1074`) or
`+Inf`. -/
def PosOrInf : F64 → Prop
  | nan => False
  | inf neg => neg = false
  | fin m e => 0 < m ∧ m.natAbs ≤ 2 ^ 53 ∧ -1074 ≤ e

/-- Multiplying `x` by the multiplier `mult` cannot give NaN, now or later in the loop: `x`
is a number, or an infinity while `mult` is a non-zero number. -/
def NoNaN (mult : F64) : F64 → Prop
  | nan => False
  | inf _ => ∃ mm me, mult = fin mm me ∧ mm ≠ 0
  | fin _ _ => True

/-- A number that is zero or negative, or `-Inf`. -/
def NonPos : F64 → Prop
  | nan => False
  | inf neg => neg = true
  | fin m _ => m ≤ 0

/-- The order `a ≤ b` on values that are positive numbers or `+Inf`. -/
def Below : F64 → F64 → Prop
  | fin m e, fin m' e' => (m : ℚ) * 2 ^ e ≤ (m' : ℚ) * 2 ^ e'
  | fin _ _, inf neg => neg = false
  | inf neg, inf neg' => neg = false ∧ neg' = false
  | _, _ => False

end F64

/-- The value amd64 yields for every NaN or out-of-range conversion: the "integer
indefinite" `-2^63`. -/
def amd64 : Indefinite := { nan := -(2 : Int) ^ 63, above := -(2 : Int) ^ 63, below := -(2 : Int) ^ 63 }

/-- The values arm64 yields: zero for NaN, and the nearest end of the 64-bit range otherwise. -/
def arm64 : Indefinite := { nan := 0, above := (2 : Int) ^ 63 - 1, below := -(2 : Int) ^ 63 }

/-! ## `backoffConfig` -/

/-- The range of `int64`, the type under `time.Duration`. -/
def isInt64 (n : Int) : Prop := -(2 : Int) ^ 63 ≤ n ∧ n < (2 : Int) ^ 63

/-- The struct `backoffConfig`: durations in nanoseconds, the multiplier a `float64`. -/
structure backoffConfig where
  BaseDelay : Int
  Multiplier : F64
  MaxDelay : Int
  deriving DecidableEq, Repr

/-- The loop `for backoff < max && retries > 0 { backoff *= bc.Multiplier; retries-- }`;
the result is the value of `backoff` on exit. -/
def backoffLoop (mult max : F64) : Nat → F64 → F64
  | 0, b => b
  | n + 1, b => if F64.lt b max then backoffLoop mult max n (F64.mul b mult) else b

/-- The product `b * mult * ... * mult` with `n` factors `mult`, every multiplication rounded:
the loop of `backoff` without its exit on `backoff >= max`. -/
def iterMul (mult : F64) : Nat → F64 → F64
  | 0, b => b
  | n + 1, b => iterMul mult n (F64.mul b mult)

/-- The method `backoffConfig.backoff`. -/
def backoffConfig.backoff (indef : Indefinite) (bc : backoffConfig) (retries : Int) : Int :=
  if retries = 0 then bc.BaseDelay
  else
    let max := F64.ofInt bc.MaxDelay
    let b := backoffLoop bc.Multiplier max retries.toNat (F64.ofInt bc.BaseDelay)
    let b := if F64.gt b max then max else b
    if F64.lt b (F64.ofInt 0) then 0
    else F64.toInt64 indef b

/-- The statements of `backoff` after its loop: the cap at `max`, the floor at zero and the
conversion to a duration. -/
def capFloor (indef : Indefinite) (max b : F64) : Int :=
  let b := if F64.gt b max then max else b
  if F64.lt b (F64.ofInt 0) then 0
  else F64.toInt64 indef b

/-- The loop of `backoff` without its early exit: all `n` multiplications by `Multiplier`
are carried out, each one rounded to `float64` as the code rounds it, then the cap
`float64(MaxDelay)` is applied and the result converted to `int64`. It is built from the
operations of the code and serves to show that leaving the loop early changes nothing. -/
def backoffRounded (indef : Indefinite) (bc : backoffConfig) (n : Int) : Int :=
  F64.toInt64 indef
    (F64.fmin (iterMul bc.Multiplier n.toNat (F64.ofInt bc.BaseDelay)) (F64.ofInt bc.MaxDelay))

/-- The delay as the specification words it, in exact arithmetic: the integer part of
`min(BaseDelay * Multiplier^n, MaxDelay)`, where `Multiplier` is the rational number the
finite `float64` stands for and no product is rounded. -/
def backoffExact (bc : backoffConfig) (n : Int) : Int :=
  ⌊min ((bc.BaseDelay : ℚ) * F64.toRat bc.Multiplier ^ n.toNat) (bc.MaxDelay : ℚ)⌋

/-- The `float64` nearest to `4/3`: `0x3FF5555555555555`. -/
def f64_4_3 : F64 := F64.fin 6004799503160661 (-52)

/-- The constant `1.6` as a `float64`: `0x3FF999999999999A`. -/
def f64_1_6 : F64 := F64.fin 7205759403792794 (-52)

/-- One second, in nanoseconds. -/
def second : Int := 1000000000

/-- The variable `defaultBackoffConfig`. -/
def defaultBackoffConfig : backoffConfig :=
  { BaseDelay := 1 * second, Multiplier := f64_1_6, MaxDelay := 120 * second }

/-- One millisecond, in nanoseconds. -/
def millisecond : Int := 1000000

/-- The configuration `retrieveDiginfraVersions` builds: the default one with `MaxDelay`
replaced by the value of the `--timeout` flag. -/
def followBackoffConfig (timeout : Int) : backoffConfig :=
  { defaultBackoffConfig with MaxDelay := timeout }

/-! ## `backoffTransport.RoundTrip`

`time.Time` is a clock reading in nanoseconds. `Time.Add` is exact; `Time.Sub` returns the
difference, or the largest (smallest) `Duration` when the difference does not fit, as the
`time` package documents. -/

/-- The method `Time.Add`. -/
def timeAdd (t d : Int) : Int := t + d

/-- The method `Time.Sub`: `t - u`, kept within the range of `Duration`. -/
def timeSub (t u : Int) : Int :=
  if (2 : Int) ^ 63 - 1 < t - u then (2 : Int) ^ 63 - 1
  else if t - u < -(2 : Int) ^ 63 then -(2 : Int) ^ 63
  else t - u

/-- The error `RoundTrip` returns when the retry budget is spent. -/
def timeoutError : String := "timeout occurred while retrieving versions from Diginfra"

/-- The struct `backoffTransport`. Its `Base` transport is part of the environment `Env`;
its `Printer` only logs and is left out. -/
structure backoffTransport where
  Config : backoffConfig
  attempts : Int
  startTime : Int
  deriving DecidableEq, Repr

/-- What one call of `RoundTrip` meets outside itself, for a fixed request.
* `base i` is the pair `(resp, err)` that the call number `i` (from 0) of
  `bt.Base.RoundTrip(req)` returns;
* `ctxErr i` is `req.Context().Err()` as read after call `i` has failed;
* `now 0` is `time.Now()` as read on entry, and `now (i + 1)` as read after call `i` has
  failed and the context was found alive. -/
structure Env (ρ : Type) where
  base : Nat → Option ρ × Option String
  ctxErr : Nat → Option String
  now : Nat → Int

/-- What `RoundTrip` returns, `(resp, err)`, with what it did on the way: the number of
calls to the base transport, the durations passed to `time.Sleep` in order, and the
transport's fields on return. -/
structure Outcome (ρ : Type) where
  resp : Option ρ
  err : Option String
  calls : Nat
  sleeps : List Int
  bt : backoffTransport
  deriving DecidableEq

/-- The `for` loop of `RoundTrip`, from the state `bt` after `calls` calls to the base
transport and the sleeps `sleeps`. `fuel` bounds the number of iterations; `none` means
the loop was still running when it ran out. (`bt.attempts++` is modelled without 64-bit
wrap-around, which would take `2^63` iterations to reach.) -/
def roundTripLoop {ρ : Type} (indef : Indefinite) (env : Env ρ) :
    Nat → backoffTransport → Nat → List Int → Option (Outcome ρ)
  | 0, _, _, _ => none
  | fuel + 1, bt, calls, sleeps =>
    match env.base calls with
    | (resp, some _) =>
      match env.ctxErr calls with
      | some cerr => some ⟨none, some cerr, calls + 1, sleeps, bt⟩
      | none =>
        let sleep := bt.Config.backoff indef bt.attempts
        let wakeTime := timeAdd (env.now (calls + 1)) sleep
        if bt.Config.MaxDelay < timeSub wakeTime bt.startTime then
          some ⟨resp, some timeoutError, calls + 1, sleeps, bt⟩
        else
          roundTripLoop indef env fuel { bt with attempts := bt.attempts + 1 } (calls + 1)
            (sleeps ++ [sleep])
    | (resp, none) => some ⟨resp, none, calls + 1, sleeps, bt⟩

/-- The method `backoffTransport.RoundTrip`. -/
def backoffTransport.RoundTrip {ρ : Type} (indef : Indefinite) (env : Env ρ)
    (bt : backoffTransport) (fuel : Nat) : Option (Outcome ρ) :=
  let bt := { bt with startTime := env.now 0 }
  let bt := { bt with attempts := 0 }
  roundTripLoop indef env fuel bt 0 []

/-- Call `i` of the base transport fails, the context is alive, and the projected wake
time is within `MaxDelay` of `start`: the loop sleeps and tries again. -/
def retried {ρ : Type} (indef : Indefinite) (env : Env ρ) (cfg : backoffConfig) (start : Int)
    (i : Nat) : Bool :=
  (env.base i).2.isSome && (env.ctxErr i).isNone &&
    !decide (cfg.MaxDelay < timeSub (timeAdd (env.now (i + 1)) (cfg.backoff indef i)) start)

/-- The sleeps of the attempts `c, c + 1, ..., c + k - 1`. -/
def sleepsFrom (indef : Indefinite) (cfg : backoffConfig) (c k : Nat) : List Int :=
  List.map (fun (i : Nat) => cfg.backoff indef (i : Int)) (List.range' c k)

/-- An environment for examples: the first `failures` calls of the base transport fail with
"connection refused" and the later ones return the response "versions"; the context is
cancelled from call `cancelAt` on; the clock readings are those of `times`. -/
def exampleEnv (failures cancelAt : Nat) (times : List Int) : Env String :=
  { base := fun i => if i < failures then (none, some "connection refused")
      else (some "versions", none)
    ctxErr := fun i => if cancelAt ≤ i then some "context canceled" else none
    now := fun i => times.getD i 0 }

/-! ## The version gate

`Follower.checkRequirements` is tested in `internal/follower/follower_test.go`; its body is
not among the sources, so it is modelled from section 4.3 of the specification. -/

/-- The struct `oci.ArtifactRequirement`. -/
structure ArtifactRequirement where
  Name : String
  Version : String
  deriving DecidableEq, Repr

/-- The struct `oci.ArtifactConfig`, with the fields the test fills in. -/
structure ArtifactConfig where
  Name : String
  Version : String
  Requirements : List ArtifactRequirement
  deriving DecidableEq, Repr

/-- The comparisons the specification names without defining them: which requirement keys
are semver-flavoured, whether a reported value meets a required one under semantic-version
ordering, and whether it does when both are compared as literal (integer) strings. Both
comparisons take the required value first. -/
structure VersionOrder where
  semverKey : String → Bool
  semverMeets : String → String → Bool
  literalMeets : String → String → Bool

/-- Modelled from the spec: one requirement against the reported value found under its
name. Section 4.3: "Compare using semantic-version ordering when the requirement key is
semver-flavored, otherwise compare as opaque/integer strings." -/
def requirementMet (ord : VersionOrder) (req : ArtifactRequirement) (reported : String) : Bool :=
  if ord.semverKey req.Name then ord.semverMeets req.Version reported
  else ord.literalMeets req.Version reported

/-- Modelled from the spec: the body of `Follower.checkRequirements`, of which only the
test is among the sources. Section 4.3: "for each requirement, look up the
identically-named key in EngineVersions; missing key ⇒ fail (required version info not
available). [...] The first unmet requirement short-circuits to failure; success requires
every requirement satisfied." `versions` is the map `DiginfraVersions`, as a list of
pairs without repeated keys. -/
def checkRequirementsList (ord : VersionOrder) (versions : List (String × String)) :
    List ArtifactRequirement → Except String Unit
  | [] => Except.ok ()
  | req :: rest =>
    match versions.lookup req.Name with
    | none => Except.error "required version info not available"
    | some reported =>
      if requirementMet ord req reported then checkRequirementsList ord versions rest
      else Except.error "requirement not satisfied"

/-- Modelled from the spec: `Follower.checkRequirements`, applied to an artifact config. -/
def checkRequirements (ord : VersionOrder) (versions : List (String × String))
    (conf : ArtifactConfig) : Except String Unit :=
  checkRequirementsList ord versions conf.Requirements

/-- The most permissive comparisons: every reported value meets every requirement. -/
def acceptAll : VersionOrder :=
  { semverKey := fun _ => true, semverMeets := fun _ _ => true, literalMeets := fun _ _ => true }

/-- The check failed. -/
def failed (r : Except String Unit) : Bool :=
  match r with
  | Except.error _ => true
  | Except.ok _ => false

/-! ### The two flavours of a version value -/

/-- The number a non-empty string of decimal digits stands for; `none` for anything else. -/
def parseDigits (cs : List Char) : Option Nat :=
  if cs ≠ [] ∧ cs.all Char.isDigit = true then
    some (cs.foldl (fun n c => 10 * n + (c.toNat - 48)) 0)
  else none

/-- The pieces of a string between its dots. -/
def splitDots : List Char → List (List Char)
  | [] => [[]]
  | c :: cs =>
    if c = '.' then [] :: splitDots cs
    else
      match splitDots cs with
      | [] => [[c]]
      | piece :: pieces => (c :: piece) :: pieces

/-- Modelled from the spec: the literal (integer) flavour of a version value, such as `26`:
a non-empty string of decimal digits. The specification names the flavour ("compare as
opaque/integer strings", "a literal/integer one") without a grammar. -/
def parseLiteral (s : String) : Option Nat := parseDigits s.data

/-- Modelled from the spec: the semver flavour of a version value, such as `0.26.0`: three
numbers `MAJOR.MINOR.PATCH` separated by dots. The specification names the flavour
("semantic-version ordering", "a semver-style reported value") without a grammar;
pre-release and build suffixes are not modelled. -/
def parseSemver (s : String) : Option (Nat × Nat × Nat) :=
  match splitDots s.data with
  | [a, b, c] =>
    match parseDigits a, parseDigits b, parseDigits c with
    | some x, some y, some z => some (x, y, z)
    | _, _, _ => none
  | _ => none

/-- Modelled from the spec: the comparisons of section 4.3 with the flavours made explicit.
A semver-flavoured key compares the required and the reported value as semantic versions, any
other key compares them as integer literals, and a value that is not of the key's flavour
meets nothing ("A requirement never matches a reported value of the other flavor"). What
the specification leaves open stays a parameter: which keys are semver-flavoured
(`semverKey`) and the two orderings (`semverLe`, `literalLe`, required value first). -/
def flavourOrder (semverKey : String → Bool)
    (semverLe : Nat × Nat × Nat → Nat × Nat × Nat → Bool) (literalLe : Nat → Nat → Bool) :
    VersionOrder :=
  { semverKey := semverKey
    semverMeets := fun required reported =>
      match parseSemver required, parseSemver reported with
      | some a, some b => semverLe a b
      | _, _ => false
    literalMeets := fun required reported =>
      match parseLiteral required, parseLiteral reported with
      | some a, some b => literalLe a b
      | _, _ => false }

/-- Modelled from the spec: a requirement is satisfied when its name is a key of the
versions map and the value reported there meets it (section 4.3). -/
def satisfied (ord : VersionOrder) (versions : List (String × String))
    (req : ArtifactRequirement) : Bool :=
  match versions.lookup req.Name with
  | some reported => requirementMet ord req reported
  | none => false

/-- A key is taken as semver-flavoured when its name ends in `_semver`. -/
def semverSuffix (name : String) : Bool := "_semver".data.isSuffixOf name.data

/-- The order of semantic versions: by major, then minor, then patch number. -/
def semverLeq (a b : Nat × Nat × Nat) : Bool :=
  decide (a.1 < b.1) || (decide (a.1 = b.1) &&
    (decide (a.2.1 < b.2.1) || (decide (a.2.1 = b.2.1) && decide (a.2.2 ≤ b.2.2))))

/-- An instance for examples: keys ending in `_semver` are semver-flavoured, and the
reported version has to be at least the required one. -/
def exampleOrder : VersionOrder :=
  flavourOrder semverSuffix semverLeq (fun a b => decide (a ≤ b))

/-! ## `artifactFollowOptions.retrieveDiginfraVersions`

A Go map is a list of pairs in which every key stands once; the order of the list is the
order in which a `range` loop happens to visit the map. -/

/-- The assignment `m[key] = value` on a Go map. -/
def mapSet {α : Type} : List (String × α) → String → α → List (String × α)
  | [], key, value => [(key, value)]
  | (k, v) :: rest, key, value =>
    if k = key then (key, value) :: rest else (k, v) :: mapSet rest key value

/-- A JSON value as `json.Unmarshal` stores it in an `interface{}`; a number is kept as
written. -/
inductive Json where
  | null : Json
  | bool (b : Bool) : Json
  | number (text : String) : Json
  | str (s : String) : Json
  | arr (items : List Json) : Json
  | obj (members : List (String × Json)) : Json

/-- The struct `artifactFollowOptions`: its own fields, `PlainHTTP` of the embedded
`options.Registry` and the three directories of the embedded `options.Directory`. The
embedded `options.Common` (printer, index cache) and the channel `closeChan` are part of
the environments below. -/
structure artifactFollowOptions where
  PlainHTTP : Bool
  RulesfilesDir : String
  PluginsDir : String
  AssetsDir : String
  tmpDir : String
  every : Int
  cron : String
  diginfraVersions : String
  versions : List (String × String)
  timeout : Int
  allowedTypes : List String
  noVerify : Bool
  deriving DecidableEq, Repr

/-- What `retrieveDiginfraVersions` meets outside itself.
* `parseRequestURI url` is the error of `url.ParseRequestURI(url)`, if any;
* `newRequest url` is the error of `http.NewRequestWithContext(ctx, GET, url, NoBody)`, if
  any;
* `transport` is what the backoff transport meets while `client.Do(req)` runs;
* `readAll resp` is the result of `io.ReadAll(resp.Body)`;
* `unmarshal data` is the result of `json.Unmarshal(data, &dataUnmarshalled)`: an error, or
  the map it filled;
* `quote` is the verb `%q` of `fmt`. -/
structure VersionsEnv (ρ : Type) where
  parseRequestURI : String → Option String
  newRequest : String → Option String
  transport : Env ρ
  readAll : ρ → Except String String
  unmarshal : String → Except String (List (String × Json))
  quote : String → String

/-- The call `client.Do(req)` of a client whose transport is `bt`: one round trip through
the backoff transport. `net/http` turns a nil response with a nil error into an error;
redirects, which it would follow with further round trips, and the `url.Error` it wraps
around the error of the transport are not modelled. `none` means the transport was still
retrying when the fuel ran out. -/
def clientDo {ρ : Type} (indef : Indefinite) (env : Env ρ) (bt : backoffTransport)
    (fuel : Nat) : Option (Except String ρ) :=
  match bt.RoundTrip indef env fuel with
  | none => none
  | some out =>
    match out.err, out.resp with
    | some e, _ => some (Except.error e)
    | none, some resp => some (Except.ok resp)
    | none, none => some (Except.error "http: RoundTripper returned a nil response")

/-- The loop `for key, value := range dataUnmarshalled` with its type assertion
`value.(string)`: string values are stored under their key, other values are skipped. -/
def storeStrings : List (String × Json) → List (String × String) → List (String × String)
  | [], versions => versions
  | (key, Json.str strValue) :: rest, versions =>
    storeStrings rest (mapSet versions key strValue)
  | (_, _) :: rest, versions => storeStrings rest versions

/-- The method `artifactFollowOptions.retrieveDiginfraVersions`: the error it returns, if
any, and the options afterwards. -/
def artifactFollowOptions.retrieveDiginfraVersions {ρ : Type} (indef : Indefinite)
    (env : VersionsEnv ρ) (o : artifactFollowOptions) (fuel : Nat) :
    Option (Option String × artifactFollowOptions) :=
  match env.parseRequestURI o.diginfraVersions with
  | some e => some (some ("unable to parse URI: " ++ e), o)
  | none =>
    match env.newRequest o.diginfraVersions with
    | some e => some (some ("cannot fetch Diginfra version: " ++ e), o)
    | none =>
      let backoffConfig := { defaultBackoffConfig with MaxDelay := o.timeout }
      let bt : backoffTransport := { Config := backoffConfig, attempts := 0, startTime := 0 }
      match clientDo indef env.transport bt fuel with
      | none => none
      | some (Except.error e) =>
        some (some ("unable to get versions from URL " ++ env.quote o.diginfraVersions ++
          ": " ++ e), o)
      | some (Except.ok resp) =>
        match env.readAll resp with
        | Except.error e => some (some ("unable to read response body: " ++ e), o)
        | Except.ok data =>
          match env.unmarshal data with
          | Except.error e => some (some ("error unmarshalling: " ++ e), o)
          | Except.ok dataUnmarshalled =>
            some (none, { o with versions := storeStrings dataUnmarshalled o.versions })

/-- The string the endpoint reports under `key`, if it reports a string there. -/
def reportedString (dataUnmarshalled : List (String × Json)) (key : String) : Option String :=
  match dataUnmarshalled.lookup key with
  | some (Json.str s) => some s
  | _ => none

/-- The options `NewArtifactFollowCmd` starts from: the flag defaults that are visible in
the source (`--diginfra-versions`, `--timeout`, `--cron`, `--tmp-dir`, `--no-verify`) and
an empty `versions` map; `every` and the flags of the embedded options are given. -/
def newArtifactFollowOptions (every : Int) (plainHTTP : Bool)
    (rulesfilesDir pluginsDir assetsDir : String) : artifactFollowOptions :=
  { PlainHTTP := plainHTTP
    RulesfilesDir := rulesfilesDir
    PluginsDir := pluginsDir
    AssetsDir := assetsDir
    tmpDir := ""
    every := every
    cron := ""
    diginfraVersions := "http://localhost:8765/versions"
    versions := []
    timeout := defaultBackoffConfig.MaxDelay
    allowedTypes := []
    noVerify := false }

/-- Options for examples. -/
def exampleOptions : artifactFollowOptions :=
  newArtifactFollowOptions (6 * 3600 * second) false "/etc/diginfra" "/usr/share/diginfra/plugins"
    "/etc/diginfra/assets"

/-- An endpoint for examples: the first call of the base transport answers, and the body
decodes to `dataUnmarshalled`. -/
def exampleVersionsEnv (dataUnmarshalled : List (String × Json)) : VersionsEnv String :=
  { parseRequestURI := fun _ => none
    newRequest := fun _ => none
    transport := exampleEnv 0 9 [0]
    readAll := fun body => Except.ok body
    unmarshal := fun _ => Except.ok dataUnmarshalled
    quote := fun s => "\"" ++ s ++ "\"" }

/-! ## `artifactFollowOptions.RunArtifactFollow`

The run is described by what it does, in the order of the source: the calls of
`follower.New`, the increments of the wait group, the followers it starts, the closing of
`closeChan`, the last line it logs and what it returns. The goroutines are not interleaved
step by step: what the run observes of them, whether the context is ever cancelled and
which followers report completion before the grace timeout, is given by the environment. -/

/-- The constant `timeout`: how long the run waits for the followers after it closed
`closeChan`. -/
def timeout : Int := second * 5

/-- The type `scheduledDuration`: an embedded `time.Duration`. -/
structure scheduledDuration where
  Duration : Int
  deriving DecidableEq, Repr

/-- The method `scheduledDuration.Next`. -/
def scheduledDuration.Next (sd : scheduledDuration) (tm : Int) : Int :=
  timeAdd tm sd.Duration

/-- The two values `RunArtifactFollow` gives the variable `sched` of interface type
`cron.Schedule`: a `scheduledDuration`, or what `cron.ParseStandard` returned. -/
inductive Schedule (κ : Type) where
  | every (sd : scheduledDuration) : Schedule κ
  | cron (c : κ) : Schedule κ
  deriving DecidableEq, Repr

/-- The struct `follower.Config` as `RunArtifactFollow` fills it. The fields `WaitGroup` and
`CloseChan` are the same wait group and channel in every configuration of a run and are
left out. -/
structure follower.Config (σ κ : Type) where
  Resync : Schedule κ
  RulesfilesDir : String
  PluginsDir : String
  AssetsDir : String
  ArtifactReference : String
  PlainHTTP : Bool
  TmpDir : String
  DiginfraVersions : List (String × String)
  AllowedTypes : List String
  Signature : Option σ
  deriving DecidableEq, Repr

/-- What `RunArtifactFollow` meets outside itself.
* `configured` is the list `Artifacts` of a successful `config.Follower()`;
* `resolve a` is the result of `o.IndexCache.ResolveReference(a)`;
* `signatureFor a` is the pointer `o.IndexCache.SignatureForIndexRef(a)`, nil being `none`;
* `newFollower ref cfg` is the error of `follower.New(ref, o.Printer, cfg)`, if any;
* `parseStandard spec` is the result of `cron.ParseStandard(spec)`;
* `quote` is the verb `%q` of `fmt`. -/
structure FollowEnv (σ κ : Type) where
  configured : List String
  resolve : String → Except String String
  signatureFor : String → Option σ
  newFollower : String → follower.Config σ κ → Option String
  parseStandard : String → Except String κ
  quote : String → String

/-- What the run observes of the context and of the goroutines it started.
* `cancelled` tells whether `ctx` is ever cancelled;
* `completes ref` tells whether the follower started for `ref` reports completion, by one
  call of `WaitGroup.Done`, before the grace timeout elapses. -/
structure Concurrency where
  cancelled : Bool
  completes : String → Bool

/-- The state of the loop that creates the followers: the map `followers`, a follower
standing for the configuration it was built from; the number of calls `wg.Add(1)`; and the
calls of `follower.New` so far, each with the argument it was made for. -/
structure Creation (σ κ : Type) where
  followers : List (String × follower.Config σ κ)
  adds : Nat
  news : List (String × String × follower.Config σ κ)

/-- The literal `&follower.Config{...}` for the argument `a` resolved to `ref`. -/
def artifactFollowOptions.followerConfig {σ κ : Type} (env : FollowEnv σ κ)
    (o : artifactFollowOptions) (sched : Schedule κ) (a ref : String) : follower.Config σ κ :=
  { Resync := sched
    RulesfilesDir := o.RulesfilesDir
    PluginsDir := o.PluginsDir
    AssetsDir := o.AssetsDir
    ArtifactReference := ref
    PlainHTTP := o.PlainHTTP
    TmpDir := o.tmpDir
    DiginfraVersions := o.versions
    AllowedTypes := o.allowedTypes
    Signature := if o.noVerify then none else env.signatureFor a }

/-- The loop `for _, a := range args`: the error it returns with, if any, and the state it
reached. -/
def artifactFollowOptions.createFollowers {σ κ : Type} (env : FollowEnv σ κ)
    (o : artifactFollowOptions) (sched : Schedule κ) :
    List String → Creation σ κ → Option String × Creation σ κ
  | [], st => (none, st)
  | a :: rest, st =>
    match env.resolve a with
    | Except.error e =>
      (some ("unable to parse artifact reference for " ++ env.quote a ++ ": " ++ e), st)
    | Except.ok ref =>
      let cfg := o.followerConfig env sched a ref
      match env.newFollower ref cfg with
      | some e =>
        (some ("unable to create the follower for ref " ++ env.quote ref ++ ": " ++ e),
          { st with news := st.news ++ [(a, ref, cfg)] })
      | none =>
        artifactFollowOptions.createFollowers env o sched rest
          { followers := mapSet st.followers ref cfg
            adds := st.adds + 1
            news := st.news ++ [(a, ref, cfg)] }

/-- The choice of `sched`. -/
def artifactFollowOptions.schedule {σ κ : Type} (env : FollowEnv σ κ)
    (o : artifactFollowOptions) : Except String (Schedule κ) :=
  if o.cron ≠ "" then
    match env.parseStandard o.cron with
    | Except.error e => Except.error ("unable to parse cron '" ++ o.cron ++ "': " ++ e)
    | Except.ok c => Except.ok (Schedule.cron c)
  else Except.ok (Schedule.every { Duration := o.every })

/-- The arguments the run works on: those passed, or the configured ones when none was
passed. -/
def effectiveArgs {σ κ : Type} (env : FollowEnv σ κ) (args : List String) : List String :=
  if args.length = 0 then env.configured else args

/-- The last line logged when every follower reported completion. -/
def stoppedMessage : String := "Followers correctly stopped."

/-- The last line logged when the grace timeout fired first. -/
def timedOutMessage : String := "Timed out waiting for followers to exit"

/-- What a run of `RunArtifactFollow` did.
* `returned` is false when the run blocks for ever on `<-ctx.Done()`;
* `err` is the error it returned, `none` being nil;
* `news` are the calls of `follower.New`: argument, reference, configuration;
* `wgAdds` is the number of calls `wg.Add(1)`;
* `started` are the keys of `followers` for which `go f.Follow(ctx)` ran;
* `closes` is the number of calls `close(o.closeChan)`;
* `pending` is the value of the wait group counter when the `select` is decided;
* `grace` is the duration given to `time.After` in the `select`, when it is reached;
* `lastLog` is the line logged by the `select`, when it is reached. -/
structure FollowRun (σ κ : Type) where
  returned : Bool
  err : Option String
  news : List (String × String × follower.Config σ κ)
  wgAdds : Nat
  started : List String
  closes : Nat
  pending : Nat
  grace : Option Int
  lastLog : Option String

/-- A run that returns the error `e` before the followers are started. -/
def failedRun {σ κ : Type} (e : String) (st : Creation σ κ) : FollowRun σ κ :=
  { returned := true, err := some e, news := st.news, wgAdds := st.adds, started := [],
    closes := 0, pending := st.adds, grace := none, lastLog := none }

/-- The part of `RunArtifactFollow` after the loop: start the followers, wait for the
cancellation, close `closeChan`, wait for the followers or for the grace timeout. The
goroutine that waits on the wait group closes `doneChan` exactly when the counter reaches
zero, that is when the followers that report completion are as many as the calls
`wg.Add(1)`. -/
def superviseFollowers {σ κ : Type} (sv : Concurrency) (st : Creation σ κ) :
    FollowRun σ κ :=
  let started := st.followers.map Prod.fst
  if sv.cancelled then
    let pending := st.adds - (started.filter sv.completes).length
    { returned := true, err := none, news := st.news, wgAdds := st.adds, started := started,
      closes := 1, pending := pending, grace := some timeout,
      lastLog := some (if pending = 0 then stoppedMessage else timedOutMessage) }
  else
    { returned := false, err := none, news := st.news, wgAdds := st.adds, started := started,
      closes := 0, pending := st.adds, grace := none, lastLog := none }

/-- The part of `RunArtifactFollow` before the followers are started: the check of the
arguments, the choice of the schedule and the loop that creates the followers. It gives the
error the run returns with, if any, and the state of the loop. -/
def artifactFollowOptions.setup {σ κ : Type} (env : FollowEnv σ κ)
    (o : artifactFollowOptions) (args : List String) : Option String × Creation σ κ :=
  if args.length = 0 ∧ env.configured.length = 0 then
    (some ("no artifacts to follow, please configure artifacts or pass them as " ++
      "arguments to this command"), { followers := [], adds := 0, news := [] })
  else
    match o.schedule env with
    | Except.error e => (some e, { followers := [], adds := 0, news := [] })
    | Except.ok sched =>
      o.createFollowers env sched (effectiveArgs env args)
        { followers := [], adds := 0, news := [] }

/-- The method `artifactFollowOptions.RunArtifactFollow`, after `config.Follower()`
succeeded. -/
def artifactFollowOptions.RunArtifactFollow {σ κ : Type} (env : FollowEnv σ κ)
    (sv : Concurrency) (o : artifactFollowOptions) (args : List String) : FollowRun σ κ :=
  match o.setup env args with
  | (some e, st) => failedRun e st
  | (none, st) => superviseFollowers sv st

/-- Whether the loop gets past the argument `a`: it resolves, and a follower can be created
for its reference. -/
def artifactFollowOptions.creates {σ κ : Type} (env : FollowEnv σ κ)
    (o : artifactFollowOptions) (sched : Schedule κ) (a : String) : Bool :=
  match env.resolve a with
  | Except.error _ => false
  | Except.ok ref => (env.newFollower ref (o.followerConfig env sched a ref)).isNone

/-- The references the arguments resolve to, in the order of the arguments. -/
def resolvedReferences {σ κ : Type} (env : FollowEnv σ κ) (args : List String) :
    List String :=
  args.filterMap (fun a =>
    match env.resolve a with
    | Except.ok ref => some ref
    | Except.error _ => none)

/-- Whether the text `msg` contains the text `part`. -/
def mentions (msg part : String) : Bool :=
  msg.toList.tails.any (fun t => part.toList.isPrefixOf t)

/-- An environment for examples: the index knows the name `k8saudit-rules`, with signing
metadata; the empty argument does not resolve; every other argument is taken as a reference
and resolves to itself; no follower can be created for the references in `broken`; the
only cron expression that parses is `@daily`. -/
def exampleFollowEnv (broken : List String) : FollowEnv String Unit :=
  { configured := []
    resolve := fun a =>
      if a = "k8saudit-rules" then
        Except.ok "ghcr.io/diginfra/plugins/ruleset/k8saudit:latest"
      else if a = "" then Except.error "cannot find among the configured indexes"
      else Except.ok a
    signatureFor := fun a => if a = "k8saudit-rules" then some "cosign" else none
    newFollower := fun ref _ =>
      if ref ∈ broken then some "unable to create temporary directory" else none
    parseStandard := fun spec =>
      if spec = "@daily" then Except.ok () else Except.error "expected exactly 5 fields"
    quote := fun s => "\"" ++ s ++ "\"" }

/-- The context is cancelled and every follower but those for `stragglers` reports
completion in time. -/
def exampleShutdown (stragglers : List String) : Concurrency :=
  { cancelled := true
    completes := fun ref => !decide (ref ∈ stragglers) }

/-! ## Package `drivertype`

The package variable `driverTypes`, a Go map from the name of a driver type to the type, is
a parameter: a list of pairs in which every key stands once. The files that fill it are not
among the sources. -/

/-- The function `GetTypes`: the loop appends every key of `driverTypes` to a slice that
starts empty. -/
def drivertype.GetTypes {δ : Type} (driverTypes : List (String × δ)) : List String :=
  driverTypes.foldl (fun driverTypesSlice entry => driverTypesSlice ++ [entry.1]) []

/-- The function `Parse`. -/
def drivertype.Parse {δ : Type} (driverTypes : List (String × δ)) (driverType : String) :
    Except String δ :=
  match driverTypes.lookup driverType with
  | some dType => Except.ok dType
  | none => Except.error ("unsupported driver type specified: " ++ driverType)

/-- A registry for examples, with the three driver engines the help text of
`driver config` names; a driver type stands for its name. -/
def exampleDriverTypes : List (String × String) :=
  [("kmod", "kmod"), ("ebpf", "ebpf"), ("modern_ebpf", "modern_ebpf")]

/-! ## Package `driverconfig` -/

/-- The struct `engineCfg`. -/
structure engineCfg where
  Kind : String
  deriving DecidableEq, Repr

/-- The struct `diginfraCfg`. -/
structure diginfraCfg where
  Engine : engineCfg
  deriving DecidableEq, Repr

/-- The function `checkDiginfraRunsWithDrivers`: the error it returns, if any. -/
def checkDiginfraRunsWithDrivers {δ : Type} (driverTypes : List (String × δ))
    (engineKind : String) : Option String :=
  match drivertype.Parse driverTypes engineKind with
  | Except.error _ => some ("engine.kind is not driver driven: " ++ engineKind)
  | Except.ok _ => none

/-- A Kubernetes config map, as far as the command reads it. -/
structure ConfigMap where
  Name : String
  Namespace : String
  Data : List (String × String)
  deriving DecidableEq, Repr

/-- The answer to the request that lists the config maps: the items and the value of
`Size()`. -/
structure ConfigMapList where
  Items : List ConfigMap
  Size : Nat

/-- What the two `replaceDriverType...` methods meet outside themselves.
* `typeName d` is `d.String()` for a driver type;
* `readFile path` is `os.ReadFile(path)`;
* `unmarshalCfg text` is `yaml.Unmarshal` of `text` into a `diginfraCfg`;
* `replaceTextInFile file old new n` is the error of `utils.ReplaceTextInFile`, if any;
* `buildConfigFromFlags path` is `clientcmd.BuildConfigFromFlags("", path)` and
  `inClusterConfig` is `rest.InClusterConfig()`, both giving a configuration of type `γ`;
* `newForConfig cfg` is the error of `kubernetes.NewForConfig(cfg)`, if any;
* `list namespace` is the answer to `ConfigMaps(namespace).List` with the label selector
  `app.kubernetes.io/instance=diginfra`;
* `unmarshalMap text` is `yaml.Unmarshal` of `text` into a `map[string]interface{}`;
* `marshal data` is `yaml.Marshal(data)`;
* `update cm` is the error `retry.RetryOnConflict` returns, if any, after it has sent the
  config map `cm` with `ConfigMaps(cm.Namespace).Update` at least once. -/
structure DriverConfigEnv (δ γ : Type) where
  typeName : δ → String
  readFile : String → Except String String
  unmarshalCfg : String → Except String diginfraCfg
  replaceTextInFile : String → String → String → Nat → Option String
  buildConfigFromFlags : String → Except String γ
  inClusterConfig : Except String γ
  newForConfig : γ → Option String
  list : String → Except String ConfigMapList
  unmarshalMap : String → Except String (List (String × Json))
  marshal : List (String × Json) → Except String String
  update : ConfigMap → Option String

/-- The struct `driverConfigOptions`, as far as the two methods read it. -/
structure driverConfigOptions where
  Update : Bool
  Namespace : String
  KubeConfig : String
  deriving DecidableEq, Repr

/-- The path `/etc/diginfra/diginfra.yaml`, as `filepath.Join` and `filepath.Clean` build it
on a system whose path separator is the slash. -/
def diginfraCfgFile : String := "/etc/diginfra/diginfra.yaml"

/-- What `replaceDriverTypeInDiginfraConfig` did: the error it returned, the calls of
`utils.ReplaceTextInFile` (file, text to replace, replacement, count) and the reasons it
logged with "Avoid updating". -/
structure LocalCommit where
  err : Option String
  replacements : List (String × String × String × Nat)
  warnings : List String
  deriving DecidableEq, Repr

/-- The method `driverConfigOptions.replaceDriverTypeInDiginfraConfig`. -/
def driverConfigOptions.replaceDriverTypeInDiginfraConfig {δ γ : Type}
    (env : DriverConfigEnv δ γ) (driverTypes : List (String × δ)) (_o : driverConfigOptions)
    (driverType : δ) : LocalCommit :=
  match env.readFile diginfraCfgFile with
  | Except.error e => { err := some e, replacements := [], warnings := [] }
  | Except.ok yamlFile =>
    match env.unmarshalCfg yamlFile with
    | Except.error e => { err := some e, replacements := [], warnings := [] }
    | Except.ok cfg =>
      match checkDiginfraRunsWithDrivers driverTypes cfg.Engine.Kind with
      | some err => { err := none, replacements := [], warnings := [err] }
      | none =>
        let configKindKey := "kind: "
        { err := env.replaceTextInFile diginfraCfgFile (configKindKey ++ cfg.Engine.Kind)
            (configKindKey ++ env.typeName driverType) 1
          replacements := [(diginfraCfgFile, configKindKey ++ cfg.Engine.Kind,
            configKindKey ++ env.typeName driverType, 1)]
          warnings := [] }

/-- The state of the loop over the config maps: the flag `updated`, the config maps sent
with `Update`, each with its index in the list, and the lines logged, each with the name
of the config map. -/
structure ClusterCommit where
  err : Option String
  updated : Bool
  updates : List (Nat × ConfigMap)
  logs : List (String × String)
  deriving DecidableEq, Repr

/-- The body of the loop `for i := 0; i < len(configMapList.Items); i++` for the config map
`configMap` at index `i`, and the rest of the loop after it. -/
def driverConfigOptions.updateConfigMaps {δ γ : Type} (env : DriverConfigEnv δ γ)
    (driverTypes : List (String × δ)) (driverType : δ) :
    List ConfigMap → Nat → ClusterCommit → ClusterCommit
  | [], _, st => st
  | configMap :: rest, i, st =>
    let next := driverConfigOptions.updateConfigMaps env driverTypes driverType rest (i + 1)
    match configMap.Data.lookup "diginfra.yaml" with
    | none =>
      next { st with logs := st.logs ++ [("Skip non Diginfra-related config map",
        configMap.Name)] }
    | some diginfraYaml =>
      match env.unmarshalCfg diginfraYaml with
      | Except.error _ =>
        next { st with logs := st.logs ++
          [("Failed to unmarshal diginfra.yaml to diginfraCfg struct", configMap.Name)] }
      | Except.ok diginfraConfig =>
        match checkDiginfraRunsWithDrivers driverTypes diginfraConfig.Engine.Kind with
        | some _ => next { st with logs := st.logs ++ [("Avoid updating", configMap.Name)] }
        | none =>
          match env.unmarshalMap diginfraYaml with
          | Except.error _ =>
            next { st with logs := st.logs ++
              [("Failed to unmarshal diginfra.yaml to map[string]interface\x7b\x7d",
                configMap.Name)] }
          | Except.ok diginfraCfgData =>
            match diginfraCfgData.lookup "engine" with
            | some (Json.obj diginfraCfgEngine) =>
              let diginfraCfgEngine :=
                mapSet diginfraCfgEngine "kind" (Json.str (env.typeName driverType))
              let diginfraCfgData := mapSet diginfraCfgData "engine" (Json.obj diginfraCfgEngine)
              match env.marshal diginfraCfgData with
              | Except.error _ =>
                next { st with logs := st.logs ++
                  [("Error generating update data", configMap.Name)] }
              | Except.ok diginfraCfgBytes =>
                let configMap :=
                  { configMap with Data := mapSet configMap.Data "diginfra.yaml" diginfraCfgBytes }
                match env.update configMap with
                | some err =>
                  { st with err := some err, updates := st.updates ++ [(i, configMap)],
                            logs := st.logs ++ [("Updating", configMap.Name)] }
                | none =>
                  next { st with updated := true, updates := st.updates ++ [(i, configMap)],
                                 logs := st.logs ++ [("Updating", configMap.Name)] }
            | _ =>
              next { st with logs := st.logs ++ [("Error fetching engine config",
                configMap.Name)] }

/-- The method `driverConfigOptions.replaceDriverTypeInK8SConfigMap`. -/
def driverConfigOptions.replaceDriverTypeInK8SConfigMap {δ γ : Type}
    (env : DriverConfigEnv δ γ) (driverTypes : List (String × δ)) (o : driverConfigOptions)
    (driverType : δ) : ClusterCommit :=
  let failure (e : String) : ClusterCommit :=
    { err := some e, updated := false, updates := [], logs := [] }
  match (if o.KubeConfig ≠ "" then env.buildConfigFromFlags o.KubeConfig
      else env.inClusterConfig) with
  | Except.error e => failure e
  | Except.ok cfg =>
    match env.newForConfig cfg with
    | some e => failure e
    | none =>
      match env.list o.Namespace with
      | Except.error e => failure e
      | Except.ok configMapList =>
        if configMapList.Size = 0 then
          failure ("no configmaps matching \"app.kubernetes.io/instance=diginfra\" " ++
            "label were found")
        else
          let st := driverConfigOptions.updateConfigMaps env driverTypes driverType
            configMapList.Items 0 { err := none, updated := false, updates := [], logs := [] }
          match st.err with
          | some _ => st
          | none =>
            if !st.updated then { st with err := some "could not update any configmap" }
            else st

/-- An environment for examples: a configuration file stands for the engine kind it sets,
the cluster holds the config maps `items`, and every request succeeds. -/
def exampleDriverConfigEnv (localKind : String) (items : List ConfigMap) :
    DriverConfigEnv String Unit :=
  { typeName := fun d => d
    readFile := fun _ => Except.ok localKind
    unmarshalCfg := fun text => Except.ok { Engine := { Kind := text } }
    replaceTextInFile := fun _ _ _ _ => none
    buildConfigFromFlags := fun _ => Except.ok ()
    inClusterConfig := Except.ok ()
    newForConfig := fun _ => none
    list := fun _ => Except.ok { Items := items, Size := 1 + items.length }
    unmarshalMap := fun text => Except.ok [("engine", Json.obj [("kind", Json.str text)])]
    marshal := fun data =>
      match data.lookup "engine" with
      | some (Json.obj [("kind", Json.str kind)]) => Except.ok kind
      | _ => Except.error "cannot marshal"
    update := fun _ => none }

/-- Three config maps for examples: one of a deployment that runs with the `kmod` driver,
one of a deployment that runs with the `gvisor` engine, one that is not about the engine. -/
def exampleConfigMaps : List ConfigMap :=
  [{ Name := "diginfra", Namespace := "diginfra", Data := [("diginfra.yaml", "kmod")] },
   { Name := "diginfra-gvisor", Namespace := "diginfra", Data := [("diginfra.yaml", "gvisor")] },
   { Name := "diginfra-rules", Namespace := "diginfra", Data := [("rules.yaml", "")] }]

/-! ## Command `artifact config` -/

/-- The pieces of a string between the occurrences of the character `sep`: the call
`strings.Split(s, sep)` for a separator of one character. -/
def splitChars (sep : Char) : List Char → List (List Char)
  | [] => [[]]
  | c :: cs =>
    if c = sep then [] :: splitChars sep cs
    else
      match splitChars sep cs with
      | [] => [[c]]
      | piece :: pieces => (c :: piece) :: pieces

/-- The call `strings.Split(s, sep)` for a separator of one character, on strings. -/
def stringsSplit (s : String) (sep : Char) : List String :=
  (splitChars sep s.data).map String.mk

/-- The struct `artifactConfigOptions`: `PlainHTTP` of the embedded `options.Registry` and
the flag `platform`. -/
structure artifactConfigOptions where
  PlainHTTP : Bool
  platform : String
  deriving DecidableEq, Repr

/-- What `RunArtifactConfig` meets outside itself.
* `newStore` is the error of `credentials.NewStore` in `ociutils.Client`, if any;
* `resolve a` is the result of `o.IndexCache.ResolveReference(a)`;
* `rawConfigLayer ref os arch` is the result of `puller.RawConfigLayer(ctx, ref, os,
  arch)`, the one call of the command that contacts a registry. -/
structure ArtifactConfigEnv where
  newStore : Option String
  resolve : String → Except String String
  rawConfigLayer : String → String → String → Except String String

/-- The function `Client` of package `ociutils`: the error it returns, if any. The client
it builds is part of `rawConfigLayer`. -/
def ociutils.Client (env : ArtifactConfigEnv) (_enableClientTokenCache : Bool) :
    Option String :=
  match env.newStore with
  | some err => some ("unable to create new store: " ++ err)
  | none => none

/-- The function `Puller` of package `ociutils`: the error it returns, if any. -/
def ociutils.Puller (env : ArtifactConfigEnv) (_plainHTTP : Bool) : Option String :=
  match ociutils.Client env true with
  | some err => some err
  | none => none

/-- What `RunArtifactConfig` did: the error it returned, the arguments of its call of
`RawConfigLayer` (reference, os, architecture) if it made one, and the text it printed. -/
structure ConfigRun where
  err : Option String
  requested : Option (String × String × String)
  printed : Option String
  deriving DecidableEq, Repr

/-- The method `artifactConfigOptions.RunArtifactConfig`. `none` stands for the run-time
panic of `args[0]` on an empty argument list, which `cobra.ExactArgs(1)` excludes. -/
def artifactConfigOptions.RunArtifactConfig (env : ArtifactConfigEnv)
    (o : artifactConfigOptions) (args : List String) : Option ConfigRun :=
  match ociutils.Puller env o.PlainHTTP with
  | some err => some { err := some err, requested := none, printed := none }
  | none =>
    match args with
    | [] => none
    | arg :: _ =>
      match env.resolve arg with
      | Except.error err => some { err := some err, requested := none, printed := none }
      | Except.ok ref =>
        match stringsSplit o.platform '/' with
        | [os, arch] =>
          match env.rawConfigLayer ref os arch with
          | Except.error err =>
            some { err := some err, requested := some (ref, os, arch), printed := none }
          | Except.ok config =>
            some { err := none, requested := some (ref, os, arch), printed := some config }
        | _ =>
          some { err := some ("invalid platform format: " ++ o.platform), requested := none,
                 printed := none }

/-! ### The index cache and the puller

`IndexCache.ResolveReference` and `Puller.RawConfigLayer` are called by the command and
exercised by `cmd/artifact/config/config_test.go`; their bodies are not among the sources,
so they are modelled from sections 4.1 and 4.2 of the specification. -/

/-- Modelled from the spec: an entry of an index, a name with its registry coordinates. -/
structure IndexEntry where
  Name : String
  Registry : String
  Repository : String
  deriving DecidableEq, Repr

/-- Modelled from the spec: a fully-qualified reference is a `registry/repo[:tag]` string;
it is recognised by its slash. -/
def isQualified (name : String) : Bool := decide ('/' ∈ name.data)

/-- Modelled from the spec: the key under which an input that is not fully qualified is
looked up, the text before its first colon. -/
def referenceName (name : String) : String :=
  String.mk ((splitChars ':' name.data).headD [])

/-- Modelled from the spec: the tag of an input that is not fully qualified, the text after
its first colon, or `latest`. -/
def referenceTag (name : String) : String :=
  match splitChars ':' name.data with
  | _ :: tag :: _ => String.mk tag
  | _ => "latest"

/-- Modelled from the spec: the merged mapping of the loaded indexes, in which the entry of
the earliest-loaded index wins. -/
def entryByName (indexes : List (List IndexEntry)) (key : String) : Option IndexEntry :=
  indexes.findSome? (fun index => index.find? (fun entry => entry.Name = key))

/-- The error of `ResolveReference` for a name that no index knows. The specification gives
the message up to "indexes"; the test "non parsable reference" of `config_test.go` expects
it followed by ", skipping". -/
def notFoundError (name : String) : String :=
  "cannot find " ++ name ++ " among the configured indexes, skipping"

/-- Modelled from the spec: `ResolveReference(name)`: "if the input is already a
fully-qualified `registry/repo[:tag]` string, return it unchanged; otherwise look up `name`,
returning `<registry>/<repository>:<tag-or-"latest">`, failing with a NotFound error when
absent". -/
def ResolveReference (indexes : List (List IndexEntry)) (name : String) :
    Except String String :=
  if isQualified name then Except.ok name
  else
    match entryByName indexes (referenceName name) with
    | some entry =>
      Except.ok (entry.Registry ++ "/" ++ entry.Repository ++ ":" ++ referenceTag name)
    | none => Except.error (notFoundError name)

/-- Modelled from the spec: the platform of an entry of a manifest list. -/
structure Platform where
  OS : String
  Architecture : String
  deriving DecidableEq, Repr

/-- Modelled from the spec: an entry of a manifest list, the manifest of one platform,
named by its digest. -/
structure ManifestEntry where
  platform : Platform
  digest : String
  deriving DecidableEq, Repr

/-- Modelled from the spec: the top-level manifest of a reference, a manifest or a manifest
list. -/
inductive TopManifest where
  | manifest (digest : String) : TopManifest
  | manifestList (entries : List ManifestEntry) : TopManifest
  deriving DecidableEq, Repr

/-- Modelled from the spec: "if it is a manifest list, select the entry matching the
requested (os, arch); absence fails with `unable to find a manifest matching the given
platform: <os>/<arch>`". Of several matching entries the first is taken. -/
def selectManifest (top : TopManifest) (os arch : String) : Except String String :=
  match top with
  | TopManifest.manifest digest => Except.ok digest
  | TopManifest.manifestList entries =>
    match entries.find? (fun entry => entry.platform = { OS := os, Architecture := arch }) with
    | some entry => Except.ok entry.digest
    | none =>
      Except.error ("unable to find a manifest matching the given platform: " ++ os ++ "/" ++
        arch)

/-- Modelled from the spec: `RawConfigLayer`: fetch the top-level manifest of the reference
(`fetch`), select the manifest of the platform, return its config layer (`configOf`). The
tests of `config_test.go` expect a failure to get the manifest behind the words "unable to
get manifest: ". -/
def RawConfigLayer (fetch : String → Except String TopManifest)
    (configOf : String → Except String String) (ref os arch : String) : Except String String :=
  match fetch ref with
  | Except.error err => Except.error ("unable to get manifest: " ++ err)
  | Except.ok top =>
    match selectManifest top os arch with
    | Except.error err => Except.error ("unable to get manifest: " ++ err)
    | Except.ok digest => configOf digest

/-- An index for examples. -/
def exampleIndexes : List (List IndexEntry) :=
  [[{ Name := "k8saudit-rules", Registry := "ghcr.io",
      Repository := "diginfra/plugins/ruleset/k8saudit" }],
   [{ Name := "cloudtrail", Registry := "ghcr.io", Repository := "diginfra/plugins/cloudtrail" },
    { Name := "k8saudit-rules", Registry := "example.com", Repository := "mirror/k8saudit" }]]

/-- A registry for examples: the reference `localhost:5000/plugin:latest` is a manifest list
for `linux/amd64` and `linux/arm64`, the reference `localhost:5000/rules:latest` a manifest;
the config layer of a manifest stands for its digest. -/
def exampleFetch (ref : String) : Except String TopManifest :=
  if ref = "localhost:5000/plugin:latest" then
    Except.ok (TopManifest.manifestList
      [{ platform := { OS := "linux", Architecture := "amd64" }, digest := "sha256:aaaa" },
       { platform := { OS := "linux", Architecture := "arm64" }, digest := "sha256:bbbb" }])
  else if ref = "localhost:5000/rules:latest" then
    Except.ok (TopManifest.manifest "sha256:cccc")
  else Except.error "unable to fetch reference"

/-- An environment for examples: the index cache of `exampleIndexes` and the registry of
`exampleFetch`. -/
def exampleArtifactConfigEnv : ArtifactConfigEnv :=
  { newStore := none
    resolve := ResolveReference exampleIndexes
    rawConfigLayer := RawConfigLayer exampleFetch (fun digest => Except.ok digest) }

/-! ## `NewArtifactFollowCmd`: the flags before the run

`PreRunE` works on the flag set of the command, after cobra has parsed the command line.
A flag is kept as the text of its value; parsing the text into the variable bound to the
flag is the business of `Value.Set`, which is part of the environment. -/

/-- A flag of the command, `pflag.Flag`: its name, the text of its value (the default
until the flag is set) and whether it has been set. -/
structure Flag where
  Name : String
  Value : String
  Changed : Bool
  deriving DecidableEq, Repr

/-- The configuration keys `PreRunE` reads: constants of package `config`, which is not
among the sources. -/
inductive ConfigKey where
  | ArtifactFollowEveryKey : ConfigKey
  | ArtifactFollowCronKey : ConfigKey
  | ArtifactFollowDiginfraVersionsKey : ConfigKey
  | ArtifactFollowRulesfilesDirKey : ConfigKey
  | ArtifactFollowPluginsDirKey : ConfigKey
  | ArtifactFollowAssetsDirKey : ConfigKey
  | ArtifactFollowTmpDirKey : ConfigKey
  | ArtifactAllowedTypesKey : ConfigKey
  | ArtifactNoVerifyKey : ConfigKey
  deriving DecidableEq, Repr

/-- What `PreRunE` meets outside itself.
* `isSet key` is `viper.IsSet(key)`: whether the environment or the configuration file
  sets the key;
* `get key` is `fmt.Sprintf("%v", viper.Get(key))`;
* `artifactAllowedTypes` is `config.ArtifactAllowedTypes()` followed by `val.String()`;
* `valueSet name current text` is `flag.Value.Set(text)` for the flag `name` whose value
  reads `current`: the error `FlagSet.Set` reports, or the text of the value afterwards;
* `retrieve flags` is the error of `o.retrieveDiginfraVersions(ctx)`, if any, the options
  being bound to the flags. -/
structure FlagsEnv where
  isSet : ConfigKey → Bool
  get : ConfigKey → String
  artifactAllowedTypes : Except String String
  valueSet : String → String → String → Except String String
  retrieve : List Flag → Option String

/-- The method `FlagSet.Lookup` of `pflag`. -/
def lookupFlag (flags : List Flag) (name : String) : Option Flag :=
  flags.find? (fun f => f.Name = name)

/-- The method `FlagSet.Set` of `pflag`: it sets the value of the flag of that name and
marks the flag as changed. -/
def setFlag (env : FlagsEnv) : List Flag → String → String → Except String (List Flag)
  | [], name, _ => Except.error ("no such flag -" ++ name)
  | f :: rest, name, value =>
    if f.Name = name then
      match env.valueSet name f.Value value with
      | Except.error err => Except.error err
      | Except.ok text => Except.ok ({ f with Value := text, Changed := true } :: rest)
    else
      match setFlag env rest name value with
      | Except.error err => Except.error err
      | Except.ok rest2 => Except.ok (f :: rest2)

/-- One of the nine blocks "Override ... flag with viper config if not set by user" of
`PreRunE`: the name of the flag, the configuration key, the error when the flag is not
found, the words before the error of `Set`, and whether the configured value comes from
`config.ArtifactAllowedTypes()` instead of `viper.Get`. -/
structure Override where
  flag : String
  key : ConfigKey
  retrieveError : String
  overwriteError : String
  allowedTypes : Bool
  deriving DecidableEq, Repr

/-- The nine blocks of `PreRunE`, in the order of the source. The names of the three
directory flags are constants of package `options`, which is not among the sources; they
are taken from the comments of the blocks. -/
def followOverrides : List Override :=
  [{ flag := "every", key := ConfigKey.ArtifactFollowEveryKey,
     retrieveError := "unable to retrieve flag every",
     overwriteError := "unable to overwrite \"every\" flag: ", allowedTypes := false },
   { flag := "cron", key := ConfigKey.ArtifactFollowCronKey,
     retrieveError := "unable to retrieve flag cron",
     overwriteError := "unable to overwrite \"cron\" flag: ", allowedTypes := false },
   { flag := "diginfra-versions", key := ConfigKey.ArtifactFollowDiginfraVersionsKey,
     retrieveError := "unable to retrieve flag diginfra-versions",
     overwriteError := "unable to overwrite \"diginfra-versions\" flag: ",
     allowedTypes := false },
   { flag := "rulesfiles-dir", key := ConfigKey.ArtifactFollowRulesfilesDirKey,
     retrieveError := "unable to retrieve flag \"rulesfiles-dir\"",
     overwriteError := "unable to overwrite \"rulesfiles-dir\" flag: ", allowedTypes := false },
   { flag := "plugins-dir", key := ConfigKey.ArtifactFollowPluginsDirKey,
     retrieveError := "unable to retrieve flag \"plugins-dir\"",
     overwriteError := "unable to overwrite \"plugins-dir\" flag: ", allowedTypes := false },
   { flag := "assets-dir", key := ConfigKey.ArtifactFollowAssetsDirKey,
     retrieveError := "unable to retrieve flag \"assets-dir\"",
     overwriteError := "unable to overwrite \"assets-dir\" flag: ", allowedTypes := false },
   { flag := "tmp-dir", key := ConfigKey.ArtifactFollowTmpDirKey,
     retrieveError := "unable to retrieve flag tmp-dir",
     overwriteError := "unable to overwrite \"tmp-dir\" flag: ", allowedTypes := false },
   { flag := "allowed-types", key := ConfigKey.ArtifactAllowedTypesKey,
     retrieveError := "unable to retrieve flag allowed-types",
     overwriteError := "unable to overwrite \"allowed-types\" flag: ", allowedTypes := true },
   { flag := "no-verify", key := ConfigKey.ArtifactNoVerifyKey,
     retrieveError := "unable to retrieve flag no-verify",
     overwriteError := "unable to overwrite \"no-verify\" flag: ", allowedTypes := false }]

/-- The configured value a block passes to `Set`. -/
def configuredValue (env : FlagsEnv) (ov : Override) : Except String String :=
  if ov.allowedTypes then env.artifactAllowedTypes else Except.ok (env.get ov.key)

/-- One block of `PreRunE`: the flag is overwritten with the configured value when it was
not given on the command line and the key is set. -/
def overrideFlag (env : FlagsEnv) (ov : Override) (flags : List Flag) :
    Except String (List Flag) :=
  match lookupFlag flags ov.flag with
  | none => Except.error ov.retrieveError
  | some f =>
    if !f.Changed && env.isSet ov.key then
      match configuredValue env ov with
      | Except.error err => Except.error err
      | Except.ok val =>
        match setFlag env flags f.Name val with
        | Except.error err => Except.error (ov.overwriteError ++ err)
        | Except.ok flags2 => Except.ok flags2
    else Except.ok flags

/-- The blocks `ovs` one after the other; the first error ends `PreRunE`. -/
def overrideFlags (env : FlagsEnv) : List Override → List Flag → Except String (List Flag)
  | [], flags => Except.ok flags
  | ov :: rest, flags =>
    match overrideFlag env ov flags with
    | Except.error err => Except.error err
    | Except.ok flags2 => overrideFlags env rest flags2

/-- The function `PreRunE` of the follow command: the nine blocks, then the retrieval of
the versions. It gives the error it returns, or the flags afterwards. -/
def followPreRunE (env : FlagsEnv) (flags : List Flag) : Except String (List Flag) :=
  match overrideFlags env followOverrides flags with
  | Except.error err => Except.error err
  | Except.ok flags2 =>
    match env.retrieve flags2 with
    | some err =>
      Except.error ("unable to retrieve Diginfra versions, please check if it is running " ++
        "and correctly exposing the version endpoint: " ++ err)
    | none => Except.ok flags2

/-- The flags of the follow command for examples: `--every 1h` was given on the command
line, the other flags hold their defaults. -/
def exampleFlags : List Flag :=
  [{ Name := "plain-http", Value := "false", Changed := false },
   { Name := "rulesfiles-dir", Value := "/etc/diginfra", Changed := false },
   { Name := "plugins-dir", Value := "/usr/share/diginfra/plugins", Changed := false },
   { Name := "assets-dir", Value := "/etc/diginfra/assets", Changed := false },
   { Name := "every", Value := "1h0m0s", Changed := true },
   { Name := "cron", Value := "", Changed := false },
   { Name := "tmp-dir", Value := "", Changed := false },
   { Name := "diginfra-versions", Value := "http://localhost:8765/versions", Changed := false },
   { Name := "timeout", Value := "2m0s", Changed := false },
   { Name := "allowed-types", Value := "", Changed := false },
   { Name := "no-verify", Value := "false", Changed := false }]

/-- A configuration for examples: it sets `every` to `6h0m0s` and `tmp-dir` to `/var/tmp`
and nothing else; every value is accepted as it is written and the versions are
retrieved. -/
def exampleFlagsEnv : FlagsEnv :=
  { isSet := fun key =>
      decide (key = ConfigKey.ArtifactFollowEveryKey ∨ key = ConfigKey.ArtifactFollowTmpDirKey)
    get := fun key =>
      if key = ConfigKey.ArtifactFollowEveryKey then "6h0m0s"
      else if key = ConfigKey.ArtifactFollowTmpDirKey then "/var/tmp" else ""
    artifactAllowedTypes := Except.ok ""
    valueSet := fun _ _ text => Except.ok text
    retrieve := fun _ => none }

/-- The flags of the examples after `PreRunE`. -/
def exampleFlagsAfter : List Flag :=
  [{ Name := "plain-http", Value := "false", Changed := false },
   { Name := "rulesfiles-dir", Value := "/etc/diginfra", Changed := false },
   { Name := "plugins-dir", Value := "/usr/share/diginfra/plugins", Changed := false },
   { Name := "assets-dir", Value := "/etc/diginfra/assets", Changed := false },
   { Name := "every", Value := "1h0m0s", Changed := true },
   { Name := "cron", Value := "", Changed := false },
   { Name := "tmp-dir", Value := "/var/tmp", Changed := true },
   { Name := "diginfra-versions", Value := "http://localhost:8765/versions", Changed := false },
   { Name := "timeout", Value := "2m0s", Changed := false },
   { Name := "allowed-types", Value := "", Changed := false },
   { Name := "no-verify", Value := "false", Changed := false }]

/-- What a flag holds after a block of `PreRunE`, given what it held before. -/
def Overridden (env : FlagsEnv) (ov : Override) (f f2 : Flag) : Prop :=
  (f.Changed = true → f2 = f) ∧
  (f.Changed = false → env.isSet ov.key = true →
    ∃ text, configuredValue env ov = Except.ok text ∧
      env.valueSet ov.flag f.Value text = Except.ok f2.Value) ∧
  (f.Changed = false → env.isSet ov.key = false → f2 = f)

/-! ## Environments for the claims about the retry budget -/

/-- A clock for examples that starts at 0, on which a call of the base transport takes no
time and a sleep takes exactly the time asked for: the readings of `Env.now` when every
call fails and is retried. -/
def steadyClock (indef : Indefinite) (cfg : backoffConfig) : Nat → Int
  | 0 => 0
  | 1 => 0
  | i + 2 => steadyClock indef cfg (i + 1) + cfg.backoff indef (i : Int)

/-- An environment for examples: every call of the base transport fails with `err`, the
context is never cancelled, and the clock is `steadyClock`. -/
def failingEnv (indef : Indefinite) (cfg : backoffConfig) (err : String) : Env String :=
  { base := fun _ => (none, some err)
    ctxErr := fun _ => none
    now := steadyClock indef cfg }

/-- An environment for examples in which `--diginfra-versions` is the path of a file: the
path is a valid request URI when it starts with a slash, the request is built, and the
base transport, `http.DefaultTransport`, refuses on every call a URL whose scheme is
neither `http` nor `https`. The file is not part of the environment:
`retrieveDiginfraVersions` has no statement that reads one. -/
def fileVersionsEnv (indef : Indefinite) (timeout : Int) : VersionsEnv String :=
  { parseRequestURI := fun url =>
      if "/".data.isPrefixOf url.data then none else some "invalid URI for request"
    newRequest := fun _ => none
    transport := failingEnv indef (followBackoffConfig timeout)
      "unsupported protocol scheme \"\""
    readAll := fun body => Except.ok body
    unmarshal := fun _ => Except.ok [("engine_version", Json.str "26")]
    quote := fun s => "\"" ++ s ++ "\"" }

/-! ## Lemmas: rounding to binary64 -/

namespace F64

theorem bitLenAux_spec : ∀ (fuel m : Nat), m ≤ fuel →
    m < 2 ^ bitLenAux fuel m ∧ (m ≠ 0 → 2 ^ (bitLenAux fuel m - 1) ≤ m)
  | 0, m, h => by
    have hm : m = 0 := by omega
    subst hm
    simp [bitLenAux]
  | fuel + 1, m, h => by
    by_cases hm : m = 0
    · subst hm
      simp [bitLenAux]
    · have hle : m / 2 ≤ fuel := by omega
      obtain ⟨h1, h2⟩ := bitLenAux_spec fuel (m / 2) hle
      simp only [bitLenAux, if_neg hm, Nat.add_sub_cancel]
      refine ⟨?_, fun _ => ?_⟩
      · rw [pow_succ]
        omega
      · by_cases hz : m / 2 = 0
        · have hb : bitLenAux fuel (m / 2) = 0 := by
            rw [hz]
            cases fuel <;> simp [bitLenAux]
          rw [hb]
          simp
          omega
        · have h3 := h2 hz
          have hpos : 0 < bitLenAux fuel (m / 2) := by
            rcases Nat.eq_zero_or_pos (bitLenAux fuel (m / 2)) with h0 | h0
            · rw [h0] at h1
              simp at h1
              exact absurd h1 hz
            · exact h0
          obtain ⟨c, hc⟩ : ∃ c, bitLenAux fuel (m / 2) = c + 1 := ⟨_, (Nat.succ_pred_eq_of_pos hpos).symm⟩
          rw [hc] at h3 ⊢
          simp only [Nat.add_sub_cancel] at h3
          rw [pow_succ]
          omega

theorem lt_two_pow_bitLen (m : Nat) : m < 2 ^ bitLen m :=
  (bitLenAux_spec m m (Nat.le_refl m)).1

theorem two_pow_bitLen_le (m : Nat) (h : m ≠ 0) : 2 ^ (bitLen m - 1) ≤ m :=
  (bitLenAux_spec m m (Nat.le_refl m)).2 h

theorem bitLen_pos (m : Nat) (h : m ≠ 0) : 0 < bitLen m := by
  rcases Nat.eq_zero_or_pos (bitLen m) with h0 | h0
  · have := lt_two_pow_bitLen m
    rw [h0] at this
    omega
  · exact h0

theorem bitLen_zero : bitLen 0 = 0 := by
  simp [bitLen, bitLenAux]

/-- A magnitude of at most `n` bits is below `2^n`. -/
theorem lt_two_pow_of_bitLen_le (m n : Nat) (h : bitLen m ≤ n) : m < 2 ^ n :=
  lt_of_lt_of_le (lt_two_pow_bitLen m) (Nat.pow_le_pow_right (by norm_num) h)

/-- The two shapes of a rounding: nothing to round, or a division by `2^s` whose quotient is
kept or incremented. -/
theorem roundMag_cases (m : Nat) (e : Int) :
    (roundMag m e = (m, e) ∧ bitLen m ≤ 53 ∧ -1074 ≤ e) ∨
    (∃ s : Nat, 0 < s ∧ (roundMag m e).2 = e + s ∧ -1074 ≤ (roundMag m e).2 ∧
      ((roundMag m e).1 = m / 2 ^ s ∨ ((roundMag m e).1 = m / 2 ^ s + 1 ∧ m % 2 ^ s ≠ 0)) ∧
      m / 2 ^ s < 2 ^ 53 ∧ ((roundMag m e).2 = -1074 ∨ 2 ^ 52 ≤ m / 2 ^ s)) := by
  unfold roundMag
  by_cases hte : ulpExp m e ≤ e
  · left
    simp only [if_pos hte, true_and]
    unfold ulpExp at hte
    constructor <;> omega
  · right
    simp only [if_neg hte]
    have hs : (((ulpExp m e - e).toNat : Nat) : Int) = ulpExp m e - e := by
      rw [Int.toNat_of_nonneg]; omega
    set s := (ulpExp m e - e).toNat with hsdef
    have hspos : 0 < s := by omega
    have hge : -1074 ≤ ulpExp m e := by unfold ulpExp; omega
    have hL : bitLen m ≤ s + 53 := by unfold ulpExp at hs; omega
    have hk : m / 2 ^ s < 2 ^ 53 := by
      rw [Nat.div_lt_iff_lt_mul (by positivity)]
      calc m < 2 ^ bitLen m := lt_two_pow_bitLen m
        _ ≤ 2 ^ (s + 53) := Nat.pow_le_pow_right (by norm_num) hL
        _ = 2 ^ 53 * 2 ^ s := by rw [pow_add, mul_comm]
    have hnorm : ulpExp m e = -1074 ∨ 2 ^ 52 ≤ m / 2 ^ s := by
      by_cases h74 : ulpExp m e = -1074
      · exact Or.inl h74
      · right
        have hLs : bitLen m = s + 53 := by unfold ulpExp at hs h74; omega
        have hm0 : m ≠ 0 := by
          intro h0
          rw [h0, bitLen_zero] at hLs
          omega
        rw [Nat.le_div_iff_mul_le (by positivity)]
        calc 2 ^ 52 * 2 ^ s = 2 ^ (bitLen m - 1) := by
              rw [← pow_add]; congr 1; omega
          _ ≤ m := two_pow_bitLen_le m hm0
    have hhalf : 0 < 2 ^ (s - 1) := by positivity
    refine ⟨s, hspos, ?_, ?_, ?_, hk, ?_⟩
    · split_ifs <;> simp <;> omega
    · split_ifs <;> simpa using hge
    · split_ifs with h1 h2 h3
      · exact Or.inl rfl
      · exact Or.inr ⟨rfl, by omega⟩
      · exact Or.inl rfl
      · exact Or.inr ⟨rfl, by omega⟩
    · split_ifs <;> simpa using hnorm

end F64

namespace F64

theorem two_zpow_pos (e : Int) : (0 : ℚ) < 2 ^ e := zpow_pos (by norm_num) e

theorem two_zpow_add (a b : Int) : (2 : ℚ) ^ (a + b) = 2 ^ a * 2 ^ b :=
  zpow_add₀ (by norm_num) a b

theorem two_zpow_le {a b : Int} (h : a ≤ b) : (2 : ℚ) ^ a ≤ 2 ^ b :=
  zpow_le_zpow_right₀ (by norm_num) h

theorem two_zpow_add_nat (e : Int) (s : Nat) : (2 : ℚ) ^ (e + (s : Int)) = 2 ^ e * ((2 ^ s : Nat) : ℚ) := by
  rw [two_zpow_add, zpow_natCast]
  push_cast
  rfl

/-- Comparing `x * 2^(e+s)` with `y * 2^e` is comparing `x * 2^s` with `y`. -/
theorem scaled_le_iff (x y : Nat) (e : Int) (s : Nat) :
    (x : ℚ) * 2 ^ (e + (s : Int)) ≤ (y : ℚ) * 2 ^ e ↔ x * 2 ^ s ≤ y := by
  rw [two_zpow_add_nat]
  have hpos := two_zpow_pos e
  constructor
  · intro h
    have h' : ((x * 2 ^ s : Nat) : ℚ) * 2 ^ e ≤ (y : ℚ) * 2 ^ e := by
      push_cast at h ⊢
      linarith
    exact_mod_cast le_of_mul_le_mul_right h' hpos
  · intro h
    have h' : ((x * 2 ^ s : Nat) : ℚ) ≤ (y : ℚ) := by exact_mod_cast h
    have := mul_le_mul_of_nonneg_right h' hpos.le
    push_cast at this ⊢
    linarith

theorem le_scaled_iff (x y : Nat) (e : Int) (s : Nat) :
    (y : ℚ) * 2 ^ e ≤ (x : ℚ) * 2 ^ (e + (s : Int)) ↔ y ≤ x * 2 ^ s := by
  rw [two_zpow_add_nat]
  have hpos := two_zpow_pos e
  constructor
  · intro h
    have h' : (y : ℚ) * 2 ^ e ≤ ((x * 2 ^ s : Nat) : ℚ) * 2 ^ e := by
      push_cast at h ⊢
      linarith
    exact_mod_cast le_of_mul_le_mul_right h' hpos
  · intro h
    have h' : (y : ℚ) ≤ ((x * 2 ^ s : Nat) : ℚ) := by exact_mod_cast h
    have := mul_le_mul_of_nonneg_right h' hpos.le
    push_cast at this ⊢
    linarith

/-- A binary64 magnitude `a * 2^b` whose exponent is below `t` stays below `2^52 * 2^t`. -/
theorem small_exp_bound (a : Nat) (b t : Int) (ha : a ≤ 2 ^ 53) (hbt : b < t) :
    (a : ℚ) * 2 ^ b ≤ (2 : ℚ) ^ 52 * 2 ^ t := by
  have h1 : (a : ℚ) ≤ 2 ^ 53 := by exact_mod_cast ha
  have h2 : (2 : ℚ) ^ b ≤ 2 ^ (t - 1) := two_zpow_le (by omega)
  have h3 : (2 : ℚ) ^ t = 2 ^ (t - 1) * 2 := by
    have := two_zpow_add (t - 1) 1
    simp only [sub_add_cancel, zpow_one] at this
    exact this
  have hpos := two_zpow_pos b
  have hpos' := two_zpow_pos (t - 1)
  calc (a : ℚ) * 2 ^ b ≤ 2 ^ 53 * 2 ^ b := mul_le_mul_of_nonneg_right h1 hpos.le
    _ ≤ 2 ^ 53 * 2 ^ (t - 1) := mul_le_mul_of_nonneg_left h2 (by positivity)
    _ = 2 ^ 52 * 2 ^ t := by rw [h3]; ring

/-- Rounding never crosses a binary64 number from above: a representable `a * 2^b` below
the exact value stays below the rounded one. -/
theorem roundMag_lower (m : Nat) (e : Int) (a : Nat) (b : Int) (ha : a ≤ 2 ^ 53)
    (hb : -1074 ≤ b) (h : (a : ℚ) * 2 ^ b ≤ (m : ℚ) * 2 ^ e) :
    (a : ℚ) * 2 ^ b ≤ ((roundMag m e).1 : ℚ) * 2 ^ (roundMag m e).2 := by
  rcases roundMag_cases m e with ⟨heq, _, _⟩ | ⟨s, _, ht, _, hk, _, hnorm⟩
  · rw [heq]; exact h
  · have hk0 : m / 2 ^ s ≤ (roundMag m e).1 := by rcases hk with h1 | ⟨h1, _⟩ <;> omega
    have hpos := two_zpow_pos (roundMag m e).2
    have key : (a : ℚ) * 2 ^ b ≤ ((m / 2 ^ s : Nat) : ℚ) * 2 ^ (roundMag m e).2 := by
      by_cases hbt : (roundMag m e).2 ≤ b
      · have hd : b = e + ((s + (b - (roundMag m e).2).toNat : Nat) : Int) := by
          push_cast
          rw [Int.toNat_of_nonneg (by omega)]
          omega
        have hd' : b = (roundMag m e).2 + (((b - (roundMag m e).2).toNat : Nat) : Int) := by
          rw [Int.toNat_of_nonneg (by omega)]
          omega
        set d := (b - (roundMag m e).2).toNat
        have h1 : a * 2 ^ (s + d) ≤ m := by
          rw [hd] at h
          exact (scaled_le_iff a m e (s + d)).1 h
        have h2 : a * 2 ^ d ≤ m / 2 ^ s := by
          rw [Nat.le_div_iff_mul_le (by positivity)]
          calc a * 2 ^ d * 2 ^ s = a * 2 ^ (s + d) := by rw [pow_add]; ring
            _ ≤ m := h1
        have h3 : ((a * 2 ^ d : Nat) : ℚ) ≤ ((m / 2 ^ s : Nat) : ℚ) := by exact_mod_cast h2
        have h4 : (a : ℚ) * 2 ^ b = ((a * 2 ^ d : Nat) : ℚ) * 2 ^ (roundMag m e).2 := by
          conv_lhs => rw [hd']
          rw [two_zpow_add_nat]
          push_cast
          ring
        rw [h4]
        exact mul_le_mul_of_nonneg_right h3 hpos.le
      · have hbt' : b < (roundMag m e).2 := by omega
        have h52 : 2 ^ 52 ≤ m / 2 ^ s := by
          rcases hnorm with h0 | h0
          · omega
          · exact h0
        have h52' : (2 : ℚ) ^ 52 ≤ ((m / 2 ^ s : Nat) : ℚ) := by exact_mod_cast h52
        calc (a : ℚ) * 2 ^ b ≤ (2 : ℚ) ^ 52 * 2 ^ (roundMag m e).2 := small_exp_bound a b _ ha hbt'
          _ ≤ ((m / 2 ^ s : Nat) : ℚ) * 2 ^ (roundMag m e).2 :=
            mul_le_mul_of_nonneg_right h52' hpos.le
    have hk0' : ((m / 2 ^ s : Nat) : ℚ) ≤ ((roundMag m e).1 : ℚ) := by exact_mod_cast hk0
    exact le_trans key (mul_le_mul_of_nonneg_right hk0' hpos.le)

/-- Rounding never crosses a binary64 number from below: a representable `a * 2^b` above
the exact value stays above the rounded one. -/
theorem roundMag_upper (m : Nat) (e : Int) (a : Nat) (b : Int) (ha : a ≤ 2 ^ 53)
    (hb : -1074 ≤ b) (h : (m : ℚ) * 2 ^ e ≤ (a : ℚ) * 2 ^ b) :
    ((roundMag m e).1 : ℚ) * 2 ^ (roundMag m e).2 ≤ (a : ℚ) * 2 ^ b := by
  rcases roundMag_cases m e with ⟨heq, _, _⟩ | ⟨s, _, ht, _, hk, _, hnorm⟩
  · rw [heq]; exact h
  · have hpos := two_zpow_pos (roundMag m e).2
    have hdm : m / 2 ^ s * 2 ^ s ≤ m := Nat.div_mul_le_self m (2 ^ s)
    have hfloor : ((m / 2 ^ s : Nat) : ℚ) * 2 ^ (roundMag m e).2 ≤ (m : ℚ) * 2 ^ e := by
      rw [ht]
      exact (scaled_le_iff _ _ _ _).2 hdm
    rcases hk with h1 | ⟨h1, hr⟩
    · rw [h1]; exact le_trans hfloor h
    · have hlt : m / 2 ^ s * 2 ^ s < m := by
        have := Nat.div_add_mod m (2 ^ s)
        have hc : 2 ^ s * (m / 2 ^ s) = m / 2 ^ s * 2 ^ s := Nat.mul_comm _ _
        omega
      by_cases hbt : (roundMag m e).2 ≤ b
      · have hd : b = e + ((s + (b - (roundMag m e).2).toNat : Nat) : Int) := by
          push_cast
          rw [Int.toNat_of_nonneg (by omega)]
          omega
        have hd' : b = (roundMag m e).2 + (((b - (roundMag m e).2).toNat : Nat) : Int) := by
          rw [Int.toNat_of_nonneg (by omega)]
          omega
        set d := (b - (roundMag m e).2).toNat
        have h2 : m ≤ a * 2 ^ (s + d) := by
          rw [hd] at h
          exact (le_scaled_iff a m e (s + d)).1 h
        have h3 : m / 2 ^ s + 1 ≤ a * 2 ^ d := by
          by_contra hcon
          have hcon' : a * 2 ^ d ≤ m / 2 ^ s := by omega
          have : a * 2 ^ d * 2 ^ s ≤ m / 2 ^ s * 2 ^ s := Nat.mul_le_mul_right _ hcon'
          have e1 : a * 2 ^ d * 2 ^ s = a * 2 ^ (s + d) := by rw [pow_add]; ring
          omega
        have h4 : (a : ℚ) * 2 ^ b = ((a * 2 ^ d : Nat) : ℚ) * 2 ^ (roundMag m e).2 := by
          conv_lhs => rw [hd']
          rw [two_zpow_add_nat]
          push_cast
          ring
        rw [h4, h1]
        have h5 : ((m / 2 ^ s + 1 : Nat) : ℚ) ≤ ((a * 2 ^ d : Nat) : ℚ) := by exact_mod_cast h3
        exact mul_le_mul_of_nonneg_right h5 hpos.le
      · exfalso
        have hbt' : b < (roundMag m e).2 := by omega
        have h52 : 2 ^ 52 ≤ m / 2 ^ s := by
          rcases hnorm with h0 | h0
          · omega
          · exact h0
        have h52' : (2 : ℚ) ^ 52 ≤ ((m / 2 ^ s : Nat) : ℚ) := by exact_mod_cast h52
        have hb1 := small_exp_bound a b _ ha hbt'
        have hb2 : (2 : ℚ) ^ 52 * 2 ^ (roundMag m e).2 ≤ ((m / 2 ^ s : Nat) : ℚ) * 2 ^ (roundMag m e).2 :=
          mul_le_mul_of_nonneg_right h52' hpos.le
        have hstrict : ((m / 2 ^ s : Nat) : ℚ) * 2 ^ (roundMag m e).2 < (m : ℚ) * 2 ^ e := by
          rw [ht]
          by_contra hcon
          have := (le_scaled_iff _ _ _ _).1 (not_lt.1 hcon)
          omega
        linarith

/-- The rounded magnitude is a binary64 magnitude: at most 53 bits, exponent at least `-1074`. -/
theorem roundMag_rep (m : Nat) (e : Int) :
    (roundMag m e).1 ≤ 2 ^ 53 ∧ -1074 ≤ (roundMag m e).2 := by
  rcases roundMag_cases m e with ⟨heq, hL, he⟩ | ⟨s, _, ht, hge, hk, hlt, _⟩
  · rw [heq]
    exact ⟨(lt_two_pow_of_bitLen_le m 53 hL).le, he⟩
  · refine ⟨?_, hge⟩
    rcases hk with h1 | ⟨h1, _⟩ <;> omega

theorem roundMag_zero (e : Int) : (roundMag 0 e).1 = 0 := by
  rcases roundMag_cases 0 e with ⟨heq, _, _⟩ | ⟨s, _, _, _, hk, _, _⟩
  · rw [heq]
  · rcases hk with h1 | ⟨_, hr⟩
    · simpa using h1
    · simp at hr

end F64

/-! ## Lemmas: comparison, truncation, overflow -/

namespace F64

theorem int_scaled (m : Int) (c : Int) (d : Nat) :
    (m : ℚ) * 2 ^ (c + (d : Int)) = ((m * 2 ^ d : Int) : ℚ) * 2 ^ c := by
  rw [two_zpow_add, zpow_natCast]
  push_cast
  ring

theorem dyadicLt_iff (m e m' e' : Int) :
    dyadicLt m e m' e' = true ↔ (m : ℚ) * 2 ^ e < (m' : ℚ) * 2 ^ e' := by
  unfold dyadicLt
  simp only [decide_eq_true_eq]
  obtain ⟨c, hc⟩ : ∃ c, c = min e e' := ⟨_, rfl⟩
  rw [← hc]
  have hpos := two_zpow_pos c
  have h1 : e = c + (((e - c).toNat : Nat) : Int) := by
    rw [Int.toNat_of_nonneg (by omega)]; omega
  have h2 : e' = c + (((e' - c).toNat : Nat) : Int) := by
    rw [Int.toNat_of_nonneg (by omega)]; omega
  have e1 : (m : ℚ) * 2 ^ e = ((m * 2 ^ (e - c).toNat : Int) : ℚ) * 2 ^ c := by
    conv_lhs => rw [h1]
    exact int_scaled m c _
  have e2 : (m' : ℚ) * 2 ^ e' = ((m' * 2 ^ (e' - c).toNat : Int) : ℚ) * 2 ^ c := by
    conv_lhs => rw [h2]
    exact int_scaled m' c _
  rw [e1, e2, mul_lt_mul_right hpos]
  exact Int.cast_lt.symm

theorem trunc_eq_floor (m e : Int) (hm : 0 ≤ m) : trunc m e = ⌊(m : ℚ) * 2 ^ e⌋ := by
  unfold trunc
  by_cases he : 0 ≤ e
  · rw [if_pos he]
    have h : (m : ℚ) * 2 ^ e = ((m * 2 ^ e.toNat : Int) : ℚ) := by
      conv_lhs => rw [← Int.toNat_of_nonneg he, zpow_natCast]
      push_cast
      rfl
    rw [h, Int.floor_intCast]
  · rw [if_neg he]
    have hn : e = -(((-e).toNat : Nat) : Int) := by
      rw [Int.toNat_of_nonneg (by omega)]; omega
    have h : (m : ℚ) * 2 ^ e = (m : ℚ) / (((2 ^ (-e).toNat : Nat)) : ℚ) := by
      conv_lhs => rw [hn, zpow_neg, zpow_natCast]
      push_cast
      rfl
    rw [h, Rat.floor_intCast_div_natCast]
    rw [Int.tdiv_eq_ediv hm (by positivity)]
    push_cast
    rfl

theorem overflows_ge (k : Nat) (t : Int) (h : overflows k t = true) :
    (2 : ℚ) ^ (1024 : Int) ≤ (k : ℚ) * 2 ^ t := by
  unfold overflows at h
  simp only [Bool.and_eq_true, decide_eq_true_eq] at h
  obtain ⟨hk, hL⟩ := h
  have h1 := two_pow_bitLen_le k hk
  have hpos := bitLen_pos k hk
  have h2 : (2 : ℚ) ^ ((bitLen k - 1 : Nat) : Int) ≤ (k : ℚ) := by
    rw [zpow_natCast]
    exact_mod_cast h1
  have h3 : (2 : ℚ) ^ (1024 : Int) ≤ 2 ^ (((bitLen k - 1 : Nat) : Int) + t) :=
    two_zpow_le (by omega)
  rw [two_zpow_add] at h3
  exact le_trans h3 (mul_le_mul_of_nonneg_right h2 (two_zpow_pos t).le)

end F64

/-! ## Lemmas: products by a multiplier of at least one -/

namespace F64

theorem natAbs_cast (m : Int) (h : 0 ≤ m) : ((m.natAbs : Nat) : ℚ) = (m : ℚ) := by
  rw [Nat.cast_natAbs, abs_of_nonneg h]

theorem ofInt_zero : ofInt 0 = fin 0 0 := by decide

theorem ofInt_one : ofInt 1 = fin 1 0 := by decide

/-- Rounding a non-negative number: an overflow to `+Inf`, or the rounded magnitude. -/
theorem round_of_nonneg (m e : Int) (hm : 0 ≤ m) :
    (overflows (roundMag m.natAbs e).1 (roundMag m.natAbs e).2 = true ∧ round m e = inf false) ∨
    (overflows (roundMag m.natAbs e).1 (roundMag m.natAbs e).2 = false ∧
      round m e = fin ((roundMag m.natAbs e).1 : Int) (roundMag m.natAbs e).2) := by
  unfold round
  have hneg : ¬ m < 0 := by omega
  by_cases ho : overflows (roundMag m.natAbs e).1 (roundMag m.natAbs e).2 = true
  · left
    simp [ho, hneg]
  · right
    simp only [Bool.not_eq_true] at ho
    simp [ho, hneg]

/-- Rounding a positive number that is at least a positive binary64 number `a * 2^b` gives
a positive binary64 number that is still at least `a * 2^b`, or `+Inf`. -/
theorem round_pos_lower (m e : Int) (a : Nat) (b : Int) (hm : 0 ≤ m) (ha0 : 0 < a)
    (ha : a ≤ 2 ^ 53) (hb : -1074 ≤ b) (h : (a : ℚ) * 2 ^ b ≤ (m : ℚ) * 2 ^ e) :
    PosOrInf (round m e) ∧ Below (fin a b) (round m e) := by
  have hlow := roundMag_lower m.natAbs e a b ha hb (by rw [natAbs_cast m hm]; exact h)
  have hrep := roundMag_rep m.natAbs e
  rcases round_of_nonneg m e hm with ⟨_, hr⟩ | ⟨_, hr⟩
  · rw [hr]
    exact ⟨rfl, rfl⟩
  · rw [hr]
    have hapos : (0 : ℚ) < (a : ℚ) * 2 ^ b :=
      mul_pos (by exact_mod_cast ha0) (two_zpow_pos b)
    have hkpos : 0 < (roundMag m.natAbs e).1 := by
      rcases Nat.eq_zero_or_pos (roundMag m.natAbs e).1 with h0 | h0
      · rw [h0] at hlow
        simp at hlow
        linarith
      · exact h0
    refine ⟨⟨by exact_mod_cast hkpos, by simpa using hrep.1, hrep.2⟩, ?_⟩
    show ((a : Int) : ℚ) * 2 ^ b ≤ (((roundMag m.natAbs e).1 : Int) : ℚ) * 2 ^ (roundMag m.natAbs e).2
    exact_mod_cast hlow

theorem ofInt_posOrInf (n : Int) (h : 0 < n) : PosOrInf (ofInt n) ∧ Below (fin 1 0) (ofInt n) := by
  have h1 : (1 : ℚ) ≤ (n : ℚ) := by exact_mod_cast h
  have := round_pos_lower n 0 1 0 h.le (by norm_num) (by norm_num) (by norm_num) (by simpa using h1)
  simpa [ofInt] using this

theorem below_refl (a : F64) (h : PosOrInf a) : Below a a := by
  cases a with
  | nan => exact h.elim
  | inf s => exact ⟨h, h⟩
  | fin m e => exact le_refl _

theorem below_trans (a b c : F64) (hab : Below a b) (hbc : Below b c) : Below a c := by
  cases a <;> cases b <;> cases c <;> simp_all [Below]
  exact le_trans hab hbc

/-- Multiplying a positive value by a multiplier `≥ 1` does not decrease it. -/
theorem mul_ge (x mult : F64) (hx : PosOrInf x) (hm : le (ofInt 1) mult = true) :
    PosOrInf (mul x mult) ∧ Below x (mul x mult) := by
  rw [ofInt_one] at hm
  cases mult with
  | nan => simp [le] at hm
  | inf s =>
    have hs : s = false := by simpa [le] using hm
    subst hs
    cases x with
    | nan => exact hx.elim
    | inf s' =>
      have : s' = false := hx
      subst this
      exact ⟨rfl, rfl, rfl⟩
    | fin m e =>
      have hm0 : m ≠ 0 := by have := hx.1; omega
      have hneg : ¬ m < 0 := by have := hx.1; omega
      simp [mul, hm0, hneg, PosOrInf, Below]
  | fin mm me =>
    have hge : (1 : ℚ) ≤ (mm : ℚ) * 2 ^ me := by
      have h1 : dyadicLt mm me 1 0 = false := by simpa [le] using hm
      have h2 := (dyadicLt_iff mm me 1 0).not.1 (by simp [h1])
      simpa using h2
    have hmmpos : 0 < mm := by
      by_contra hcon
      have : (mm : ℚ) ≤ 0 := by exact_mod_cast not_lt.1 hcon
      have := mul_nonpos_of_nonpos_of_nonneg this (two_zpow_pos me).le
      linarith
    cases x with
    | nan => exact hx.elim
    | inf s' =>
      have : s' = false := hx
      subst this
      have hm0 : mm ≠ 0 := by omega
      have hneg : ¬ mm < 0 := by omega
      simp [mul, hm0, hneg, PosOrInf, Below]
    | fin m e =>
      obtain ⟨hmpos, hmrep, herep⟩ := hx
      have hexact : ((m.natAbs : Nat) : ℚ) * 2 ^ e ≤ ((m * mm : Int) : ℚ) * 2 ^ (e + me) := by
        rw [natAbs_cast m hmpos.le, two_zpow_add]
        push_cast
        have hx0 : (0 : ℚ) ≤ (m : ℚ) * 2 ^ e :=
          mul_nonneg (by exact_mod_cast hmpos.le) (two_zpow_pos e).le
        calc (m : ℚ) * 2 ^ e = (m : ℚ) * 2 ^ e * 1 := by ring
          _ ≤ (m : ℚ) * 2 ^ e * ((mm : ℚ) * 2 ^ me) := mul_le_mul_of_nonneg_left hge hx0
          _ = (m : ℚ) * (mm : ℚ) * (2 ^ e * 2 ^ me) := by ring
      have := round_pos_lower (m * mm) (e + me) m.natAbs e (by positivity)
        (by omega) hmrep herep hexact
      have hcast : ((m.natAbs : Nat) : Int) = m := Int.natAbs_of_nonneg hmpos.le
      rw [hcast] at this
      exact this

theorem iterMul_ge (mult : F64) (hm : le (ofInt 1) mult = true) :
    ∀ (n : Nat) (x : F64), PosOrInf x →
      PosOrInf (iterMul mult n x) ∧ Below x (iterMul mult n x)
  | 0, x, hx => ⟨hx, below_refl x hx⟩
  | n + 1, x, hx => by
    obtain ⟨h1, h2⟩ := mul_ge x mult hx hm
    obtain ⟨h3, h4⟩ := iterMul_ge mult hm n (mul x mult) h1
    exact ⟨h3, below_trans _ _ _ h2 h4⟩

end F64

/-! ## Lemmas: the loop against the full product -/

namespace F64

theorem lt_zero_of_posOrInf (y : F64) (h : PosOrInf y) : lt y (ofInt 0) = false := by
  rw [ofInt_zero]
  cases y with
  | nan => exact h.elim
  | inf s => simpa [lt] using h
  | fin m e =>
    have hpos : (0 : ℚ) ≤ (m : ℚ) * 2 ^ e :=
      mul_nonneg (by exact_mod_cast h.1.le) (two_zpow_pos e).le
    have := (dyadicLt_iff m e 0 0).not.2 (by simpa using hpos)
    simpa [lt] using this

/-- The conversion to an integer sees only the number a non-negative finite value stands
for, not the pair that stores it. -/
theorem toInt64_congr (indef : Indefinite) (m e m' e' : Int) (hm : 0 ≤ m) (hm' : 0 ≤ m')
    (h : (m : ℚ) * 2 ^ e = (m' : ℚ) * 2 ^ e') :
    toInt64 indef (fin m e) = toInt64 indef (fin m' e') := by
  have ht : trunc m e = trunc m' e' := by
    rw [trunc_eq_floor m e hm, trunc_eq_floor m' e' hm', h]
  have h1 : ¬ m < 0 := by omega
  have h2 : ¬ m' < 0 := by omega
  simp only [toInt64, ht, if_neg h1, if_neg h2]

theorem capFloor_posOrInf (indef : Indefinite) (max y : F64) (hy : PosOrInf y)
    (hmax : PosOrInf max) : capFloor indef max y = toInt64 indef (fmin y max) := by
  unfold capFloor fmin gt
  by_cases h : lt max y = true
  · rw [if_pos h]
    simp only [if_pos h, lt_zero_of_posOrInf max hmax]
    simp
  · rw [if_neg h]
    simp only [if_neg h, lt_zero_of_posOrInf y hy]
    simp

/-- At or above a finite cap, the capped value converts as the cap itself. -/
theorem fmin_above (indef : Indefinite) (w : F64) (M E : Int) (hw : PosOrInf w)
    (hmax : PosOrInf (fin M E)) (hlt : lt w (fin M E) = false) :
    toInt64 indef (fmin w (fin M E)) = toInt64 indef (fin M E) := by
  unfold fmin
  cases w with
  | nan => exact hw.elim
  | inf s =>
    have : s = false := hw
    subst this
    simp [lt]
  | fin m e =>
    by_cases h : lt (fin M E) (fin m e) = true
    · simp [h]
    · simp only [h, if_false]
      have h1 : ¬ ((m : ℚ) * 2 ^ e < (M : ℚ) * 2 ^ E) := by
        rw [← dyadicLt_iff]
        simpa [lt] using hlt
      have h2 : ¬ ((M : ℚ) * 2 ^ E < (m : ℚ) * 2 ^ e) := by
        rw [← dyadicLt_iff]
        simpa [lt] using h
      exact toInt64_congr indef m e M E hw.1.le hmax.1.le (le_antisymm (not_lt.1 h2) (not_lt.1 h1))

theorem lt_false_of_below (z y : F64) (M E : Int) (hz : PosOrInf z) (hy : PosOrInf y)
    (hlt : lt z (fin M E) = false) (hzy : Below z y) : lt y (fin M E) = false := by
  cases y with
  | nan => exact hy.elim
  | inf s => simpa [lt] using hy
  | fin m' e' =>
    cases z with
    | nan => exact hz.elim
    | inf s => simp [Below] at hzy
    | fin m e =>
      have h1 : ¬ ((m : ℚ) * 2 ^ e < (M : ℚ) * 2 ^ E) := by
        rw [← dyadicLt_iff]
        simpa [lt] using hlt
      have h2 : (m : ℚ) * 2 ^ e ≤ (m' : ℚ) * 2 ^ e' := hzy
      have h3 : ¬ ((m' : ℚ) * 2 ^ e' < (M : ℚ) * 2 ^ E) := by
        intro hc
        exact h1 (lt_of_le_of_lt h2 hc)
      have := (dyadicLt_iff m' e' M E).not.2 h3
      simpa [lt] using this

/-- Once the delay has reached the cap, anything at or above it is capped to the same
duration. -/
theorem capFloor_above (indef : Indefinite) (max z y : F64) (hz : PosOrInf z)
    (hy : PosOrInf y) (hmax : PosOrInf max) (hlt : lt z max = false) (hzy : Below z y) :
    capFloor indef max z = capFloor indef max y := by
  rw [capFloor_posOrInf indef max z hz hmax, capFloor_posOrInf indef max y hy hmax]
  cases max with
  | nan => exact hmax.elim
  | inf s =>
    have : s = false := hmax
    subst this
    cases z with
    | nan => exact hz.elim
    | fin m e => simp [lt] at hlt
    | inf s' =>
      cases y with
      | nan => exact hy.elim
      | fin m e => simp [Below] at hzy
      | inf s2 =>
        have h1 : s' = false := hz
        have h2 : s2 = false := hy
        subst h1 h2
        rfl
  | fin M E =>
    rw [fmin_above indef z M E hz hmax hlt,
      fmin_above indef y M E hy hmax (lt_false_of_below z y M E hz hy hlt hzy)]

end F64

/-- The loop with its exit on `backoff >= max` and the full product end in the same delay. -/
theorem backoffLoop_eq_iterMul (indef : Indefinite) (mult max : F64)
    (hm : F64.le (F64.ofInt 1) mult = true) (hmax : F64.PosOrInf max) :
    ∀ (n : Nat) (x : F64), F64.PosOrInf x →
      capFloor indef max (backoffLoop mult max n x) = capFloor indef max (iterMul mult n x)
  | 0, _, _ => rfl
  | n + 1, x, hx => by
    by_cases h : F64.lt x max = true
    · simp only [backoffLoop, iterMul, h, if_true]
      exact backoffLoop_eq_iterMul indef mult max hm hmax n _ (F64.mul_ge x mult hx hm).1
    · simp only [backoffLoop, h, if_false]
      simp only [Bool.not_eq_true] at h
      obtain ⟨h1, h2⟩ := F64.iterMul_ge mult hm (n + 1) x hx
      exact F64.capFloor_above indef max x _ hx h1 hmax h h2

theorem backoff_eq_capFloor (indef : Indefinite) (bc : backoffConfig) (n : Int) (hn : n ≠ 0) :
    bc.backoff indef n = capFloor indef (F64.ofInt bc.MaxDelay)
      (backoffLoop bc.Multiplier (F64.ofInt bc.MaxDelay) n.toNat (F64.ofInt bc.BaseDelay)) := by
  simp only [backoffConfig.backoff, if_neg hn, capFloor]

/-- For a positive base delay and a multiplier `≥ 1` the delay of a later attempt is the
capped full product, converted. -/
theorem backoff_eq_backoffRounded (indef : Indefinite) (bc : backoffConfig) (n : Int)
    (hB : 0 < bc.BaseDelay) (hBM : bc.BaseDelay ≤ bc.MaxDelay)
    (hM : F64.le (F64.ofInt 1) bc.Multiplier = true) (hn : 1 ≤ n) :
    bc.backoff indef n = backoffRounded indef bc n := by
  have hx := (F64.ofInt_posOrInf bc.BaseDelay hB).1
  have hmax := (F64.ofInt_posOrInf bc.MaxDelay (lt_of_lt_of_le hB hBM)).1
  rw [backoff_eq_capFloor indef bc n (by omega),
    backoffLoop_eq_iterMul indef _ _ hM hmax _ _ hx,
    F64.capFloor_posOrInf indef _ _ (F64.iterMul_ge _ hM _ _ hx).1 hmax]
  rfl

/-! ## Lemmas: bounds and the absence of NaN -/

namespace F64

/-- A number whose magnitude is bounded by a binary64 number rounds to a finite value
within the same bound. -/
theorem round_bounded (m e : Int) (a : Nat) (b : Int) (ha : a ≤ 2 ^ 53) (hb : -1074 ≤ b)
    (h : ((m.natAbs : Nat) : ℚ) * 2 ^ e ≤ (a : ℚ) * 2 ^ b)
    (hlt : (a : ℚ) * 2 ^ b < 2 ^ (1024 : Int)) :
    ∃ (k : Nat) (t : Int), round m e = fin (if m < 0 then -(k : Int) else (k : Int)) t ∧
      (k : ℚ) * 2 ^ t ≤ (a : ℚ) * 2 ^ b ∧ k ≤ 2 ^ 53 ∧ -1074 ≤ t := by
  have hup := roundMag_upper m.natAbs e a b ha hb h
  have hrep := roundMag_rep m.natAbs e
  have ho : overflows (roundMag m.natAbs e).1 (roundMag m.natAbs e).2 = false := by
    by_contra hcon
    simp only [Bool.not_eq_false] at hcon
    have := overflows_ge _ _ hcon
    linarith
  refine ⟨(roundMag m.natAbs e).1, (roundMag m.natAbs e).2, ?_, hup, hrep.1, hrep.2⟩
  unfold round
  simp only [ho]
  split_ifs <;> simp_all

theorem round_ne_nan (m e : Int) : round m e ≠ nan := by
  unfold round
  by_cases ho : overflows (roundMag m.natAbs e).1 (roundMag m.natAbs e).2 = true
  · simp [ho]
  · by_cases hn : m < 0 <;> simp [ho, hn]

theorem round_inf_ne_zero (m e : Int) (s : Bool) (h : round m e = inf s) : m ≠ 0 := by
  intro h0
  subst h0
  have hz : overflows (roundMag 0 e).1 (roundMag 0 e).2 = false := by
    simp [overflows, roundMag_zero]
  simp [round, hz] at h

theorem two_pow_63_lt : ((2 ^ 53 : Nat) : ℚ) * 2 ^ (10 : Int) < 2 ^ (1024 : Int) := by
  have h1 : ((2 ^ 53 : Nat) : ℚ) * 2 ^ (10 : Int) = 2 ^ (63 : Int) := by norm_num
  rw [h1]
  exact zpow_lt_zpow_right₀ (by norm_num) (by norm_num)

/-- An `int64` converts to a finite `float64`. -/
theorem ofInt_finite (n : Int) (h : isInt64 n) : ∃ m e, ofInt n = fin m e := by
  obtain ⟨h1, h2⟩ := h
  have hn : ((n.natAbs : Nat) : ℚ) * 2 ^ (0 : Int) ≤ ((2 ^ 53 : Nat) : ℚ) * 2 ^ (10 : Int) := by
    have : n.natAbs ≤ 2 ^ 63 := by omega
    have h' : ((n.natAbs : Nat) : ℚ) ≤ ((2 ^ 63 : Nat) : ℚ) := by exact_mod_cast this
    norm_num at h' ⊢
    exact h'
  obtain ⟨k, t, hr, _⟩ := round_bounded n 0 (2 ^ 53) 10 (le_refl _) (by norm_num) hn two_pow_63_lt
  exact ⟨_, _, hr⟩

/-- A duration of at most `2^63 - 1024` ns converts to a finite `float64` of at most
`2^63 - 1024`. -/
theorem ofInt_bound (n : Int) (h1 : -(2 : Int) ^ 63 ≤ n) (h2 : n ≤ (2 : Int) ^ 63 - 1024) :
    ∃ m e, ofInt n = fin m e ∧ (m : ℚ) * 2 ^ e ≤ 2 ^ 63 - 1024 := by
  by_cases hn : n < 0
  · obtain ⟨k, t, hr, _⟩ := round_bounded n 0 (2 ^ 53) 10 (le_refl _) (by norm_num)
      (by
        have : n.natAbs ≤ 2 ^ 63 := by omega
        have h' : ((n.natAbs : Nat) : ℚ) ≤ ((2 ^ 63 : Nat) : ℚ) := by exact_mod_cast this
        norm_num at h' ⊢
        exact h') two_pow_63_lt
    rw [if_pos hn] at hr
    refine ⟨_, _, hr, ?_⟩
    have hk : (0 : ℚ) ≤ (k : ℚ) * 2 ^ t := mul_nonneg (by positivity) (two_zpow_pos t).le
    have hcast : ((-(k : Int) : Int) : ℚ) * 2 ^ t = -((k : ℚ) * 2 ^ t) := by
      push_cast
      ring
    have hc : (0 : ℚ) ≤ 2 ^ 63 - 1024 := by norm_num
    rw [hcast]
    linarith
  · have hval : ((2 ^ 53 - 1 : Nat) : ℚ) * 2 ^ (10 : Int) = 2 ^ 63 - 1024 := by norm_num
    obtain ⟨k, t, hr, hk, _⟩ := round_bounded n 0 (2 ^ 53 - 1) 10 (by norm_num) (by norm_num)
      (by
        have : n.natAbs ≤ 2 ^ 63 - 1024 := by omega
        have h' : ((n.natAbs : Nat) : ℚ) ≤ ((2 ^ 63 - 1024 : Nat) : ℚ) := by exact_mod_cast this
        rw [hval]
        norm_num at h' ⊢
        exact h')
      (by
        rw [hval]
        norm_num)
    rw [if_neg hn] at hr
    refine ⟨_, _, hr, ?_⟩
    rw [hval] at hk
    exact_mod_cast hk

/-- A duration between `0` and `2^53` ns converts to `float64` exactly. -/
theorem ofInt_exact (n : Int) (h0 : 0 ≤ n) (h : n ≤ (2 : Int) ^ 53) :
    ∃ m e, ofInt n = fin m e ∧ 0 ≤ m ∧ (m : ℚ) * 2 ^ e = (n : ℚ) := by
  have hle : n.natAbs ≤ 2 ^ 53 := by omega
  have hlt : ((n.natAbs : Nat) : ℚ) * 2 ^ (0 : Int) < 2 ^ (1024 : Int) := by
    have h' : ((n.natAbs : Nat) : ℚ) ≤ ((2 ^ 53 : Nat) : ℚ) := by exact_mod_cast hle
    have : (2 : ℚ) ^ (53 : Int) < 2 ^ (1024 : Int) :=
      zpow_lt_zpow_right₀ (by norm_num) (by norm_num)
    norm_num at h' this ⊢
    linarith
  obtain ⟨k, t, hr, hk, _⟩ := round_bounded n 0 n.natAbs 0 hle (by norm_num) (le_refl _) hlt
  have hlow := roundMag_lower n.natAbs 0 n.natAbs 0 hle (by norm_num) (le_refl _)
  have hneg : ¬ n < 0 := by omega
  rw [if_neg hneg] at hr
  have hr' : round n 0 = fin ((roundMag n.natAbs 0).1 : Int) (roundMag n.natAbs 0).2 := by
    rcases round_of_nonneg n 0 h0 with ⟨_, hinf⟩ | ⟨_, hfin⟩
    · rw [hinf] at hr; cases hr
    · exact hfin
  have hup := roundMag_upper n.natAbs 0 n.natAbs 0 hle (by norm_num) (le_refl _)
  refine ⟨_, _, hr', by positivity, ?_⟩
  have := le_antisymm hup hlow
  rw [natAbs_cast n h0] at this
  simpa using this

theorem mul_noNaN (mult x : F64) (hm : mult.isFinite = true) (hx : NoNaN mult x) :
    NoNaN mult (mul x mult) := by
  cases mult with
  | nan => simp [isFinite] at hm
  | inf s => simp [isFinite] at hm
  | fin mm me =>
    cases x with
    | nan => exact hx.elim
    | inf s =>
      obtain ⟨mm', me', heq, hne⟩ := hx
      cases heq
      simp only [mul, if_neg hne]
      exact ⟨mm, me, rfl, hne⟩
    | fin m e =>
      show NoNaN (fin mm me) (round (m * mm) (e + me))
      cases hr : round (m * mm) (e + me) with
      | nan => exact absurd hr (round_ne_nan _ _)
      | inf s =>
        have := round_inf_ne_zero _ _ _ hr
        refine ⟨mm, me, rfl, ?_⟩
        intro h0
        exact this (by rw [h0, mul_zero])
      | fin m' e' => trivial

end F64

theorem backoffLoop_noNaN (mult max : F64) (hm : mult.isFinite = true) :
    ∀ (n : Nat) (x : F64), F64.NoNaN mult x → F64.NoNaN mult (backoffLoop mult max n x)
  | 0, _, hx => hx
  | n + 1, x, hx => by
    simp only [backoffLoop]
    split_ifs
    · exact backoffLoop_noNaN mult max hm n _ (F64.mul_noNaN mult x hm hx)
    · exact hx

namespace F64

theorem nonneg_of_not_lt_zero (m e : Int) (h : lt (fin m e) (ofInt 0) = false) : 0 ≤ m := by
  rw [ofInt_zero] at h
  have h1 : ¬ ((m : ℚ) * 2 ^ e < (0 : Int) * 2 ^ (0 : Int)) := by
    rw [← dyadicLt_iff]
    simpa [lt] using h
  by_contra hcon
  apply h1
  have : (m : ℚ) < 0 := by exact_mod_cast not_le.1 hcon
  simpa using mul_neg_of_neg_of_pos this (two_zpow_pos e)

/-- A non-negative finite value below `2^63` converts to its integer part. -/
theorem toInt64_in_range (indef : Indefinite) (m e : Int) (hm : 0 ≤ m) (B : ℚ)
    (h : (m : ℚ) * 2 ^ e ≤ B) (hB : B < 2 ^ 63) :
    toInt64 indef (fin m e) = ⌊(m : ℚ) * 2 ^ e⌋ ∧ 0 ≤ ⌊(m : ℚ) * 2 ^ e⌋ := by
  have hv : (0 : ℚ) ≤ (m : ℚ) * 2 ^ e := mul_nonneg (by exact_mod_cast hm) (two_zpow_pos e).le
  have h0 : 0 ≤ ⌊(m : ℚ) * 2 ^ e⌋ := Int.floor_nonneg.2 hv
  have h1 : ⌊(m : ℚ) * 2 ^ e⌋ < (2 : Int) ^ 63 := by
    have := Int.floor_le ((m : ℚ) * 2 ^ e)
    have h2 : ((⌊(m : ℚ) * 2 ^ e⌋ : Int) : ℚ) < ((2 ^ 63 : Int) : ℚ) := by
      push_cast
      linarith
    exact_mod_cast h2
  refine ⟨?_, h0⟩
  simp only [toInt64, trunc_eq_floor m e hm]
  rw [if_pos ⟨by omega, h1⟩]

/-- The floor at zero and the conversion, on a finite value that does not exceed a cap
below `2^63`: the result is zero or an integer within the cap, never negative. -/
theorem floor_convert_bounds (indef : Indefinite) (m e : Int) (B : ℚ)
    (h : (m : ℚ) * 2 ^ e ≤ B) (hB : B < 2 ^ 63) :
    0 ≤ (if lt (fin m e) (ofInt 0) = true then 0 else toInt64 indef (fin m e)) ∧
    ((if lt (fin m e) (ofInt 0) = true then 0 else toInt64 indef (fin m e)) = 0 ∨
      (((if lt (fin m e) (ofInt 0) = true then 0 else toInt64 indef (fin m e)) : Int) : ℚ) ≤ B) := by
  by_cases hlt : lt (fin m e) (ofInt 0) = true
  · simp [hlt]
  · rw [if_neg hlt]
    simp only [Bool.not_eq_true] at hlt
    have hm := nonneg_of_not_lt_zero m e hlt
    obtain ⟨h1, h2⟩ := toInt64_in_range indef m e hm B h hB
    rw [h1]
    exact ⟨h2, Or.inr (le_trans (Int.floor_le _) h)⟩

theorem capFloor_bounds (indef : Indefinite) (b : F64) (M E : Int) (hb : b ≠ nan)
    (hB : (M : ℚ) * 2 ^ E < 2 ^ 63) :
    0 ≤ capFloor indef (fin M E) b ∧
    (capFloor indef (fin M E) b = 0 ∨
      ((capFloor indef (fin M E) b : Int) : ℚ) ≤ (M : ℚ) * 2 ^ E) := by
  unfold capFloor gt
  cases b with
  | nan => exact absurd rfl hb
  | inf s =>
    cases s with
    | true => simp [lt, ofInt_zero]
    | false =>
      have : lt (fin M E) (inf false) = true := by simp [lt]
      simp only [this, if_true]
      exact floor_convert_bounds indef M E _ (le_refl _) hB
  | fin m e =>
    by_cases h : lt (fin M E) (fin m e) = true
    · simp only [h, if_true]
      exact floor_convert_bounds indef M E _ (le_refl _) hB
    · simp only [h, if_false]
      have h1 : ¬ ((M : ℚ) * 2 ^ E < (m : ℚ) * 2 ^ e) := by
        rw [← dyadicLt_iff]
        simpa [lt] using h
      exact floor_convert_bounds indef m e _ (not_lt.1 h1) hB

end F64

theorem backoffLoop_ne_nan (bc : backoffConfig) (n : Nat) (max : F64)
    (hM : bc.Multiplier.isFinite = true) (hB : isInt64 bc.BaseDelay) :
    backoffLoop bc.Multiplier max n (F64.ofInt bc.BaseDelay) ≠ F64.nan := by
  obtain ⟨m, e, hx⟩ := F64.ofInt_finite bc.BaseDelay hB
  have h0 : F64.NoNaN bc.Multiplier (F64.ofInt bc.BaseDelay) := by rw [hx]; trivial
  have := backoffLoop_noNaN bc.Multiplier max hM n _ h0
  intro hcon
  rw [hcon] at this
  exact this

/-! ## Lemmas: the largest durations that convert below `2^63` -/

namespace F64

theorem bitLen_eq (m n : Nat) (h1 : 2 ^ n ≤ m) (h2 : m < 2 ^ (n + 1)) : bitLen m = n + 1 := by
  have hm : m ≠ 0 := by
    have : 0 < 2 ^ n := by positivity
    omega
  have hub := lt_two_pow_bitLen m
  have hlb := two_pow_bitLen_le m hm
  have hpos := bitLen_pos m hm
  have hA : n < bitLen m := (Nat.pow_lt_pow_iff_right (by norm_num : 1 < 2)).1 (lt_of_le_of_lt h1 hub)
  have hB : bitLen m - 1 < n + 1 :=
    (Nat.pow_lt_pow_iff_right (by norm_num : 1 < 2)).1 (lt_of_le_of_lt hlb h2)
  omega

/-- The integers just below `2^63 - 512` round down to `2^63 - 1024`, the largest `float64`
below `2^63`. -/
theorem ofInt_just_below (n : Int) (h1 : (2 : Int) ^ 63 - 1024 ≤ n) (h2 : n ≤ (2 : Int) ^ 63 - 513) :
    ofInt n = fin (2 ^ 53 - 1) 10 := by
  obtain ⟨a, ha⟩ : ∃ a : Nat, n = (a : Int) := ⟨n.toNat, by omega⟩
  subst ha
  have ha1 : 2 ^ 63 - 1024 ≤ a := by omega
  have ha2 : a ≤ 2 ^ 63 - 513 := by omega
  have hL : bitLen a = 63 := bitLen_eq a 62 (by omega) (by omega)
  have hq : a / 2 ^ 10 = 2 ^ 53 - 1 := by omega
  have hr : a % 2 ^ 10 < 2 ^ 9 := by omega
  have hLk : bitLen (2 ^ 53 - 1) = 53 := bitLen_eq _ 52 (by norm_num) (by norm_num)
  have hu : ulpExp a 0 = 10 := by
    unfold ulpExp
    rw [hL]
    decide
  have hround : roundMag a 0 = (2 ^ 53 - 1, 10) := by
    unfold roundMag
    rw [hu]
    have e1 : ((10 : Int) - 0).toNat = 10 := by decide
    have e2 : ¬ ((10 : Int) ≤ 0) := by decide
    simp only [e1, if_neg e2]
    rw [hq, if_pos (by simpa using hr)]
  unfold ofInt round
  simp only [Int.natAbs_ofNat, hround, overflows, hLk]
  have hneg : ¬ ((a : Int) < 0) := by omega
  simp [hneg]

/-- A duration of at most `2^63 - 513` ns converts to a finite `float64` of at most
`2^63 - 1024`. -/
theorem ofInt_bound_tight (n : Int) (h1 : -(2 : Int) ^ 63 ≤ n) (h2 : n ≤ (2 : Int) ^ 63 - 513) :
    ∃ m e, ofInt n = fin m e ∧ (m : ℚ) * 2 ^ e ≤ 2 ^ 63 - 1024 := by
  by_cases h : n ≤ (2 : Int) ^ 63 - 1024
  · exact ofInt_bound n h1 h
  · refine ⟨2 ^ 53 - 1, 10, ofInt_just_below n (by omega) h2, ?_⟩
    norm_num

end F64

/-! ## Lemmas: monotonicity of the capped product -/

namespace F64

/-- Capping at a finite positive `max` gives a positive finite value within `max`. -/
theorem fmin_fin (y : F64) (M E : Int) (hy : PosOrInf y) (hmax : PosOrInf (fin M E)) :
    ∃ m e, fmin y (fin M E) = fin m e ∧ 0 ≤ m ∧ (m : ℚ) * 2 ^ e ≤ (M : ℚ) * 2 ^ E := by
  unfold fmin
  cases y with
  | nan => exact hy.elim
  | inf s =>
    have : s = false := hy
    subst this
    exact ⟨M, E, by simp [lt], hmax.1.le, le_refl _⟩
  | fin m e =>
    by_cases h : lt (fin M E) (fin m e) = true
    · exact ⟨M, E, by simp [h], hmax.1.le, le_refl _⟩
    · have h1 : ¬ ((M : ℚ) * 2 ^ E < (m : ℚ) * 2 ^ e) := by
        rw [← dyadicLt_iff]
        simpa [lt] using h
      exact ⟨m, e, by simp [h], hy.1.le, not_lt.1 h1⟩

/-- Capping is monotone. -/
theorem fmin_mono (a b : F64) (M E : Int) (ha : PosOrInf a) (hb : PosOrInf b)
    (hab : Below a b) : toRat (fmin a (fin M E)) ≤ toRat (fmin b (fin M E)) := by
  unfold fmin
  cases a with
  | nan => exact ha.elim
  | inf s =>
    cases b with
    | nan => exact hb.elim
    | fin m e => simp [Below] at hab
    | inf s' =>
      have h1 : s = false := ha
      have h2 : s' = false := hb
      subst h1 h2
      exact le_refl _
  | fin m e =>
    have hA : lt (fin M E) (fin m e) = true ↔ (M : ℚ) * 2 ^ E < (m : ℚ) * 2 ^ e := by
      rw [← dyadicLt_iff]; simp [lt]
    cases b with
    | nan => exact hb.elim
    | inf s' =>
      have h2 : s' = false := hb
      subst h2
      have hinf : lt (fin M E) (inf false) = true := by simp [lt]
      rw [if_pos hinf]
      by_cases h : lt (fin M E) (fin m e) = true
      · rw [if_pos h]
      · rw [if_neg h]
        exact not_lt.1 (fun hc => h (hA.2 hc))
    | fin m' e' =>
      have hB : lt (fin M E) (fin m' e') = true ↔ (M : ℚ) * 2 ^ E < (m' : ℚ) * 2 ^ e' := by
        rw [← dyadicLt_iff]; simp [lt]
      have hle : (m : ℚ) * 2 ^ e ≤ (m' : ℚ) * 2 ^ e' := hab
      by_cases h : lt (fin M E) (fin m e) = true
      · have h' : lt (fin M E) (fin m' e') = true := hB.2 (lt_of_lt_of_le (hA.1 h) hle)
        rw [if_pos h, if_pos h']
      · rw [if_neg h]
        by_cases h' : lt (fin M E) (fin m' e') = true
        · rw [if_pos h']
          exact not_lt.1 (fun hc => h (hA.2 hc))
        · rw [if_neg h']
          exact hle

end F64

theorem iterMul_add (mult : F64) : ∀ (a b : Nat) (x : F64),
    iterMul mult (a + b) x = iterMul mult b (iterMul mult a x)
  | 0, b, x => by simp [iterMul]
  | a + 1, b, x => by
    have : a + 1 + b = (a + b) + 1 := by omega
    rw [this]
    simp only [iterMul]
    exact iterMul_add mult a b _

/-- With a positive base delay, a multiplier `≥ 1` and a cap below `2^63`, the delay of a
later attempt is the integer part of the capped product. -/
theorem backoff_eq_floor (indef : Indefinite) (bc : backoffConfig) (n : Int) (M E : Int)
    (hB : 0 < bc.BaseDelay) (hBM : bc.BaseDelay ≤ bc.MaxDelay)
    (hM : F64.le (F64.ofInt 1) bc.Multiplier = true) (hn : 1 ≤ n)
    (hmax : F64.ofInt bc.MaxDelay = F64.fin M E) (hlt : (M : ℚ) * 2 ^ E < 2 ^ 63) :
    bc.backoff indef n =
      ⌊F64.toRat (F64.fmin (iterMul bc.Multiplier n.toNat (F64.ofInt bc.BaseDelay))
        (F64.fin M E))⌋ := by
  have hx := (F64.ofInt_posOrInf bc.BaseDelay hB).1
  have hmaxP := (F64.ofInt_posOrInf bc.MaxDelay (lt_of_lt_of_le hB hBM)).1
  rw [hmax] at hmaxP
  rw [backoff_eq_backoffRounded indef bc n hB hBM hM hn]
  unfold backoffRounded
  rw [hmax]
  obtain ⟨m, e, hf, hm0, hle⟩ := F64.fmin_fin _ M E (F64.iterMul_ge _ hM n.toNat _ hx).1 hmaxP
  rw [hf]
  exact (F64.toInt64_in_range indef m e hm0 _ hle hlt).1

/-! ## Lemmas: a base delay that is not positive -/

namespace F64

theorem round_nonPos (m e : Int) (hm : m ≤ 0) : NonPos (round m e) := by
  unfold round
  by_cases ho : overflows (roundMag m.natAbs e).1 (roundMag m.natAbs e).2 = true
  · have hne : m ≠ 0 := by
      intro h0
      subst h0
      simp [overflows, roundMag_zero] at ho
    have hlt : m < 0 := by omega
    simp [ho, hlt, NonPos]
  · by_cases hlt : m < 0
    · simp [ho, hlt, NonPos]
    · have h0 : m = 0 := by omega
      subst h0
      simp [NonPos, roundMag_zero, overflows]

/-- A multiplier `≥ 1` is positive. -/
theorem pos_of_one_le (mm me : Int) (h : le (ofInt 1) (fin mm me) = true) : 0 < mm := by
  rw [ofInt_one] at h
  have h1 : dyadicLt mm me 1 0 = false := by simpa [le] using h
  have h2 := (dyadicLt_iff mm me 1 0).not.1 (by simp [h1])
  by_contra hcon
  have : (mm : ℚ) ≤ 0 := by exact_mod_cast not_lt.1 hcon
  have := mul_nonpos_of_nonpos_of_nonneg this (two_zpow_pos me).le
  simp at h2
  linarith

/-- Multiplying a value that is not positive by a positive number keeps it so. -/
theorem mul_nonPos (x : F64) (mm me : Int) (hx : NonPos x) (hmm : 0 < mm) :
    NonPos (mul x (fin mm me)) := by
  cases x with
  | nan => exact hx.elim
  | inf s =>
    have hs : s = true := hx
    subst hs
    have h0 : mm ≠ 0 := by omega
    have h1 : ¬ mm < 0 := by omega
    simp [mul, h0, h1, NonPos]
  | fin m e =>
    have hm : m ≤ 0 := hx
    exact round_nonPos (m * mm) (e + me) (Int.mul_nonpos_of_nonpos_of_nonneg hm hmm.le)

theorem trunc_zero (e : Int) : trunc 0 e = 0 := by
  unfold trunc
  split_ifs <;> simp

/-- A value that is not positive is floored to the delay 0 under a finite cap. -/
theorem capFloor_nonPos_fin (indef : Indefinite) (b : F64) (M E : Int) (hb : NonPos b) :
    capFloor indef (fin M E) b = 0 := by
  unfold capFloor gt
  rw [ofInt_zero]
  cases b with
  | nan => exact hb.elim
  | inf s =>
    have hs : s = true := hb
    subst hs
    simp [lt]
  | fin m e =>
    have hm : m ≤ 0 := hb
    have hle : (m : ℚ) * 2 ^ e ≤ 0 :=
      mul_nonpos_of_nonpos_of_nonneg (by exact_mod_cast hm) (two_zpow_pos e).le
    by_cases h : lt (fin M E) (fin m e) = true
    · rw [if_pos h]
      have h1 : (M : ℚ) * 2 ^ E < (m : ℚ) * 2 ^ e := by
        rw [← dyadicLt_iff]
        simpa [lt] using h
      have h2 : lt (fin M E) (fin 0 0) = true := by
        have : (M : ℚ) * 2 ^ E < ((0 : Int) : ℚ) * 2 ^ (0 : Int) := by
          simp only [Int.cast_zero, zero_mul]
          linarith
        rw [← dyadicLt_iff] at this
        simpa [lt] using this
      rw [if_pos h2]
    · rw [if_neg h]
      by_cases h2 : lt (fin m e) (fin 0 0) = true
      · rw [if_pos h2]
      · rw [if_neg h2]
        have h3 : ¬ ((m : ℚ) * 2 ^ e < ((0 : Int) : ℚ) * 2 ^ (0 : Int)) := by
          rw [← dyadicLt_iff]
          simpa [lt] using h2
        have hm0 : m = 0 := by
          by_contra hne
          apply h3
          have : (m : ℚ) < 0 := by exact_mod_cast (lt_of_le_of_ne hm hne)
          simpa using mul_neg_of_neg_of_pos this (two_zpow_pos e)
        subst hm0
        simp [toInt64, trunc_zero]

/-- A value that is not positive is floored to the delay 0, whatever the cap. -/
theorem capFloor_nonPos (indef : Indefinite) (max b : F64) (hmax : max ≠ nan)
    (hb : NonPos b) : capFloor indef max b = 0 := by
  cases max with
  | nan => exact absurd rfl hmax
  | fin M E => exact capFloor_nonPos_fin indef b M E hb
  | inf s =>
    unfold capFloor gt
    rw [ofInt_zero]
    cases b with
    | nan => exact hb.elim
    | inf s2 =>
      have hs : s2 = true := hb
      subst hs
      cases s <;> simp [lt]
    | fin m e =>
      have hm : m ≤ 0 := hb
      cases s with
      | true =>
        simp [lt]
      | false =>
        have hl : lt (inf false) (fin m e) = false := by simp [lt]
        simp only [hl]
        by_cases h2 : lt (fin m e) (fin 0 0) = true
        · simp [h2]
        · have h3 : ¬ ((m : ℚ) * 2 ^ e < ((0 : Int) : ℚ) * 2 ^ (0 : Int)) := by
            rw [← dyadicLt_iff]
            simpa [lt] using h2
          have hm0 : m = 0 := by
            by_contra hne
            apply h3
            have : (m : ℚ) < 0 := by exact_mod_cast (lt_of_le_of_ne hm hne)
            simpa using mul_neg_of_neg_of_pos this (two_zpow_pos e)
          subst hm0
          simp [h2, toInt64, trunc_zero]

end F64

theorem backoffLoop_nonPos (mm me : Int) (max : F64) (hmm : 0 < mm) :
    ∀ (n : Nat) (x : F64), F64.NonPos x → F64.NonPos (backoffLoop (F64.fin mm me) max n x)
  | 0, _, hx => hx
  | n + 1, x, hx => by
    simp only [backoffLoop]
    split_ifs
    · exact backoffLoop_nonPos mm me max hmm n _ (F64.mul_nonPos x mm me hx hmm)
    · exact hx

/-- With a base delay that is not positive and a finite multiplier `≥ 1`, every later
attempt has the delay 0. -/
theorem backoff_eq_zero_of_nonpos (indef : Indefinite) (bc : backoffConfig) (n : Int)
    (hB : bc.BaseDelay ≤ 0)
    (hM : F64.le (F64.ofInt 1) bc.Multiplier = true) (hfin : bc.Multiplier.isFinite = true)
    (hn : n ≠ 0) : bc.backoff indef n = 0 := by
  rw [backoff_eq_capFloor indef bc n hn]
  cases hmult : bc.Multiplier with
  | nan => rw [hmult] at hfin; simp [F64.isFinite] at hfin
  | inf s => rw [hmult] at hfin; simp [F64.isFinite] at hfin
  | fin mm me =>
    rw [hmult] at hM
    have hmm := F64.pos_of_one_le mm me hM
    have hx : F64.NonPos (F64.ofInt bc.BaseDelay) := F64.round_nonPos _ _ hB
    exact F64.capFloor_nonPos indef _ _ (F64.round_ne_nan _ _)
      (backoffLoop_nonPos mm me _ hmm _ _ hx)

/-! ## Lemmas: the retry loop -/

theorem sleepsFrom_succ (indef : Indefinite) (cfg : backoffConfig) (c k : Nat) :
    sleepsFrom indef cfg c (k + 1) = cfg.backoff indef (c : Int) :: sleepsFrom indef cfg (c + 1) k := by
  simp [sleepsFrom, List.range'_succ]

theorem sleepsFrom_length (indef : Indefinite) (cfg : backoffConfig) (c k : Nat) :
    (sleepsFrom indef cfg c k).length = k := by
  simp only [sleepsFrom, List.length_map, List.length_range']

/-- The loop runs through `k` failed calls that all pass the cancellation and budget
checks: it sleeps after each and arrives at call `c + k` with `k` more attempts counted. -/
theorem roundTripLoop_retry {ρ : Type} (indef : Indefinite) (env : Env ρ) :
    ∀ (k fuel : Nat) (bt : backoffTransport) (c : Nat) (sl : List Int),
      bt.attempts = (c : Int) →
      (∀ i, c ≤ i → i < c + k → retried indef env bt.Config bt.startTime i = true) →
      roundTripLoop indef env (fuel + k) bt c sl =
        roundTripLoop indef env fuel { bt with attempts := ((c + k : Nat) : Int) } (c + k)
          (sl ++ sleepsFrom indef bt.Config c k)
  | 0, fuel, bt, c, sl, hatt, _ => by
    have : { bt with attempts := ((c + 0 : Nat) : Int) } = bt := by
      cases bt
      simp only [Nat.add_zero] at hatt ⊢
      simp_all
    rw [this]
    simp [sleepsFrom]
  | k + 1, fuel, bt, c, sl, hatt, h => by
    have hc := h c (Nat.le_refl c) (by omega)
    simp only [retried, Bool.and_eq_true, Bool.not_eq_true', decide_eq_false_iff_not] at hc
    obtain ⟨⟨hb, hctx⟩, hbudget⟩ := hc
    rcases hbase : env.base c with ⟨resp, err⟩
    rw [hbase] at hb
    cases err with
    | none => simp at hb
    | some e =>
      have hctx' : env.ctxErr c = none := by
        cases hq : env.ctxErr c with
        | none => rfl
        | some x => rw [hq] at hctx; simp at hctx
      have hfuel : fuel + (k + 1) = (fuel + k) + 1 := by omega
      rw [hfuel]
      simp only [roundTripLoop, hbase, hctx']
      rw [hatt, if_neg hbudget]
      have ih := roundTripLoop_retry indef env k fuel
        { bt with attempts := (c : Int) + 1 } (c + 1) (sl ++ [bt.Config.backoff indef (c : Int)])
        (by push_cast; rfl)
        (fun i hi1 hi2 => h i (by omega) (by omega))
      rw [ih, sleepsFrom_succ]
      have e1 : c + 1 + k = c + (k + 1) := by omega
      simp only [e1, List.append_assoc, List.singleton_append]

/-- `RoundTrip`, after `k` failed calls that pass both checks, is the loop at call `k`. -/
theorem roundTrip_after_retries {ρ : Type} (indef : Indefinite) (env : Env ρ)
    (bt : backoffTransport) (k fuel : Nat)
    (hfail : ∀ i, i < k → retried indef env bt.Config (env.now 0) i = true) :
    bt.RoundTrip indef env (fuel + k) =
      roundTripLoop indef env fuel
        { Config := bt.Config, attempts := (k : Int), startTime := env.now 0 } k
        (sleepsFrom indef bt.Config 0 k) := by
  unfold backoffTransport.RoundTrip
  have := roundTripLoop_retry indef env k fuel
    { Config := bt.Config, attempts := 0, startTime := env.now 0 } 0 [] (by simp)
    (fun i _ hi => hfail i (by omega))
  simpa using this

/-- For a positive base delay within the cap, a cap that `float64` holds exactly and a
multiplier of at least one, the delays do not decrease with the attempt number. -/
theorem backoff_mono_of_pos (indef : Indefinite) (bc : backoffConfig) (i j : Int)
    (hB : 0 < bc.BaseDelay) (hBM : bc.BaseDelay ≤ bc.MaxDelay)
    (h53 : bc.MaxDelay ≤ (2 : Int) ^ 53)
    (hM : F64.le (F64.ofInt 1) bc.Multiplier = true) (hi : 0 ≤ i) (hij : i ≤ j) :
    bc.backoff indef i ≤ bc.backoff indef j := by
  have hb0 : bc.backoff indef 0 = bc.BaseDelay := by simp [backoffConfig.backoff]
  by_cases hj0 : j = 0
  · have : i = 0 := by omega
    rw [this, hj0]
  obtain ⟨M, E, hmax, _, hval⟩ := F64.ofInt_exact bc.MaxDelay (by omega) h53
  have hlt : (M : ℚ) * 2 ^ E < 2 ^ 63 := by
    rw [hval]
    have : (bc.MaxDelay : ℚ) ≤ ((2 ^ 53 : Int) : ℚ) := by exact_mod_cast h53
    norm_num at this ⊢
    linarith
  have hx := (F64.ofInt_posOrInf bc.BaseDelay hB).1
  have hj1 : 1 ≤ j := by omega
  rw [backoff_eq_floor indef bc j M E hB hBM hM hj1 hmax hlt]
  by_cases hi0 : i = 0
  · subst hi0
    obtain ⟨m, e, hbase, hm0, hbval⟩ := F64.ofInt_exact bc.BaseDelay hB.le (by omega)
    have hbelow := (F64.iterMul_ge _ hM j.toNat _ hx).2
    have hyP := (F64.iterMul_ge _ hM j.toNat _ hx).1
    have hmono := F64.fmin_mono _ _ M E hx hyP hbelow
    have hfx : F64.fmin (F64.ofInt bc.BaseDelay) (F64.fin M E) = F64.ofInt bc.BaseDelay := by
      unfold F64.fmin
      rw [hbase]
      have : ¬ (F64.lt (F64.fin M E) (F64.fin m e) = true) := by
        have h1 : ¬ ((M : ℚ) * 2 ^ E < (m : ℚ) * 2 ^ e) := by
          rw [hval, hbval]
          exact not_lt.2 (by exact_mod_cast hBM)
        rw [← F64.dyadicLt_iff] at h1
        simpa [F64.lt] using h1
      rw [if_neg this]
    rw [hfx] at hmono
    rw [hb0, Int.le_floor]
    have : F64.toRat (F64.ofInt bc.BaseDelay) = (bc.BaseDelay : ℚ) := by
      rw [hbase]
      exact hbval
    rw [← this]
    exact hmono
  · have hi1 : 1 ≤ i := by omega
    rw [backoff_eq_floor indef bc i M E hB hBM hM hi1 hmax hlt]
    apply Int.floor_le_floor
    obtain ⟨d, hd⟩ : ∃ d : Nat, j.toNat = i.toNat + d := ⟨j.toNat - i.toNat, by omega⟩
    rw [hd, iterMul_add]
    have hyP := (F64.iterMul_ge _ hM i.toNat _ hx).1
    have h2 := F64.iterMul_ge _ hM d _ hyP
    exact F64.fmin_mono _ _ M E hyP h2.1 h2.2

/-! ## The claims about `backoffConfig.backoff` -/

/-- C1. For every backoff configuration (and every choice the platform makes for
out-of-range conversions), `backoff(0)` is exactly `BaseDelay`, whatever `Multiplier` and
`MaxDelay` are. -/
theorem backoff_zero_eq_baseDelay (indef : Indefinite) (bc : backoffConfig) :
    bc.backoff indef 0 = bc.BaseDelay := by
  simp [backoffConfig.backoff]

/-- C2, counterexample. With `--timeout 500ms` the follow command builds
`BaseDelay = 1s`, `Multiplier = 1.6`, `MaxDelay = 500ms`; the delay of attempt 0 is
`BaseDelay = 1s`, which exceeds `MaxDelay`. -/
theorem backoff_zero_exceeds_maxDelay :
    ¬ ((followBackoffConfig (500 * millisecond)).backoff amd64 0 ≤
      (followBackoffConfig (500 * millisecond)).MaxDelay) := by
  decide

/-- C2, amended. For every configuration with a finite `Multiplier`, an `int64`
`BaseDelay` and `0 ≤ MaxDelay ≤ 2^53` ns (a cap that `float64` holds exactly), the delay is
bounded by `MaxDelay` for every attempt other than 0, and for attempt 0 as well when
`BaseDelay ≤ MaxDelay`. -/
theorem backoff_le_maxDelay (indef : Indefinite) (bc : backoffConfig) (k : Int)
    (hM : bc.Multiplier.isFinite = true) (hB : isInt64 bc.BaseDelay)
    (hMax : 0 ≤ bc.MaxDelay ∧ bc.MaxDelay ≤ (2 : Int) ^ 53)
    (hk : k = 0 → bc.BaseDelay ≤ bc.MaxDelay) :
    bc.backoff indef k ≤ bc.MaxDelay := by
  by_cases h0 : k = 0
  · subst h0
    simpa [backoffConfig.backoff] using hk rfl
  · rw [backoff_eq_capFloor indef bc k h0]
    obtain ⟨M, E, hmax, _, hval⟩ := F64.ofInt_exact bc.MaxDelay hMax.1 hMax.2
    rw [hmax]
    have hne := backoffLoop_ne_nan bc k.toNat (F64.fin M E) hM hB
    have hlt : (M : ℚ) * 2 ^ E < 2 ^ 63 := by
      rw [hval]
      have : (bc.MaxDelay : ℚ) ≤ ((2 ^ 53 : Int) : ℚ) := by exact_mod_cast hMax.2
      norm_num at this ⊢
      linarith
    rcases (F64.capFloor_bounds indef _ M E hne hlt).2 with h | h
    · rw [h]; exact hMax.1
    · rw [hval] at h
      exact_mod_cast h

/-- C2, witness: the default configuration at attempt 20, where the cap of 120 s has long
been reached. -/
theorem backoff_le_maxDelay_witness :
    defaultBackoffConfig.backoff amd64 20 ≤ defaultBackoffConfig.MaxDelay :=
  backoff_le_maxDelay amd64 defaultBackoffConfig 20 (by decide) ⟨by decide, by decide⟩
    ⟨by decide, by decide⟩ (by decide)

/-- C3, counterexample. With `--timeout 500ms` (`BaseDelay = 1s > MaxDelay = 500ms`) the
delay of attempt 0 is 1 s and the delay of attempt 1 is 500 ms: the delays decrease. -/
theorem backoff_decreases_after_zero :
    ¬ ((followBackoffConfig (500 * millisecond)).backoff amd64 0 ≤
      (followBackoffConfig (500 * millisecond)).backoff amd64 1) := by
  decide

/-- C3, amended. For every configuration with `BaseDelay ≤ MaxDelay ≤ 2^53` ns and a finite
`Multiplier ≥ 1`, and all attempt numbers `0 ≤ i ≤ j`, `backoff(i) ≤ backoff(j)`. -/
theorem backoff_mono (indef : Indefinite) (bc : backoffConfig) (i j : Int)
    (hBM : bc.BaseDelay ≤ bc.MaxDelay) (h53 : bc.MaxDelay ≤ (2 : Int) ^ 53)
    (hM : F64.le (F64.ofInt 1) bc.Multiplier = true) (hfin : bc.Multiplier.isFinite = true)
    (hi : 0 ≤ i) (hij : i ≤ j) :
    bc.backoff indef i ≤ bc.backoff indef j := by
  have hb0 : bc.backoff indef 0 = bc.BaseDelay := by simp [backoffConfig.backoff]
  by_cases hj0 : j = 0
  · have : i = 0 := by omega
    rw [this, hj0]
  by_cases hB : 0 < bc.BaseDelay
  · exact backoff_mono_of_pos indef bc i j hB hBM h53 hM hi hij
  · have hB0 : bc.BaseDelay ≤ 0 := by omega
    rw [backoff_eq_zero_of_nonpos indef bc j hB0 hM hfin hj0]
    by_cases hi0 : i = 0
    · rw [hi0, hb0]
      exact hB0
    · rw [backoff_eq_zero_of_nonpos indef bc i hB0 hM hfin hi0]

/-- C3, witness: the default configuration, attempts 3 and 11. -/
theorem backoff_mono_witness :
    defaultBackoffConfig.backoff amd64 3 ≤ defaultBackoffConfig.backoff amd64 11 :=
  backoff_mono amd64 defaultBackoffConfig 3 11 (by decide) (by decide) (by decide) (by decide)
    (by decide) (by decide)

/-- With a cap that `float64` holds exactly and a product that no multiplication rounded,
the delay is the integer part of the exact capped product. -/
theorem backoff_eq_backoffExact (indef : Indefinite) (bc : backoffConfig) (n : Int)
    (hB : 0 < bc.BaseDelay) (hBM : bc.BaseDelay ≤ bc.MaxDelay)
    (hM : F64.le (F64.ofInt 1) bc.Multiplier = true) (hn : 1 ≤ n)
    (h53 : bc.MaxDelay ≤ (2 : Int) ^ 53) (m e : Int)
    (hP : iterMul bc.Multiplier n.toNat (F64.ofInt bc.BaseDelay) = F64.fin m e)
    (hval : (m : ℚ) * 2 ^ e = (bc.BaseDelay : ℚ) * F64.toRat bc.Multiplier ^ n.toNat) :
    bc.backoff indef n = backoffExact bc n := by
  obtain ⟨M, E, hmax, _, hMval⟩ := F64.ofInt_exact bc.MaxDelay (by omega) h53
  have hlt : (M : ℚ) * 2 ^ E < 2 ^ 63 := by
    rw [hMval]
    have h1 : (bc.MaxDelay : ℚ) ≤ ((2 ^ 53 : Int) : ℚ) := by exact_mod_cast h53
    have h2 : (((2 : Int) ^ 53 : Int) : ℚ) < 2 ^ 63 := by norm_num
    exact lt_of_le_of_lt h1 h2
  rw [backoff_eq_floor indef bc n M E hB hBM hM hn hmax hlt, hP]
  unfold backoffExact
  rw [← hval, ← hMval]
  have hiff : F64.lt (F64.fin M E) (F64.fin m e) = true ↔
      (M : ℚ) * 2 ^ E < (m : ℚ) * 2 ^ e := by
    rw [← F64.dyadicLt_iff]
    simp [F64.lt]
  unfold F64.fmin
  by_cases h : F64.lt (F64.fin M E) (F64.fin m e) = true
  · rw [if_pos h]
    simp only [F64.toRat]
    rw [min_eq_right (le_of_lt (hiff.1 h))]
  · rw [if_neg h]
    simp only [F64.toRat]
    rw [min_eq_left (not_lt.1 (fun hc => h (hiff.2 hc)))]

/-- C4, counterexample. Inside the claim's conditions the code does not return the integer
part of `min(BaseDelay * Multiplier^n, MaxDelay)`. With `BaseDelay = 2^53 + 1`,
`Multiplier = 1`, `MaxDelay = 2^54` and `n = 1` the conversion `float64(BaseDelay)` already
rounds, and the code returns `2^53` where the formula gives `2^53 + 1`. With
`BaseDelay = 3`, `Multiplier = float64(4/3)`, `MaxDelay = 100` and `n = 1` the product is
rounded up to `4`, and the code returns `4` where the formula gives `3`. -/
theorem backoff_differs_from_exact_product :
    ((0 : Int) < 2 ^ 53 + 1 ∧ ((2 : Int) ^ 53 + 1 ≤ 2 ^ 54) ∧
      F64.le (F64.ofInt 1) (F64.fin 1 0) = true ∧
      (backoffConfig.mk (2 ^ 53 + 1) (F64.fin 1 0) (2 ^ 54)).backoff amd64 1 = 2 ^ 53 ∧
      backoffExact (backoffConfig.mk (2 ^ 53 + 1) (F64.fin 1 0) (2 ^ 54)) 1 = 2 ^ 53 + 1) ∧
    (F64.le (F64.ofInt 1) f64_4_3 = true ∧
      (backoffConfig.mk 3 f64_4_3 100).backoff amd64 1 = 4 ∧
      (backoffConfig.mk 3 f64_4_3 100).backoff arm64 1 = 4 ∧
      backoffExact (backoffConfig.mk 3 f64_4_3 100) 1 = 3) := by
  refine ⟨⟨by decide, by decide, by decide, by decide, ?_⟩, by decide, by decide, by decide, ?_⟩
  · unfold backoffExact
    simp only [F64.toRat]
    rw [Int.floor_eq_iff]
    constructor <;> norm_num
  · unfold backoffExact f64_4_3
    simp only [F64.toRat]
    rw [Int.floor_eq_iff]
    constructor <;> norm_num

/-- C4, amended. For every configuration with `0 < BaseDelay ≤ MaxDelay` and
`Multiplier ≥ 1`, and every attempt `n ≥ 1`, `backoff(n)` is the capped product of the loop
run to its end, every multiplication rounded to `float64`: leaving the loop as soon as the
cap is reached does not change the value. When moreover `MaxDelay ≤ 2^53` and the `n`
multiplications happen to be exact (the rounded product is the number
`BaseDelay * Multiplier^n`), that value is the integer part of
`min(BaseDelay * Multiplier^n, MaxDelay)`. -/
theorem backoff_eq_capped_product (indef : Indefinite) (bc : backoffConfig) (n : Int)
    (hB : 0 < bc.BaseDelay) (hBM : bc.BaseDelay ≤ bc.MaxDelay)
    (hM : F64.le (F64.ofInt 1) bc.Multiplier = true) (hn : 1 ≤ n) :
    bc.backoff indef n = backoffRounded indef bc n ∧
    (bc.MaxDelay ≤ (2 : Int) ^ 53 → ∀ m e : Int,
      iterMul bc.Multiplier n.toNat (F64.ofInt bc.BaseDelay) = F64.fin m e →
      (m : ℚ) * 2 ^ e = (bc.BaseDelay : ℚ) * F64.toRat bc.Multiplier ^ n.toNat →
      bc.backoff indef n = backoffExact bc n) :=
  ⟨backoff_eq_backoffRounded indef bc n hB hBM hM hn,
    fun h53 m e hP hval => backoff_eq_backoffExact indef bc n hB hBM hM hn h53 m e hP hval⟩

/-- C4, witness: base delay 1 s, multiplier 2, cap 120 s, attempt 3: the three doublings
are exact and the delay is 8 s by either reading. -/
theorem backoff_eq_capped_product_witness :
    (backoffConfig.mk second (F64.fin 2 0) (120 * second)).backoff amd64 3 =
        backoffRounded amd64 (backoffConfig.mk second (F64.fin 2 0) (120 * second)) 3 ∧
      (backoffConfig.mk second (F64.fin 2 0) (120 * second)).backoff amd64 3 =
        backoffExact (backoffConfig.mk second (F64.fin 2 0) (120 * second)) 3 ∧
      (backoffConfig.mk second (F64.fin 2 0) (120 * second)).backoff amd64 3 = 8 * second :=
  have h := backoff_eq_capped_product amd64
    (backoffConfig.mk second (F64.fin 2 0) (120 * second)) 3
    (by decide) (by decide) (by decide) (by decide)
  ⟨h.1, h.2 (by decide) 8000000000 0 (by decide) (by
      have h3 : Int.toNat 3 = 3 := rfl
      norm_num [F64.toRat, second, h3]),
    by decide⟩

/-- C5, counterexample. On amd64, where a NaN or out-of-range conversion yields `-2^63`:
with `Multiplier = NaN` the delay of attempt 1 is negative, and so is the delay of attempt
49 for the configuration the follow command builds from the largest `--timeout`
(`MaxDelay = 2^63 - 1`, which `float64` rounds to `2^63`). -/
theorem backoff_negative_on_amd64 :
    ¬ (0 ≤ (backoffConfig.mk second F64.nan (120 * second)).backoff amd64 1) ∧
    ¬ (0 ≤ (followBackoffConfig (2 ^ 63 - 1)).backoff amd64 49) := by
  constructor <;> decide

/-- C5, amended. For every configuration with a finite `Multiplier` (of either sign), an
`int64` `BaseDelay` (of either sign) and `-2^63 ≤ MaxDelay ≤ 2^63 - 513` (the durations
whose `float64` image stays below `2^63`), and every later attempt `n ≥ 1`, the delay is
floored at 0: `backoff(n) ≥ 0`, whatever the platform does with out-of-range conversions. -/
theorem backoff_nonneg (indef : Indefinite) (bc : backoffConfig) (n : Int)
    (hM : bc.Multiplier.isFinite = true) (hB : isInt64 bc.BaseDelay)
    (hMax : -(2 : Int) ^ 63 ≤ bc.MaxDelay ∧ bc.MaxDelay ≤ (2 : Int) ^ 63 - 513) (hn : 1 ≤ n) :
    0 ≤ bc.backoff indef n := by
  rw [backoff_eq_capFloor indef bc n (by omega)]
  obtain ⟨M, E, hmax, hbound⟩ := F64.ofInt_bound_tight bc.MaxDelay hMax.1 hMax.2
  rw [hmax]
  have hne := backoffLoop_ne_nan bc n.toNat (F64.fin M E) hM hB
  exact (F64.capFloor_bounds indef _ M E hne (by linarith)).1

/-- C5, witness: a negative base delay, a negative multiplier and a negative cap. -/
theorem backoff_nonneg_witness :
    0 ≤ (backoffConfig.mk (-5 * second) (F64.fin (-3) 0) (-1 * second)).backoff arm64 4 :=
  backoff_nonneg arm64 (backoffConfig.mk (-5 * second) (F64.fin (-3) 0) (-1 * second)) 4
    (by decide) ⟨by decide, by decide⟩ ⟨by decide, by decide⟩ (by decide)

/-- The delays of the default configuration for the attempts 0 to 11, in nanoseconds: they
grow by the factor 1.6 until the cap of 120 s. -/
theorem backoff_default_delays :
    (List.range 12).map (fun (k : Nat) => defaultBackoffConfig.backoff amd64 (k : Int)) =
      [1000000000, 1600000000, 2560000000, 4096000000, 6553600000, 10485760000, 16777216000,
        26843545600, 42949672960, 68719476736, 109951162777, 120000000000] := by
  decide

/-! ## The claims about `backoffTransport.RoundTrip` -/

/-- For a budget below the largest `Duration`, `Time.Sub` exceeds the budget exactly when
the true difference does. -/
theorem timeSub_gt_iff (t u d : Int) (hd : d < (2 : Int) ^ 63 - 1) (hd0 : -(2 : Int) ^ 63 ≤ d) :
    d < timeSub t u ↔ d < t - u := by
  unfold timeSub
  split_ifs <;> omega


/-- When a call to the base transport fails (call `k`, after `k` failed calls that were
retried), the context is not cancelled and `Time.Sub` measures more than `MaxDelay` between
`startTime` and the projected wake time, `RoundTrip` returns the timeout error with the
response of that call, without sleeping and without another call. -/
theorem roundTrip_timeout_of_sub {ρ : Type} (indef : Indefinite) (env : Env ρ)
    (bt : backoffTransport) (k extra : Nat) (resp : Option ρ) (e : String)
    (hretry : ∀ i, i < k → retried indef env bt.Config (env.now 0) i = true)
    (hfail : env.base k = (resp, some e)) (hctx : env.ctxErr k = none)
    (hover : bt.Config.MaxDelay <
      timeSub (timeAdd (env.now (k + 1)) (bt.Config.backoff indef (k : Int))) (env.now 0)) :
    bt.RoundTrip indef env (extra + 1 + k) =
      some { resp := resp, err := some timeoutError, calls := k + 1,
             sleeps := sleepsFrom indef bt.Config 0 k,
             bt := { Config := bt.Config, attempts := (k : Int), startTime := env.now 0 } } := by
  rw [roundTrip_after_retries indef env bt k (extra + 1) hretry]
  simp only [roundTripLoop, hfail, hctx, if_pos hover]

/-- C6, counterexample. With the largest budget `MaxDelay = 2^63 - 1` (what `--timeout`
gives at its largest value), `BaseDelay = 2^62` and `Multiplier = 1`: call 1 fails at
`2^62` ns, the context is not cancelled, and the projected wake time `2^62 + 2^62` lies
`2^63` ns after `startTime = 0`, more than `MaxDelay`. `Time.Sub` cannot report more than
`2^63 - 1`, so the test `> MaxDelay` fails: `RoundTrip` sleeps a second time and calls the
base transport a third time, which answers. -/
theorem roundTrip_retries_past_largest_budget :
    (exampleEnv 2 9 [0, 0, 2 ^ 62, 2 ^ 63]).base 1 = (none, some "connection refused") ∧
    (exampleEnv 2 9 [0, 0, 2 ^ 62, 2 ^ 63]).ctxErr 1 = none ∧
    (backoffConfig.mk (2 ^ 62) (F64.fin 1 0) (2 ^ 63 - 1)).MaxDelay <
      (exampleEnv 2 9 [0, 0, 2 ^ 62, 2 ^ 63]).now 2 +
        (backoffConfig.mk (2 ^ 62) (F64.fin 1 0) (2 ^ 63 - 1)).backoff amd64 1 -
        (exampleEnv 2 9 [0, 0, 2 ^ 62, 2 ^ 63]).now 0 ∧
    backoffTransport.RoundTrip amd64 (exampleEnv 2 9 [0, 0, 2 ^ 62, 2 ^ 63])
        { Config := backoffConfig.mk (2 ^ 62) (F64.fin 1 0) (2 ^ 63 - 1), attempts := 0,
          startTime := 0 } 3 =
      some { resp := some "versions", err := none, calls := 3,
             sleeps := [2 ^ 62, 2 ^ 62],
             bt := { Config := backoffConfig.mk (2 ^ 62) (F64.fin 1 0) (2 ^ 63 - 1),
                     attempts := 2, startTime := 0 } } := by
  decide

/-- C6, amended. For every budget below the largest `Duration` (`MaxDelay < 2^63 - 1`):
whenever a call to the base transport fails (here call `k`, after `k` failed calls that
were retried), the context is not cancelled and the projected wake time
`now + backoff(attempts)` lies more than `MaxDelay` after `startTime`, `RoundTrip` returns
the error "timeout occurred while retrieving versions from Diginfra", with the response of
that call, without sleeping and without another call to the base transport. Fuel for
`k + 1` iterations is enough. -/
theorem roundTrip_timeout {ρ : Type} (indef : Indefinite) (env : Env ρ) (bt : backoffTransport)
    (k extra : Nat) (resp : Option ρ) (e : String)
    (hmax : bt.Config.MaxDelay < (2 : Int) ^ 63 - 1)
    (hretry : ∀ i, i < k → retried indef env bt.Config (env.now 0) i = true)
    (hfail : env.base k = (resp, some e)) (hctx : env.ctxErr k = none)
    (hover : bt.Config.MaxDelay <
      env.now (k + 1) + bt.Config.backoff indef (k : Int) - env.now 0) :
    bt.RoundTrip indef env (extra + 1 + k) =
      some { resp := resp, err := some timeoutError, calls := k + 1,
             sleeps := sleepsFrom indef bt.Config 0 k,
             bt := { Config := bt.Config, attempts := (k : Int), startTime := env.now 0 } } := by
  apply roundTrip_timeout_of_sub indef env bt k extra resp e hretry hfail hctx
  unfold timeSub timeAdd
  split_ifs <;> omega

/-- C6, witness: `--timeout 2s`; call 0 fails at 0.1 s and is retried after 1 s; call 1 fails
at 1.2 s, the next delay is 1.6 s, and 2.8 s is beyond the 2 s budget. -/
theorem roundTrip_timeout_witness :
    backoffTransport.RoundTrip amd64
        (exampleEnv 5 9 [0, 100 * millisecond, 1200 * millisecond])
        { Config := followBackoffConfig (2 * second), attempts := 7, startTime := 3 } 2 =
      some { resp := none, err := some timeoutError, calls := 2,
             sleeps := sleepsFrom amd64 (followBackoffConfig (2 * second)) 0 1,
             bt := { Config := followBackoffConfig (2 * second), attempts := 1,
                     startTime := 0 } } :=
  roundTrip_timeout amd64 (exampleEnv 5 9 [0, 100 * millisecond, 1200 * millisecond])
    { Config := followBackoffConfig (2 * second), attempts := 7, startTime := 3 } 1 0 none
    "connection refused" (by decide) (by decide) (by decide) (by decide) (by decide)

/-- C7. Whenever a call to the base transport fails (here call `k`, after `k` failed calls
that were retried) and the request's context is already cancelled, `RoundTrip` returns a
nil response and exactly the context's error, with no further sleep and no further call;
nothing is asked of the clock or of the retry budget at that point. -/
theorem roundTrip_cancelled {ρ : Type} (indef : Indefinite) (env : Env ρ)
    (bt : backoffTransport) (k extra : Nat) (resp : Option ρ) (e cerr : String)
    (hretry : ∀ i, i < k → retried indef env bt.Config (env.now 0) i = true)
    (hfail : env.base k = (resp, some e)) (hctx : env.ctxErr k = some cerr) :
    bt.RoundTrip indef env (extra + 1 + k) =
      some { resp := none, err := some cerr, calls := k + 1,
             sleeps := sleepsFrom indef bt.Config 0 k,
             bt := { Config := bt.Config, attempts := (k : Int), startTime := env.now 0 } } := by
  rw [roundTrip_after_retries indef env bt k (extra + 1) hretry]
  simp only [roundTripLoop, hfail, hctx]

/-- C7, witness: `--timeout 2s`; call 0 is retried, call 1 fails at 1.2 s with the context
cancelled and with the budget exhausted as well: the context's error is returned. -/
theorem roundTrip_cancelled_witness :
    backoffTransport.RoundTrip amd64
        (exampleEnv 5 1 [0, 100 * millisecond, 1200 * millisecond])
        { Config := followBackoffConfig (2 * second), attempts := 0, startTime := 0 } 2 =
      some { resp := none, err := some "context canceled", calls := 2,
             sleeps := sleepsFrom amd64 (followBackoffConfig (2 * second)) 0 1,
             bt := { Config := followBackoffConfig (2 * second), attempts := 1,
                     startTime := 0 } } :=
  roundTrip_cancelled amd64 (exampleEnv 5 1 [0, 100 * millisecond, 1200 * millisecond])
    { Config := followBackoffConfig (2 * second), attempts := 0, startTime := 0 } 1 0 none
    "connection refused" "context canceled" (by decide) (by decide) (by decide)

/-- C8. If the base transport fails on its first `k` calls, each failure passing the
cancellation and budget checks, and succeeds on call `k + 1`, then `RoundTrip` (given
fuel for at least `k + 1` iterations) returns exactly that response with a nil error, has
called the base transport exactly `k + 1` times and has slept exactly `k` times, for the
delays `backoff(0), ..., backoff(k - 1)`. -/
theorem roundTrip_first_success {ρ : Type} (indef : Indefinite) (env : Env ρ)
    (bt : backoffTransport) (k extra : Nat) (resp : Option ρ)
    (hretry : ∀ i, i < k → retried indef env bt.Config (env.now 0) i = true)
    (hok : env.base k = (resp, none)) :
    bt.RoundTrip indef env (extra + 1 + k) =
      some { resp := resp, err := none, calls := k + 1,
             sleeps := sleepsFrom indef bt.Config 0 k,
             bt := { Config := bt.Config, attempts := (k : Int), startTime := env.now 0 } } ∧
    (sleepsFrom indef bt.Config 0 k).length = k := by
  refine ⟨?_, sleepsFrom_length indef bt.Config 0 k⟩
  rw [roundTrip_after_retries indef env bt k (extra + 1) hretry]
  simp only [roundTripLoop, hok]

/-- C8, witness: the default configuration; two calls are refused, the third succeeds. -/
theorem roundTrip_first_success_witness :
    backoffTransport.RoundTrip amd64
        (exampleEnv 2 9 [0, 100 * millisecond, 1200 * millisecond, 2900 * millisecond])
        { Config := defaultBackoffConfig, attempts := 0, startTime := 0 } 3 =
      some { resp := some "versions", err := none, calls := 3,
             sleeps := sleepsFrom amd64 defaultBackoffConfig 0 2,
             bt := { Config := defaultBackoffConfig, attempts := 2, startTime := 0 } } ∧
    (sleepsFrom amd64 defaultBackoffConfig 0 2).length = 2 :=
  roundTrip_first_success amd64
    (exampleEnv 2 9 [0, 100 * millisecond, 1200 * millisecond, 2900 * millisecond])
    { Config := defaultBackoffConfig, attempts := 0, startTime := 0 } 2 0 (some "versions")
    (by decide) (by decide)

/-- C9. `RoundTrip` resets its retry state on entry: for the same configuration, base
transport behaviour, clock and request, its whole outcome (response, error, number of
calls, sequence of sleeps, fields on return) is the same whatever the fields `attempts`
and `startTime` held before the call. -/
theorem roundTrip_resets_state {ρ : Type} (indef : Indefinite) (env : Env ρ)
    (cfg : backoffConfig) (attempts attempts2 startTime startTime2 : Int) (fuel : Nat) :
    backoffTransport.RoundTrip indef env
        { Config := cfg, attempts := attempts, startTime := startTime } fuel =
      backoffTransport.RoundTrip indef env
        { Config := cfg, attempts := attempts2, startTime := startTime2 } fuel := by
  simp only [backoffTransport.RoundTrip]

/-! ## The claims about the version gate -/

theorem checkRequirementsList_missing_key (ord : VersionOrder)
    (versions : List (String × String)) :
    ∀ (reqs : List ArtifactRequirement),
      (∃ req, req ∈ reqs ∧ versions.lookup req.Name = none) →
      failed (checkRequirementsList ord versions reqs) = true
  | [], h => by
    obtain ⟨req, hmem, _⟩ := h
    simp at hmem
  | r :: rest, h => by
    simp only [checkRequirementsList]
    cases hl : versions.lookup r.Name with
    | none => rfl
    | some reported =>
      simp only []
      split_ifs
      · apply checkRequirementsList_missing_key ord versions rest
        obtain ⟨req, hmem, hnone⟩ := h
        rcases List.mem_cons.1 hmem with heq | hin
        · subst heq
          rw [hl] at hnone
          cases hnone
        · exact ⟨req, hin, hnone⟩
      · rfl

/-- C10. Version gate, missing key: for every artifact config, every engine-versions map
and every way of comparing versions, if some requirement's name is not a key of the map
then `checkRequirements` fails. -/
theorem checkRequirements_missing_key (ord : VersionOrder) (versions : List (String × String))
    (conf : ArtifactConfig)
    (h : ∃ req, req ∈ conf.Requirements ∧ versions.lookup req.Name = none) :
    failed (checkRequirements ord versions conf) = true :=
  checkRequirementsList_missing_key ord versions conf.Requirements h

/-- C10, witness: the test case "Old Diginfra with new rules with new semver engine
version": the requirement `engine_version_semver = 0.26.0` against the map
`{engine_version: 26}` is rejected, even when every comparison would accept. -/
theorem checkRequirements_missing_key_witness :
    failed (checkRequirements acceptAll [("engine_version", "26")]
      { Name := "my_rule", Version := "0.1.0",
        Requirements := [{ Name := "engine_version_semver", Version := "0.26.0" }] }) = true :=
  checkRequirements_missing_key acceptAll [("engine_version", "26")]
    { Name := "my_rule", Version := "0.1.0",
      Requirements := [{ Name := "engine_version_semver", Version := "0.26.0" }] }
    ⟨{ Name := "engine_version_semver", Version := "0.26.0" }, by simp, by decide⟩

/-! ## Lemmas: the version gate -/

theorem splitDots_length (cs : List Char) : (splitDots cs).length = cs.count '.' + 1 := by
  induction cs with
  | nil => simp [splitDots]
  | cons c cs ih =>
    by_cases hc : c = '.'
    · subst hc
      simp [splitDots, ih]
    · have hne : ¬ (('.' : Char) = c) := fun h => hc h.symm
      cases hs : splitDots cs with
      | nil => rw [hs] at ih; simp at ih
      | cons piece pieces =>
        rw [hs] at ih
        simp only [List.length_cons] at ih
        simp [splitDots, hc, hs, List.count_cons, hne]
        omega

theorem no_dot_of_digits (cs : List Char) (n : Nat) (h : parseDigits cs = some n) :
    cs.count '.' = 0 := by
  unfold parseDigits at h
  split_ifs at h with hd
  rw [List.count_eq_zero]
  intro hmem
  have := List.all_eq_true.1 hd.2 '.' hmem
  exact absurd this (by decide)

/-- An integer literal is not a semantic version. -/
theorem parseSemver_of_literal (s : String) (n : Nat) (h : parseLiteral s = some n) :
    parseSemver s = none := by
  have hlen : (splitDots s.data).length = 1 := by
    rw [splitDots_length, no_dot_of_digits s.data n h]
  unfold parseSemver
  split
  · next a b c heq => rw [heq] at hlen; simp at hlen
  · rfl

/-- A semantic version is not an integer literal. -/
theorem parseLiteral_of_semver (s : String) (v : Nat × Nat × Nat) (h : parseSemver s = some v) :
    parseLiteral s = none := by
  cases hl : parseLiteral s with
  | none => rfl
  | some n => rw [parseSemver_of_literal s n hl] at h; cases h

theorem checkRequirementsList_ok_iff (ord : VersionOrder) (versions : List (String × String)) :
    ∀ (reqs : List ArtifactRequirement),
      failed (checkRequirementsList ord versions reqs) = false ↔
        ∀ req, req ∈ reqs → satisfied ord versions req = true
  | [] => by simp [checkRequirementsList, failed]
  | r :: rest => by
    have ih := checkRequirementsList_ok_iff ord versions rest
    simp only [checkRequirementsList, satisfied, List.mem_cons, forall_eq_or_imp]
    cases hl : versions.lookup r.Name with
    | none => simp [failed]
    | some reported =>
      by_cases hm : requirementMet ord r reported = true
      · simp only [hm, if_true, true_and]
        exact ih
      · simp [hm, failed]

theorem checkRequirementsList_eq_ok (ord : VersionOrder) (versions : List (String × String))
    (reqs : List ArtifactRequirement)
    (h : ∀ req, req ∈ reqs → satisfied ord versions req = true) :
    checkRequirementsList ord versions reqs = Except.ok () := by
  have := (checkRequirementsList_ok_iff ord versions reqs).2 h
  cases hr : checkRequirementsList ord versions reqs with
  | error e => rw [hr] at this; simp [failed] at this
  | ok u => rfl

/-- The first unmet requirement decides the result: what follows it is not looked at. -/
theorem checkRequirementsList_short_circuit (ord : VersionOrder)
    (versions : List (String × String)) (r : ArtifactRequirement)
    (post : List ArtifactRequirement) (hr : satisfied ord versions r = false) :
    ∀ (pre : List ArtifactRequirement), (∀ q, q ∈ pre → satisfied ord versions q = true) →
      checkRequirementsList ord versions (pre ++ r :: post) =
        checkRequirementsList ord versions [r]
  | [], _ => by
    cases hl : versions.lookup r.Name with
    | none => simp [checkRequirementsList, hl]
    | some reported =>
      have hm : requirementMet ord r reported = false := by simpa [satisfied, hl] using hr
      simp [checkRequirementsList, hl, hm]
  | q :: pre, h => by
    have hq := h q (List.mem_cons_self q pre)
    have ih := checkRequirementsList_short_circuit ord versions r post hr pre
      (fun x hx => h x (List.mem_cons_of_mem q hx))
    cases hl : versions.lookup q.Name with
    | none => simp [satisfied, hl] at hq
    | some reported =>
      have hm : requirementMet ord q reported = true := by simpa [satisfied, hl] using hq
      rw [← ih]
      simp [checkRequirementsList, hl, hm]

/-- A requirement whose value is of the other flavour than its key meets no reported
value. -/
theorem requirementMet_other_flavour (semverKey : String → Bool)
    (semverLe : Nat × Nat × Nat → Nat × Nat × Nat → Bool) (literalLe : Nat → Nat → Bool)
    (req : ArtifactRequirement) (reported : String)
    (h : (semverKey req.Name = true ∧ (parseLiteral req.Version).isSome = true) ∨
      (semverKey req.Name = false ∧ (parseSemver req.Version).isSome = true)) :
    requirementMet (flavourOrder semverKey semverLe literalLe) req reported = false := by
  unfold requirementMet flavourOrder
  rcases h with ⟨hk, hv⟩ | ⟨hk, hv⟩
  · obtain ⟨n, hn⟩ := Option.isSome_iff_exists.1 hv
    simp [hk, parseSemver_of_literal req.Version n hn]
  · obtain ⟨v, hv2⟩ := Option.isSome_iff_exists.1 hv
    simp [hk, parseLiteral_of_semver req.Version v hv2]

/-- A requirement whose value is of its key's flavour is met by the same value. -/
theorem requirementMet_same_value (semverKey : String → Bool)
    (semverLe : Nat × Nat × Nat → Nat × Nat × Nat → Bool) (literalLe : Nat → Nat → Bool)
    (hs : ∀ v, semverLe v v = true) (hl : ∀ n, literalLe n n = true)
    (req : ArtifactRequirement)
    (h : (if semverKey req.Name = true then (parseSemver req.Version).isSome
      else (parseLiteral req.Version).isSome) = true) :
    requirementMet (flavourOrder semverKey semverLe literalLe) req req.Version = true := by
  unfold requirementMet flavourOrder
  by_cases hk : semverKey req.Name = true
  · rw [if_pos hk] at h
    obtain ⟨v, hv⟩ := Option.isSome_iff_exists.1 h
    simp [hk, hv, hs]
  · rw [if_neg hk] at h
    obtain ⟨n, hn⟩ := Option.isSome_iff_exists.1 h
    simp [hk, hn, hl]

/-! ## The claims about the version gate, continued -/

/-- C11. Version gate, flavour strictness of the requirement value: whatever the versions
map reports, a requirement under a semver-flavoured key (such as `engine_version_semver`)
whose value is an integer literal is rejected, and a requirement under any other key (such
as `engine_version`) whose value is a semantic version is rejected. -/
theorem checkRequirements_other_flavour (semverKey : String → Bool)
    (semverLe : Nat × Nat × Nat → Nat × Nat × Nat → Bool) (literalLe : Nat → Nat → Bool)
    (versions : List (String × String)) (conf : ArtifactConfig)
    (h : ∃ req, req ∈ conf.Requirements ∧
      ((semverKey req.Name = true ∧ (parseLiteral req.Version).isSome = true) ∨
        (semverKey req.Name = false ∧ (parseSemver req.Version).isSome = true))) :
    failed (checkRequirements (flavourOrder semverKey semverLe literalLe) versions conf) = true := by
  obtain ⟨req, hmem, hreq⟩ := h
  cases hf : failed (checkRequirements (flavourOrder semverKey semverLe literalLe) versions conf) with
  | true => rfl
  | false =>
    have := (checkRequirementsList_ok_iff _ versions conf.Requirements).1 hf req hmem
    unfold satisfied at this
    cases hl : versions.lookup req.Name with
    | none => rw [hl] at this; simp at this
    | some reported =>
      rw [hl] at this
      simp only [] at this
      rw [requirementMet_other_flavour semverKey semverLe literalLe req reported hreq] at this
      cases this

/-- C11, witness: the two test cases "New Diginfra with new rules with old int engine
version" and "New Diginfra with old rules with new semver engine version", against the map
that reports both keys. -/
theorem checkRequirements_other_flavour_witness :
    failed (checkRequirements exampleOrder
      [("engine_version_semver", "0.26.0"), ("engine_version", "26")]
      { Name := "my_rule", Version := "0.1.0",
        Requirements := [{ Name := "engine_version_semver", Version := "26" }] }) = true ∧
    failed (checkRequirements exampleOrder
      [("engine_version_semver", "0.26.0"), ("engine_version", "26")]
      { Name := "my_rule", Version := "0.1.0",
        Requirements := [{ Name := "engine_version", Version := "0.26.0" }] }) = true :=
  ⟨checkRequirements_other_flavour semverSuffix semverLeq (fun a b => decide (a ≤ b))
      [("engine_version_semver", "0.26.0"), ("engine_version", "26")]
      { Name := "my_rule", Version := "0.1.0",
        Requirements := [{ Name := "engine_version_semver", Version := "26" }] }
      ⟨{ Name := "engine_version_semver", Version := "26" }, by simp, by decide⟩,
    checkRequirements_other_flavour semverSuffix semverLeq (fun a b => decide (a ≤ b))
      [("engine_version_semver", "0.26.0"), ("engine_version", "26")]
      { Name := "my_rule", Version := "0.1.0",
        Requirements := [{ Name := "engine_version", Version := "0.26.0" }] }
      ⟨{ Name := "engine_version", Version := "0.26.0" }, by simp, by decide⟩⟩

/-- C12. Version gate, acceptance: when both orderings accept equal versions, the check
succeeds for every artifact config in which each requirement names a key of the versions
map, has a value of that key's flavour, and that value equals the reported one. Moreover the
check succeeds exactly when every requirement is satisfied, and the first unmet requirement
decides the failure, whatever follows it. -/
theorem checkRequirements_accepts (semverKey : String → Bool)
    (semverLe : Nat × Nat × Nat → Nat × Nat × Nat → Bool) (literalLe : Nat → Nat → Bool)
    (versions : List (String × String)) (conf : ArtifactConfig)
    (hs : ∀ v, semverLe v v = true) (hl : ∀ n, literalLe n n = true)
    (h : ∀ req, req ∈ conf.Requirements →
      versions.lookup req.Name = some req.Version ∧
      (if semverKey req.Name = true then (parseSemver req.Version).isSome
        else (parseLiteral req.Version).isSome) = true) :
    checkRequirements (flavourOrder semverKey semverLe literalLe) versions conf = Except.ok () ∧
    (∀ other : ArtifactConfig,
      failed (checkRequirements (flavourOrder semverKey semverLe literalLe) versions other) = false ↔
        ∀ req, req ∈ other.Requirements →
          satisfied (flavourOrder semverKey semverLe literalLe) versions req = true) ∧
    (∀ (pre post : List ArtifactRequirement) (r : ArtifactRequirement),
      (∀ q, q ∈ pre → satisfied (flavourOrder semverKey semverLe literalLe) versions q = true) →
      satisfied (flavourOrder semverKey semverLe literalLe) versions r = false →
      checkRequirementsList (flavourOrder semverKey semverLe literalLe) versions
          (pre ++ r :: post) =
        checkRequirementsList (flavourOrder semverKey semverLe literalLe) versions [r]) := by
  refine ⟨?_, fun other => checkRequirementsList_ok_iff _ versions other.Requirements,
    fun pre post r hpre hr => checkRequirementsList_short_circuit _ versions r post hr pre hpre⟩
  apply checkRequirementsList_eq_ok
  intro req hmem
  obtain ⟨hlook, hflav⟩ := h req hmem
  unfold satisfied
  rw [hlook]
  exact requirementMet_same_value semverKey semverLe literalLe hs hl req hflav

theorem semverLeq_refl (v : Nat × Nat × Nat) : semverLeq v v = true := by
  simp [semverLeq]

/-- C12, witness: the test case "New Diginfra with new rules with new semver engine
version": `engine_version_semver = 0.26.0` against the map that reports
`engine_version_semver = 0.26.0` and `engine_version = 26`. -/
theorem checkRequirements_accepts_witness :
    checkRequirements exampleOrder
      [("engine_version_semver", "0.26.0"), ("engine_version", "26")]
      { Name := "my_rule", Version := "0.1.0",
        Requirements := [{ Name := "engine_version_semver", Version := "0.26.0" }] } =
      Except.ok () :=
  (checkRequirements_accepts semverSuffix semverLeq (fun a b => decide (a ≤ b))
    [("engine_version_semver", "0.26.0"), ("engine_version", "26")]
    { Name := "my_rule", Version := "0.1.0",
      Requirements := [{ Name := "engine_version_semver", Version := "0.26.0" }] }
    semverLeq_refl (fun n => by simp) (by decide)).1

/-- The eight cases of `TestCheckRequirements`, in the order of the test table: whether an
error is expected. -/
theorem testCheckRequirements_table :
    List.map (fun (c : List (String × String) × ArtifactRequirement) =>
        failed (checkRequirements exampleOrder c.1
          { Name := "my_rule", Version := "0.1.0", Requirements := [c.2] }))
      [([("engine_version_semver", "0.26.0"), ("engine_version", "26")],
          { Name := "engine_version_semver", Version := "0.26.0" }),
        ([("engine_version_semver", "0.26.0"), ("engine_version", "26")],
          { Name := "engine_version_semver", Version := "26" }),
        ([("engine_version", "26")], { Name := "engine_version_semver", Version := "0.26.0" }),
        ([("engine_version", "26")], { Name := "engine_version_semver", Version := "26" }),
        ([("engine_version_semver", "0.26.0"), ("engine_version", "26")],
          { Name := "engine_version", Version := "26" }),
        ([("engine_version_semver", "0.26.0"), ("engine_version", "26")],
          { Name := "engine_version", Version := "0.26.0" }),
        ([("engine_version", "26")], { Name := "engine_version", Version := "26" }),
        ([("engine_version", "26")], { Name := "engine_version", Version := "0.26.0" })] =
      [false, true, true, true, false, true, false, true] := by
  decide

/-! ## Lemmas: the versions map -/

theorem lookup_cons_eq {α : Type} (k k0 : String) (v0 : α) (rest : List (String × α)) :
    List.lookup k ((k0, v0) :: rest) = if k = k0 then some v0 else List.lookup k rest := by
  by_cases h : k = k0
  · subst h
    simp [List.lookup]
  · have hb : (k == k0) = false := by simpa using h
    simp [List.lookup, hb, h]

theorem lookup_mapSet {α : Type} (key : String) (value : α) (k : String) :
    ∀ (m : List (String × α)),
      (mapSet m key value).lookup k = if k = key then some value else m.lookup k
  | [] => by
    simp only [mapSet, lookup_cons_eq]
  | (k0, v0) :: rest => by
    have ih := lookup_mapSet key value k rest
    by_cases h0 : k0 = key
    · subst h0
      by_cases h : k = k0
      · simp [mapSet, lookup_cons_eq, h]
      · simp [mapSet, lookup_cons_eq, h]
    · by_cases h : k = key
      · subst h
        have hne : ¬ (k = k0) := fun e => h0 e.symm
        simp [mapSet, lookup_cons_eq, h0, hne, ih]
      · by_cases hk : k = k0
        · simp [mapSet, lookup_cons_eq, h0, hk]
        · simp [mapSet, lookup_cons_eq, h0, hk, ih, h]

theorem lookup_none_of_not_mem {α : Type} (k : String) :
    ∀ (m : List (String × α)), k ∉ m.map Prod.fst → m.lookup k = none
  | [], _ => rfl
  | (k0, v0) :: rest, h => by
    simp only [List.map_cons, List.mem_cons, not_or] at h
    have := lookup_none_of_not_mem k rest h.2
    simp [lookup_cons_eq, h.1, this]

/-- After the loop, a key holds the string the endpoint reports under it, and otherwise
what it held before. -/
theorem lookup_storeStrings (k : String) :
    ∀ (dataUnmarshalled : List (String × Json)) (versions : List (String × String)),
      (dataUnmarshalled.map Prod.fst).Nodup →
      (storeStrings dataUnmarshalled versions).lookup k =
        match reportedString dataUnmarshalled k with
        | some s => some s
        | none => versions.lookup k
  | [], versions, _ => by simp [storeStrings, reportedString]
  | (key, value) :: rest, versions, hnd => by
    simp only [List.map_cons, List.nodup_cons] at hnd
    have hrest := lookup_none_of_not_mem key rest hnd.1
    by_cases hk : k = key
    · subst hk
      cases value with
      | str s =>
        have ih := lookup_storeStrings k rest (mapSet versions k s) hnd.2
        simp only [storeStrings, ih, reportedString, hrest, lookup_mapSet]
        simp [lookup_cons_eq]
      | null =>
        have ih := lookup_storeStrings k rest versions hnd.2
        simp only [storeStrings, ih, reportedString, hrest]
        simp [lookup_cons_eq]
      | bool b =>
        have ih := lookup_storeStrings k rest versions hnd.2
        simp only [storeStrings, ih, reportedString, hrest]
        simp [lookup_cons_eq]
      | number t =>
        have ih := lookup_storeStrings k rest versions hnd.2
        simp only [storeStrings, ih, reportedString, hrest]
        simp [lookup_cons_eq]
      | arr items =>
        have ih := lookup_storeStrings k rest versions hnd.2
        simp only [storeStrings, ih, reportedString, hrest]
        simp [lookup_cons_eq]
      | obj members =>
        have ih := lookup_storeStrings k rest versions hnd.2
        simp only [storeStrings, ih, reportedString, hrest]
        simp [lookup_cons_eq]
    · have hrep : reportedString ((key, value) :: rest) k = reportedString rest k := by
        simp [reportedString, lookup_cons_eq, hk]
      rw [hrep]
      cases value with
      | str s =>
        have ih := lookup_storeStrings k rest (mapSet versions key s) hnd.2
        simp only [storeStrings, ih, lookup_mapSet, if_neg hk]
      | null => simpa only [storeStrings] using lookup_storeStrings k rest versions hnd.2
      | bool b => simpa only [storeStrings] using lookup_storeStrings k rest versions hnd.2
      | number t => simpa only [storeStrings] using lookup_storeStrings k rest versions hnd.2
      | arr items => simpa only [storeStrings] using lookup_storeStrings k rest versions hnd.2
      | obj members => simpa only [storeStrings] using lookup_storeStrings k rest versions hnd.2

/-- When every call on the way succeeds, the retrieval succeeds and leaves the map filled
by the loop. -/
theorem retrieveDiginfraVersions_ok {ρ : Type} (indef : Indefinite) (env : VersionsEnv ρ)
    (o : artifactFollowOptions) (fuel : Nat) (resp : ρ) (data : String)
    (dataUnmarshalled : List (String × Json))
    (huri : env.parseRequestURI o.diginfraVersions = none)
    (hreq : env.newRequest o.diginfraVersions = none)
    (hdo : clientDo indef env.transport
      { Config := followBackoffConfig o.timeout, attempts := 0, startTime := 0 } fuel =
        some (Except.ok resp))
    (hread : env.readAll resp = Except.ok data)
    (hjson : env.unmarshal data = Except.ok dataUnmarshalled) :
    o.retrieveDiginfraVersions indef env fuel =
      some (none, { o with versions := storeStrings dataUnmarshalled o.versions }) := by
  unfold followBackoffConfig at hdo
  simp only [artifactFollowOptions.retrieveDiginfraVersions, huri, hreq, hdo, hread, hjson]

/-- The retrieval succeeds only when every call on the way succeeds. -/
theorem retrieveDiginfraVersions_success {ρ : Type} (indef : Indefinite) (env : VersionsEnv ρ)
    (o o2 : artifactFollowOptions) (fuel : Nat)
    (h : o.retrieveDiginfraVersions indef env fuel = some (none, o2)) :
    ∃ resp data dataUnmarshalled,
      clientDo indef env.transport
        { Config := followBackoffConfig o.timeout, attempts := 0, startTime := 0 } fuel =
          some (Except.ok resp) ∧
      env.readAll resp = Except.ok data ∧ env.unmarshal data = Except.ok dataUnmarshalled ∧
      o2 = { o with versions := storeStrings dataUnmarshalled o.versions } := by
  unfold artifactFollowOptions.retrieveDiginfraVersions at h
  unfold followBackoffConfig
  cases huri : env.parseRequestURI o.diginfraVersions with
  | some e => simp [huri] at h
  | none =>
    cases hreq : env.newRequest o.diginfraVersions with
    | some e => simp [huri, hreq] at h
    | none =>
      simp only [huri, hreq] at h
      cases hdo : clientDo indef env.transport
        { Config := { defaultBackoffConfig with MaxDelay := o.timeout }, attempts := 0,
          startTime := 0 } fuel with
      | none => simp [hdo] at h
      | some r =>
        cases r with
        | error e => simp [hdo] at h
        | ok resp =>
          simp only [hdo] at h
          cases hread : env.readAll resp with
          | error e => simp [hread] at h
          | ok data =>
            simp only [hread] at h
            cases hjson : env.unmarshal data with
            | error e => simp [hjson] at h
            | ok dataUnmarshalled =>
              simp only [hjson, Option.some.injEq, Prod.mk.injEq, true_and] at h
              exact ⟨resp, data, dataUnmarshalled, rfl, hread, hjson, h.symm⟩

/-! ## The claims about `retrieveDiginfraVersions` -/

/-- C13. Starting from an empty versions map, whenever the endpoint answers with a body
that decodes to a JSON object (a Go map, each key once), the retrieval succeeds and the map
then holds exactly the pairs of that object whose value is a JSON string: a key is bound to
the string reported under it, and is unbound when the object reports a number, a boolean,
null, an array or an object there, or nothing. -/
theorem retrieveDiginfraVersions_records_strings {ρ : Type} (indef : Indefinite)
    (env : VersionsEnv ρ) (o : artifactFollowOptions) (fuel : Nat) (resp : ρ) (data : String)
    (dataUnmarshalled : List (String × Json))
    (hempty : o.versions = [])
    (huri : env.parseRequestURI o.diginfraVersions = none)
    (hreq : env.newRequest o.diginfraVersions = none)
    (hdo : clientDo indef env.transport
      { Config := followBackoffConfig o.timeout, attempts := 0, startTime := 0 } fuel =
        some (Except.ok resp))
    (hread : env.readAll resp = Except.ok data)
    (hjson : env.unmarshal data = Except.ok dataUnmarshalled)
    (hkeys : (dataUnmarshalled.map Prod.fst).Nodup) :
    ∃ o2, o.retrieveDiginfraVersions indef env fuel = some (none, o2) ∧
      ∀ key, o2.versions.lookup key = reportedString dataUnmarshalled key := by
  refine ⟨_, retrieveDiginfraVersions_ok indef env o fuel resp data dataUnmarshalled huri hreq
    hdo hread hjson, fun key => ?_⟩
  show (storeStrings dataUnmarshalled o.versions).lookup key = _
  rw [lookup_storeStrings key dataUnmarshalled o.versions hkeys, hempty]
  cases reportedString dataUnmarshalled key <;> rfl

/-- C13, witness: the endpoint reports two strings, a number, a boolean, null, an array and
an object. -/
theorem retrieveDiginfraVersions_records_strings_witness :
    ∃ o2, exampleOptions.retrieveDiginfraVersions amd64
        (exampleVersionsEnv [("engine_version", Json.str "26"), ("plugin_api", Json.number "3"),
          ("engine_version_semver", Json.str "0.26.0"), ("debug", Json.bool true),
          ("driver", Json.null), ("rules", Json.arr []), ("build", Json.obj [])]) 1 =
        some (none, o2) ∧
      ∀ key, o2.versions.lookup key =
        reportedString [("engine_version", Json.str "26"), ("plugin_api", Json.number "3"),
          ("engine_version_semver", Json.str "0.26.0"), ("debug", Json.bool true),
          ("driver", Json.null), ("rules", Json.arr []), ("build", Json.obj [])] key :=
  retrieveDiginfraVersions_records_strings amd64 _ exampleOptions 1 "versions" "versions" _
    rfl rfl rfl rfl rfl rfl (by decide)

/-- C14, counterexample. The map holds `engine_version = 25` and `stale = 1` and the
endpoint reports `engine_version = 26` only: after the retrieval `stale` is still bound,
although the endpoint did not report it. -/
theorem retrieveDiginfraVersions_keeps_unreported :
    Option.map (fun (r : Option String × artifactFollowOptions) => (r.1, r.2.versions))
        (artifactFollowOptions.retrieveDiginfraVersions amd64
          (exampleVersionsEnv [("engine_version", Json.str "26")])
          { exampleOptions with versions := [("engine_version", "25"), ("stale", "1")] } 1) =
      some (none, [("engine_version", "26"), ("stale", "1")]) ∧
    reportedString [("engine_version", Json.str "26")] "stale" = none := by
  decide

/-- C14, amended. Whatever the versions map held before the call, after a successful
retrieval every key the endpoint reports as a string is bound to the reported string, and
every other key keeps what it held before: the retrieval merges into the map. -/
theorem retrieveDiginfraVersions_merges {ρ : Type} (indef : Indefinite)
    (env : VersionsEnv ρ) (o : artifactFollowOptions) (fuel : Nat) (resp : ρ) (data : String)
    (dataUnmarshalled : List (String × Json))
    (huri : env.parseRequestURI o.diginfraVersions = none)
    (hreq : env.newRequest o.diginfraVersions = none)
    (hdo : clientDo indef env.transport
      { Config := followBackoffConfig o.timeout, attempts := 0, startTime := 0 } fuel =
        some (Except.ok resp))
    (hread : env.readAll resp = Except.ok data)
    (hjson : env.unmarshal data = Except.ok dataUnmarshalled)
    (hkeys : (dataUnmarshalled.map Prod.fst).Nodup) :
    ∃ o2, o.retrieveDiginfraVersions indef env fuel = some (none, o2) ∧
      ∀ key, o2.versions.lookup key =
        match reportedString dataUnmarshalled key with
        | some s => some s
        | none => o.versions.lookup key :=
  ⟨_, retrieveDiginfraVersions_ok indef env o fuel resp data dataUnmarshalled huri hreq
    hdo hread hjson, fun key => lookup_storeStrings key dataUnmarshalled o.versions hkeys⟩

/-- C14, witness: the map of the counterexample; `engine_version` is replaced by the
reported `26` and `stale` keeps its value. -/
theorem retrieveDiginfraVersions_merges_witness :
    ∃ o2, artifactFollowOptions.retrieveDiginfraVersions amd64
        (exampleVersionsEnv [("engine_version", Json.str "26")])
        { exampleOptions with versions := [("engine_version", "25"), ("stale", "1")] } 1 =
        some (none, o2) ∧
      ∀ key, o2.versions.lookup key =
        match reportedString [("engine_version", Json.str "26")] key with
        | some s => some s
        | none => List.lookup key [("engine_version", "25"), ("stale", "1")] :=
  retrieveDiginfraVersions_merges amd64 _
    { exampleOptions with versions := [("engine_version", "25"), ("stale", "1")] } 1
    "versions" "versions" _ rfl rfl rfl rfl rfl (by decide)

/-! ## Lemmas: the loop that creates the followers -/

theorem mem_keys_mapSet {α : Type} (key : String) (value : α) (k : String) :
    ∀ (m : List (String × α)),
      k ∈ (mapSet m key value).map Prod.fst ↔ k = key ∨ k ∈ m.map Prod.fst
  | [] => by simp [mapSet]
  | (k0, v0) :: rest => by
    have ih := mem_keys_mapSet key value k rest
    by_cases h0 : k0 = key
    · subst h0
      simp [mapSet]
    · simp only [mapSet, h0, if_false, List.map_cons, List.mem_cons, ih]
      tauto

theorem nodup_keys_mapSet {α : Type} (key : String) (value : α) :
    ∀ (m : List (String × α)), (m.map Prod.fst).Nodup →
      ((mapSet m key value).map Prod.fst).Nodup
  | [], _ => by simp [mapSet]
  | (k0, v0) :: rest, h => by
    simp only [List.map_cons, List.nodup_cons] at h
    by_cases h0 : k0 = key
    · subst h0
      simpa [mapSet] using h
    · have ih := nodup_keys_mapSet key value rest h.2
      simp only [mapSet, h0, if_false, List.map_cons, List.nodup_cons, ih, and_true]
      intro hmem
      rcases (mem_keys_mapSet key value k0 rest).1 hmem with e | e
      · exact h0 e
      · exact h.1 e

theorem resolvedReferences_cons_ok {σ κ : Type} (env : FollowEnv σ κ) (a ref : String)
    (rest : List String) (h : env.resolve a = Except.ok ref) :
    resolvedReferences env (a :: rest) = ref :: resolvedReferences env rest := by
  simp [resolvedReferences, List.filterMap_cons, h]

/-- A failing argument ends the loop: what was created before it stays created, nothing
after it is looked at. -/
theorem createFollowers_stops {σ κ : Type} (env : FollowEnv σ κ) (o : artifactFollowOptions)
    (sched : Schedule κ) (a : String) (post : List String)
    (ha : o.creates env sched a = false) :
    ∀ (pre : List String) (st : Creation σ κ),
      (∀ b ∈ pre, o.creates env sched b = true) →
      ∃ st2, st2.adds = st.adds + pre.length ∧
        o.createFollowers env sched (pre ++ a :: post) st =
          (some (match env.resolve a with
            | Except.error e =>
              "unable to parse artifact reference for " ++ env.quote a ++ ": " ++ e
            | Except.ok ref =>
              "unable to create the follower for ref " ++ env.quote ref ++ ": " ++
                (env.newFollower ref (o.followerConfig env sched a ref)).getD ""), st2)
  | [], st, _ => by
    unfold artifactFollowOptions.creates at ha
    cases hr : env.resolve a with
    | error e =>
      exact ⟨st, by simp, by simp [artifactFollowOptions.createFollowers, hr]⟩
    | ok ref =>
      rw [hr] at ha
      simp only at ha
      cases hn : env.newFollower ref (o.followerConfig env sched a ref) with
      | none => simp [hn] at ha
      | some e =>
        exact ⟨{ st with news := st.news ++ [(a, ref, o.followerConfig env sched a ref)] },
          by simp, by simp [artifactFollowOptions.createFollowers, hr, hn]⟩
  | b :: pre, st, hpre => by
    have hb : o.creates env sched b = true := hpre b (List.mem_cons_self _ _)
    unfold artifactFollowOptions.creates at hb
    cases hr : env.resolve b with
    | error e => simp [hr] at hb
    | ok ref =>
      rw [hr] at hb
      simp only at hb
      cases hn : env.newFollower ref (o.followerConfig env sched b ref) with
      | some e => simp [hn] at hb
      | none =>
        obtain ⟨st2, hadds, heq⟩ := createFollowers_stops env o sched a post ha pre
          { followers := mapSet st.followers ref (o.followerConfig env sched b ref)
            adds := st.adds + 1
            news := st.news ++ [(b, ref, o.followerConfig env sched b ref)] }
          (fun c hc => hpre c (List.mem_cons_of_mem _ hc))
        refine ⟨st2, ?_, ?_⟩
        · rw [hadds]
          simp only [List.length_cons]
          omega
        · simp only [List.cons_append, artifactFollowOptions.createFollowers, hr, hn]
          exact heq

/-- Every call of `follower.New` is made for an argument of the list, with its resolved
reference and the configuration built for it. -/
theorem createFollowers_news {σ κ : Type} (env : FollowEnv σ κ) (o : artifactFollowOptions)
    (sched : Schedule κ) :
    ∀ (args : List String) (st : Creation σ κ)
      (entry : String × String × follower.Config σ κ),
      entry ∈ (o.createFollowers env sched args st).2.news →
      entry ∈ st.news ∨
        (entry.1 ∈ args ∧ env.resolve entry.1 = Except.ok entry.2.1 ∧
          entry.2.2 = o.followerConfig env sched entry.1 entry.2.1)
  | [], st, entry, h => by
    left
    simpa [artifactFollowOptions.createFollowers] using h
  | a :: rest, st, entry, h => by
    cases hr : env.resolve a with
    | error e =>
      left
      simpa [artifactFollowOptions.createFollowers, hr] using h
    | ok ref =>
      cases hn : env.newFollower ref (o.followerConfig env sched a ref) with
      | some e =>
        simp only [artifactFollowOptions.createFollowers, hr, hn, List.mem_append,
          List.mem_singleton] at h
        rcases h with h | h
        · exact Or.inl h
        · subst h
          exact Or.inr ⟨List.mem_cons_self _ _, hr, rfl⟩
      | none =>
        simp only [artifactFollowOptions.createFollowers, hr, hn] at h
        rcases createFollowers_news env o sched rest _ entry h with h2 | ⟨h2, h3, h4⟩
        · simp only [List.mem_append, List.mem_singleton] at h2
          rcases h2 with h2 | h2
          · exact Or.inl h2
          · subst h2
            exact Or.inr ⟨List.mem_cons_self _ _, hr, rfl⟩
        · exact Or.inr ⟨List.mem_cons_of_mem _ h2, h3, h4⟩

/-- When the loop ends without an error, every argument got past it: one call of
`follower.New` and one `wg.Add(1)` each, and the keys of `followers` are the resolved
references, each once. -/
theorem createFollowers_ok {σ κ : Type} (env : FollowEnv σ κ) (o : artifactFollowOptions)
    (sched : Schedule κ) :
    ∀ (args : List String) (st : Creation σ κ),
      (o.createFollowers env sched args st).1 = none →
      (∀ a ∈ args, o.creates env sched a = true) ∧
      (o.createFollowers env sched args st).2.adds = st.adds + args.length ∧
      (o.createFollowers env sched args st).2.news.map Prod.fst =
        st.news.map Prod.fst ++ args ∧
      (∀ ref, ref ∈ (o.createFollowers env sched args st).2.followers.map Prod.fst ↔
        ref ∈ st.followers.map Prod.fst ∨ ref ∈ resolvedReferences env args) ∧
      ((st.followers.map Prod.fst).Nodup →
        ((o.createFollowers env sched args st).2.followers.map Prod.fst).Nodup)
  | [], st, _ => by
    simp [artifactFollowOptions.createFollowers, resolvedReferences]
  | a :: rest, st, h => by
    cases hr : env.resolve a with
    | error e => simp [artifactFollowOptions.createFollowers, hr] at h
    | ok ref =>
      cases hn : env.newFollower ref (o.followerConfig env sched a ref) with
      | some e => simp [artifactFollowOptions.createFollowers, hr, hn] at h
      | none =>
        simp only [artifactFollowOptions.createFollowers, hr, hn] at h ⊢
        obtain ⟨h1, h2, h3, h4, h5⟩ := createFollowers_ok env o sched rest _ h
        refine ⟨?_, ?_, ?_, ?_, ?_⟩
        · intro b hb
          rcases List.mem_cons.1 hb with e | e
          · subst e
            simp [artifactFollowOptions.creates, hr, hn]
          · exact h1 b e
        · rw [h2]
          simp only [List.length_cons]
          omega
        · rw [h3]
          simp
        · intro r
          rw [h4 r, resolvedReferences_cons_ok env a ref rest hr]
          simp only [mem_keys_mapSet, List.mem_cons]
          tauto
        · intro hnd
          exact h5 (nodup_keys_mapSet ref _ st.followers hnd)

/-- A run whose set-up fails returns the error and starts nothing. -/
theorem runArtifactFollow_of_setup_error {σ κ : Type} (env : FollowEnv σ κ)
    (sv : Concurrency) (o : artifactFollowOptions) (args : List String) (e : String)
    (st : Creation σ κ) (h : o.setup env args = (some e, st)) :
    o.RunArtifactFollow env sv args = failedRun e st := by
  simp [artifactFollowOptions.RunArtifactFollow, h]

/-- A run whose set-up succeeds goes on to supervise the followers. -/
theorem runArtifactFollow_of_setup_ok {σ κ : Type} (env : FollowEnv σ κ)
    (sv : Concurrency) (o : artifactFollowOptions) (args : List String)
    (h : (o.setup env args).1 = none) :
    o.RunArtifactFollow env sv args = superviseFollowers sv (o.setup env args).2 := by
  unfold artifactFollowOptions.RunArtifactFollow
  cases hs : o.setup env args with
  | mk e st =>
    rw [hs] at h
    simp only at h
    subst h
    rfl

/-- The run returns no error exactly when its set-up does. -/
theorem runArtifactFollow_err {σ κ : Type} (env : FollowEnv σ κ)
    (sv : Concurrency) (o : artifactFollowOptions) (args : List String) :
    (o.RunArtifactFollow env sv args).err = (o.setup env args).1 := by
  unfold artifactFollowOptions.RunArtifactFollow
  cases hs : o.setup env args with
  | mk e st =>
    cases e with
    | some e => rfl
    | none =>
      simp only [superviseFollowers]
      split <;> rfl

/-- The calls of `follower.New` are those of the set-up. -/
theorem runArtifactFollow_news {σ κ : Type} (env : FollowEnv σ κ)
    (sv : Concurrency) (o : artifactFollowOptions) (args : List String) :
    (o.RunArtifactFollow env sv args).news = (o.setup env args).2.news := by
  unfold artifactFollowOptions.RunArtifactFollow
  cases hs : o.setup env args with
  | mk e st =>
    cases e with
    | some e => rfl
    | none =>
      simp only [superviseFollowers]
      split <;> rfl

/-- A set-up without error chose a schedule and ran the loop to its end. -/
theorem setup_ok {σ κ : Type} (env : FollowEnv σ κ) (o : artifactFollowOptions)
    (args : List String) (h : (o.setup env args).1 = none) :
    ∃ sched, o.schedule env = Except.ok sched ∧
      o.setup env args = o.createFollowers env sched (effectiveArgs env args)
        { followers := [], adds := 0, news := [] } := by
  unfold artifactFollowOptions.setup at h ⊢
  by_cases hempty : args.length = 0 ∧ env.configured.length = 0
  · simp [hempty] at h
  · simp only [hempty, if_false] at h ⊢
    cases hsched : o.schedule env with
    | error e => simp [hsched] at h
    | ok sched => exact ⟨sched, rfl, rfl⟩

/-- The calls of `follower.New` of a set-up, whatever its end. -/
theorem setup_news {σ κ : Type} (env : FollowEnv σ κ) (o : artifactFollowOptions)
    (args : List String) (entry : String × String × follower.Config σ κ)
    (h : entry ∈ (o.setup env args).2.news) :
    ∃ sched, o.schedule env = Except.ok sched ∧ entry.1 ∈ effectiveArgs env args ∧
      env.resolve entry.1 = Except.ok entry.2.1 ∧
      entry.2.2 = o.followerConfig env sched entry.1 entry.2.1 := by
  unfold artifactFollowOptions.setup at h
  by_cases hempty : args.length = 0 ∧ env.configured.length = 0
  · simp [hempty] at h
  · simp only [hempty, if_false] at h
    cases hsched : o.schedule env with
    | error e => simp [hsched] at h
    | ok sched =>
      simp only [hsched] at h
      rcases createFollowers_news env o sched _ _ entry h with h2 | h2
      · simp at h2
      · exact ⟨sched, rfl, h2⟩

/-- The followers a run with a successful set-up starts, and its wait group: one follower
for each distinct resolved reference, one `wg.Add(1)` for each argument. -/
theorem runArtifactFollow_started {σ κ : Type} (env : FollowEnv σ κ)
    (sv : Concurrency) (o : artifactFollowOptions) (args : List String)
    (h : (o.setup env args).1 = none) :
    (o.RunArtifactFollow env sv args).started.Nodup ∧
    (∀ ref, ref ∈ (o.RunArtifactFollow env sv args).started ↔
      ref ∈ resolvedReferences env (effectiveArgs env args)) ∧
    (o.RunArtifactFollow env sv args).wgAdds = (effectiveArgs env args).length := by
  obtain ⟨sched, _, hs⟩ := setup_ok env o args h
  have hrun := runArtifactFollow_of_setup_ok env sv o args h
  rw [hs] at h
  obtain ⟨_, h2, _, h4, h5⟩ := createFollowers_ok env o sched _ _ h
  have hst : (o.RunArtifactFollow env sv args).started =
      (o.setup env args).2.followers.map Prod.fst := by
    rw [hrun]
    simp only [superviseFollowers]
    split <;> rfl
  have hadds : (o.RunArtifactFollow env sv args).wgAdds = (o.setup env args).2.adds := by
    rw [hrun]
    simp only [superviseFollowers]
    split <;> rfl
  rw [hst, hadds, hs]
  refine ⟨h5 (by simp), fun ref => ?_, by simpa using h2⟩
  rw [h4 ref]
  simp

/-- When every argument gets past the loop, there are as many resolved references as
arguments. -/
theorem resolvedReferences_length {σ κ : Type} (env : FollowEnv σ κ)
    (o : artifactFollowOptions) (sched : Schedule κ) :
    ∀ (args : List String), (∀ a ∈ args, o.creates env sched a = true) →
      (resolvedReferences env args).length = args.length
  | [], _ => by simp [resolvedReferences]
  | a :: rest, h => by
    have ha := h a (List.mem_cons_self _ _)
    unfold artifactFollowOptions.creates at ha
    cases hr : env.resolve a with
    | error e => simp [hr] at ha
    | ok ref =>
      rw [resolvedReferences_cons_ok env a ref rest hr]
      simp only [List.length_cons]
      rw [resolvedReferences_length env o sched rest
        (fun b hb => h b (List.mem_cons_of_mem _ hb))]

/-- A list without repetition that has the members of `l` is as long as `l` without its
repetitions. -/
theorem length_eq_dedup_length (l1 l : List String) (hnd : l1.Nodup)
    (hmem : ∀ x, x ∈ l1 ↔ x ∈ l) : l1.length = l.dedup.length := by
  rw [← List.toFinset_card_of_nodup hnd, ← List.card_toFinset]
  congr 1
  ext x
  simp [hmem x]

/-- A list is as long as itself without repetitions exactly when it has none. -/
theorem dedup_length_eq_iff (l : List String) : l.dedup.length = l.length ↔ l.Nodup := by
  constructor
  · intro h
    have := (List.dedup_sublist l).eq_of_length h
    exact List.dedup_eq_self.1 this
  · intro h
    rw [List.dedup_eq_self.2 h]

/-- With a successful set-up, a cancelled context and followers that all report completion,
the wait group is left at the number of arguments that repeat a reference, and the run logs
that the followers stopped exactly when no two arguments resolve to the same reference. -/
theorem runArtifactFollow_stops_iff_distinct {σ κ : Type} (env : FollowEnv σ κ)
    (sv : Concurrency) (o : artifactFollowOptions) (args : List String)
    (h : (o.setup env args).1 = none) (hc : sv.cancelled = true)
    (hall : ∀ ref ∈ (o.RunArtifactFollow env sv args).started, sv.completes ref = true) :
    (o.RunArtifactFollow env sv args).pending =
      (effectiveArgs env args).length - (o.RunArtifactFollow env sv args).started.length ∧
    ((o.RunArtifactFollow env sv args).lastLog = some stoppedMessage ↔
      (resolvedReferences env (effectiveArgs env args)).Nodup) := by
  obtain ⟨hnd, hmem, hadds⟩ := runArtifactFollow_started env sv o args h
  obtain ⟨sched, _, hs⟩ := setup_ok env o args h
  have hcreates := (createFollowers_ok env o sched _ _ (hs ▸ h)).1
  have hlen := resolvedReferences_length env o sched _ hcreates
  have hcount := length_eq_dedup_length _ _ hnd hmem
  have hrun := runArtifactFollow_of_setup_ok env sv o args h
  have hfilter : (o.RunArtifactFollow env sv args).started.filter sv.completes =
      (o.RunArtifactFollow env sv args).started := List.filter_eq_self.2 hall
  have hpend : (o.RunArtifactFollow env sv args).pending =
      (o.RunArtifactFollow env sv args).wgAdds -
        ((o.RunArtifactFollow env sv args).started.filter sv.completes).length := by
    rw [hrun]
    simp [superviseFollowers, hc]
  have hlog : (o.RunArtifactFollow env sv args).lastLog =
      some (if (o.RunArtifactFollow env sv args).pending = 0 then stoppedMessage
        else timedOutMessage) := by
    rw [hrun]
    simp [superviseFollowers, hc]
  rw [hfilter, hadds] at hpend
  refine ⟨hpend, ?_⟩
  rw [hlog, ← dedup_length_eq_iff, ← hcount, hlen, hpend]
  have hle : (o.RunArtifactFollow env sv args).started.length ≤
      (effectiveArgs env args).length := by
    rw [hcount, ← hlen]
    exact (List.dedup_sublist _).length_le
  by_cases hz : (effectiveArgs env args).length -
      (o.RunArtifactFollow env sv args).started.length = 0
  · simp only [hz, if_true, true_iff]
    omega
  · simp only [hz, if_false]
    constructor
    · intro habs
      exact absurd (Option.some.inj habs) (by decide)
    · intro habs
      omega

/-! ## The claims about `RunArtifactFollow` -/

/-- C15, counterexample. The argument `k8saudit-rules` resolves, but no follower can be
created for its reference: the error the run returns names the resolved reference and does
not contain the argument. -/
theorem runArtifactFollow_error_names_reference :
    (exampleOptions.RunArtifactFollow
      (exampleFollowEnv ["ghcr.io/diginfra/plugins/ruleset/k8saudit:latest"])
      (exampleShutdown []) ["k8saudit-rules"]).err =
      some ("unable to create the follower for ref " ++
        "\"ghcr.io/diginfra/plugins/ruleset/k8saudit:latest\": " ++
        "unable to create temporary directory") ∧
    mentions ("unable to create the follower for ref " ++
        "\"ghcr.io/diginfra/plugins/ruleset/k8saudit:latest\": " ++
        "unable to create temporary directory") "k8saudit-rules" = false := by
  decide

/-- C15, amended. When the arguments before `a` all resolve and get their follower created
and `a` does not, the run returns an error and starts no follower, not even for the
arguments before `a`, and never closes the shutdown channel. The error names the argument
`a` when `a` does not resolve, and the reference `a` resolves to when no follower can be
created for it. -/
theorem runArtifactFollow_creation_failure {σ κ : Type} (env : FollowEnv σ κ)
    (sv : Concurrency) (o : artifactFollowOptions) (args pre post : List String)
    (a : String) (sched : Schedule κ)
    (hsched : o.schedule env = Except.ok sched)
    (hargs : effectiveArgs env args = pre ++ a :: post)
    (hpre : ∀ b ∈ pre, o.creates env sched b = true)
    (ha : o.creates env sched a = false) :
    (o.RunArtifactFollow env sv args).returned = true ∧
    (o.RunArtifactFollow env sv args).started = [] ∧
    (o.RunArtifactFollow env sv args).closes = 0 ∧
    (o.RunArtifactFollow env sv args).wgAdds = pre.length ∧
    (∀ e, env.resolve a = Except.error e →
      (o.RunArtifactFollow env sv args).err =
        some ("unable to parse artifact reference for " ++ env.quote a ++ ": " ++ e)) ∧
    (∀ ref e, env.resolve a = Except.ok ref →
      env.newFollower ref (o.followerConfig env sched a ref) = some e →
      (o.RunArtifactFollow env sv args).err =
        some ("unable to create the follower for ref " ++ env.quote ref ++ ": " ++ e)) := by
  obtain ⟨st2, hadds, heq⟩ := createFollowers_stops env o sched a post ha pre
    { followers := [], adds := 0, news := [] } hpre
  have hne : ¬ (args.length = 0 ∧ env.configured.length = 0) := by
    intro hboth
    have hnil : effectiveArgs env args = [] := by
      simp only [effectiveArgs, hboth.1, if_true]
      exact List.length_eq_zero.1 hboth.2
    rw [hargs] at hnil
    simp at hnil
  have hsetup : o.setup env args = (some (match env.resolve a with
      | Except.error e =>
        "unable to parse artifact reference for " ++ env.quote a ++ ": " ++ e
      | Except.ok ref =>
        "unable to create the follower for ref " ++ env.quote ref ++ ": " ++
          (env.newFollower ref (o.followerConfig env sched a ref)).getD ""), st2) := by
    simp only [artifactFollowOptions.setup, hne, if_false, hsched, hargs]
    exact heq
  rw [runArtifactFollow_of_setup_error env sv o args _ st2 hsetup]
  refine ⟨rfl, rfl, rfl, by simp [failedRun, hadds], ?_, ?_⟩
  · intro e he
    simp [failedRun, he]
  · intro ref e hr hn
    simp [failedRun, hr, hn]

/-- C15, witness: of three arguments the second cannot be followed; the follower created
for the first is never started. -/
theorem runArtifactFollow_creation_failure_witness :
    (exampleOptions.RunArtifactFollow
        (exampleFollowEnv ["ghcr.io/diginfra/plugins/ruleset/k8saudit:latest"])
        (exampleShutdown []) ["a", "k8saudit-rules", "b"]).returned = true ∧
    (exampleOptions.RunArtifactFollow
        (exampleFollowEnv ["ghcr.io/diginfra/plugins/ruleset/k8saudit:latest"])
        (exampleShutdown []) ["a", "k8saudit-rules", "b"]).started = [] ∧
    (exampleOptions.RunArtifactFollow
        (exampleFollowEnv ["ghcr.io/diginfra/plugins/ruleset/k8saudit:latest"])
        (exampleShutdown []) ["a", "k8saudit-rules", "b"]).wgAdds = 1 :=
  have h := runArtifactFollow_creation_failure
    (exampleFollowEnv ["ghcr.io/diginfra/plugins/ruleset/k8saudit:latest"])
    (exampleShutdown []) exampleOptions ["a", "k8saudit-rules", "b"] ["a"] ["b"]
    "k8saudit-rules" (Schedule.every { Duration := exampleOptions.every })
    rfl rfl (by decide) (by decide)
  ⟨h.1, h.2.1, h.2.2.2.1⟩

/-- C16, counterexample. Two arguments, a name of the index and the reference it resolves
to: both resolve, the run creates two followers and starts one. -/
theorem runArtifactFollow_same_reference_one_follower :
    resolvedReferences (exampleFollowEnv [])
      ["k8saudit-rules", "ghcr.io/diginfra/plugins/ruleset/k8saudit:latest"] =
      ["ghcr.io/diginfra/plugins/ruleset/k8saudit:latest",
       "ghcr.io/diginfra/plugins/ruleset/k8saudit:latest"] ∧
    (exampleOptions.RunArtifactFollow (exampleFollowEnv []) (exampleShutdown [])
      ["k8saudit-rules", "ghcr.io/diginfra/plugins/ruleset/k8saudit:latest"]).err = none ∧
    (exampleOptions.RunArtifactFollow (exampleFollowEnv []) (exampleShutdown [])
      ["k8saudit-rules", "ghcr.io/diginfra/plugins/ruleset/k8saudit:latest"]).started =
      ["ghcr.io/diginfra/plugins/ruleset/k8saudit:latest"] := by
  decide

/-- C16, amended. When the run gets past its set-up, every argument resolved, and it starts
one follower for each distinct resolved reference: the followers started are the resolved
references without repetition, so they are as many as the arguments exactly when no two
arguments resolve to the same reference, and fewer otherwise. -/
theorem runArtifactFollow_one_follower_per_reference {σ κ : Type} (env : FollowEnv σ κ)
    (sv : Concurrency) (o : artifactFollowOptions) (args : List String)
    (h : (o.RunArtifactFollow env sv args).err = none) :
    (resolvedReferences env (effectiveArgs env args)).length =
      (effectiveArgs env args).length ∧
    (o.RunArtifactFollow env sv args).started.Nodup ∧
    (∀ ref, ref ∈ (o.RunArtifactFollow env sv args).started ↔
      ref ∈ resolvedReferences env (effectiveArgs env args)) ∧
    (o.RunArtifactFollow env sv args).started.length =
      (resolvedReferences env (effectiveArgs env args)).dedup.length ∧
    (o.RunArtifactFollow env sv args).started.length ≤ (effectiveArgs env args).length ∧
    ((o.RunArtifactFollow env sv args).started.length = (effectiveArgs env args).length ↔
      (resolvedReferences env (effectiveArgs env args)).Nodup) := by
  rw [runArtifactFollow_err] at h
  obtain ⟨hnd, hmem, _⟩ := runArtifactFollow_started env sv o args h
  obtain ⟨sched, _, hs⟩ := setup_ok env o args h
  have hcreates := (createFollowers_ok env o sched _ _ (hs ▸ h)).1
  have hlen := resolvedReferences_length env o sched _ hcreates
  have hcount := length_eq_dedup_length _ _ hnd hmem
  refine ⟨hlen, hnd, hmem, hcount, ?_, ?_⟩
  · rw [hcount, ← hlen]
    exact (List.dedup_sublist _).length_le
  · rw [hcount, ← hlen]
    exact dedup_length_eq_iff _

/-- C16, witness: three arguments, two of them for the same reference, two followers. -/
theorem runArtifactFollow_one_follower_per_reference_witness :
    (exampleOptions.RunArtifactFollow (exampleFollowEnv []) (exampleShutdown [])
      ["k8saudit-rules", "a", "ghcr.io/diginfra/plugins/ruleset/k8saudit:latest"]).started.length =
      (resolvedReferences (exampleFollowEnv []) (effectiveArgs (exampleFollowEnv [])
        ["k8saudit-rules", "a",
          "ghcr.io/diginfra/plugins/ruleset/k8saudit:latest"])).dedup.length :=
  (runArtifactFollow_one_follower_per_reference (exampleFollowEnv []) (exampleShutdown [])
    exampleOptions ["k8saudit-rules", "a", "ghcr.io/diginfra/plugins/ruleset/k8saudit:latest"]
    (by decide)).2.2.2.1

/-- C17. With the argument `k8saudit-rules` given twice, a cancelled context and followers
that all report completion, the run calls `wg.Add(1)` twice and starts one follower; after
that follower reported completion the wait group is still at one, and the run logs that it
timed out waiting for the followers. -/
theorem runArtifactFollow_duplicate_argument_times_out :
    (exampleOptions.RunArtifactFollow (exampleFollowEnv []) (exampleShutdown [])
      ["k8saudit-rules", "k8saudit-rules"]).err = none ∧
    (exampleOptions.RunArtifactFollow (exampleFollowEnv []) (exampleShutdown [])
      ["k8saudit-rules", "k8saudit-rules"]).wgAdds = 2 ∧
    (exampleOptions.RunArtifactFollow (exampleFollowEnv []) (exampleShutdown [])
      ["k8saudit-rules", "k8saudit-rules"]).started =
      ["ghcr.io/diginfra/plugins/ruleset/k8saudit:latest"] ∧
    (exampleShutdown []).completes "ghcr.io/diginfra/plugins/ruleset/k8saudit:latest" = true ∧
    (exampleOptions.RunArtifactFollow (exampleFollowEnv []) (exampleShutdown [])
      ["k8saudit-rules", "k8saudit-rules"]).pending = 1 ∧
    (exampleOptions.RunArtifactFollow (exampleFollowEnv []) (exampleShutdown [])
      ["k8saudit-rules", "k8saudit-rules"]).lastLog =
      some "Timed out waiting for followers to exit" := by
  decide

/-- C18. When the set-up succeeded and the context is cancelled, the run closes the
shutdown channel once, waits with a grace timeout of five seconds and returns nil, whether
the followers all reported completion (it then logs that they stopped) or some never did
(it then logs the timeout). -/
theorem runArtifactFollow_shutdown {σ κ : Type} (env : FollowEnv σ κ)
    (sv : Concurrency) (o : artifactFollowOptions) (args : List String)
    (h : (o.setup env args).1 = none) (hc : sv.cancelled = true) :
    (o.RunArtifactFollow env sv args).returned = true ∧
    (o.RunArtifactFollow env sv args).err = none ∧
    (o.RunArtifactFollow env sv args).closes = 1 ∧
    (o.RunArtifactFollow env sv args).grace = some (5 * 10 ^ 9) ∧
    ((o.RunArtifactFollow env sv args).pending = 0 →
      (o.RunArtifactFollow env sv args).lastLog = some "Followers correctly stopped.") ∧
    ((o.RunArtifactFollow env sv args).pending ≠ 0 →
      (o.RunArtifactFollow env sv args).lastLog =
        some "Timed out waiting for followers to exit") := by
  rw [runArtifactFollow_of_setup_ok env sv o args h]
  simp only [superviseFollowers, hc, if_true]
  refine ⟨trivial, trivial, trivial, by decide, ?_, ?_⟩
  · intro hp
    simp only [hp, if_true]
    rfl
  · intro hp
    simp only [hp, if_false]
    rfl

/-- C18, witness: the follower for `b` never reports completion; the run still returns
nil. -/
theorem runArtifactFollow_shutdown_witness :
    (exampleOptions.RunArtifactFollow (exampleFollowEnv []) (exampleShutdown ["b"])
      ["a", "b"]).returned = true ∧
    (exampleOptions.RunArtifactFollow (exampleFollowEnv []) (exampleShutdown ["b"])
      ["a", "b"]).err = none ∧
    (exampleOptions.RunArtifactFollow (exampleFollowEnv []) (exampleShutdown ["b"])
      ["a", "b"]).closes = 1 ∧
    (exampleOptions.RunArtifactFollow (exampleFollowEnv []) (exampleShutdown ["b"])
      ["a", "b"]).lastLog = some "Timed out waiting for followers to exit" :=
  have h := runArtifactFollow_shutdown (exampleFollowEnv []) (exampleShutdown ["b"])
    exampleOptions ["a", "b"] (by decide) rfl
  ⟨h.1, h.2.1, h.2.2.1, h.2.2.2.2.2 (by decide)⟩

/-- C19. Every follower the run creates is configured for the reference its argument
resolves to, with no signature when `noVerify` is set and otherwise with what
`SignatureForIndexRef` returns for the argument as it was given; and when the run gets past
its set-up, it created one follower for each argument, in order. -/
theorem runArtifactFollow_signature {σ κ : Type} (env : FollowEnv σ κ)
    (sv : Concurrency) (o : artifactFollowOptions) (args : List String) :
    (∀ entry ∈ (o.RunArtifactFollow env sv args).news,
      entry.1 ∈ effectiveArgs env args ∧
      env.resolve entry.1 = Except.ok entry.2.1 ∧
      entry.2.2.ArtifactReference = entry.2.1 ∧
      entry.2.2.Signature = if o.noVerify then none else env.signatureFor entry.1) ∧
    ((o.RunArtifactFollow env sv args).err = none →
      (o.RunArtifactFollow env sv args).news.map Prod.fst = effectiveArgs env args) := by
  constructor
  · intro entry hentry
    rw [runArtifactFollow_news] at hentry
    obtain ⟨sched, _, h1, h2, h3⟩ := setup_news env o args entry hentry
    refine ⟨h1, h2, ?_, ?_⟩
    · rw [h3]
      rfl
    · rw [h3]
      rfl
  · intro h
    rw [runArtifactFollow_err] at h
    rw [runArtifactFollow_news]
    obtain ⟨sched, _, hs⟩ := setup_ok env o args h
    have h3 := (createFollowers_ok env o sched _ _ (hs ▸ h)).2.2.1
    rw [hs, h3]
    simp

/-- C19, witness: the follower for the argument `k8saudit-rules` carries the signature the
index holds for that name, although the index holds none for the reference it resolves
to. -/
theorem runArtifactFollow_signature_witness :
    (Option.map (fun (entry : String × String × follower.Config String Unit) =>
        entry.2.2.Signature)
      (exampleOptions.RunArtifactFollow (exampleFollowEnv []) (exampleShutdown [])
        ["k8saudit-rules"]).news.head?) = some (some "cosign") ∧
    (exampleFollowEnv []).signatureFor "ghcr.io/diginfra/plugins/ruleset/k8saudit:latest" =
      none ∧
    (exampleOptions.RunArtifactFollow (exampleFollowEnv []) (exampleShutdown [])
      ["k8saudit-rules"]).news.map Prod.fst = ["k8saudit-rules"] :=
  ⟨by decide, by decide,
    (runArtifactFollow_signature (exampleFollowEnv []) (exampleShutdown []) exampleOptions
      ["k8saudit-rules"]).2 (by decide)⟩

/-- C20. The fixed-interval schedule returns `t + d` for the time `t`; the run uses it,
with the value of `every`, exactly when the cron expression is empty; a cron expression that
parses is the schedule otherwise; one that does not parse makes the run return an error
before any follower is created; and every follower is configured with the schedule
chosen. -/
theorem runArtifactFollow_schedule {σ κ : Type} (env : FollowEnv σ κ)
    (sv : Concurrency) (o : artifactFollowOptions) (args : List String) :
    (∀ d t : Int, ({ Duration := d } : scheduledDuration).Next t = t + d) ∧
    (o.schedule env = Except.ok (Schedule.every { Duration := o.every }) ↔ o.cron = "") ∧
    (∀ c, o.cron ≠ "" → env.parseStandard o.cron = Except.ok c →
      o.schedule env = Except.ok (Schedule.cron c)) ∧
    (∀ e, o.cron ≠ "" → env.parseStandard o.cron = Except.error e →
      ¬ (args.length = 0 ∧ env.configured.length = 0) →
      (o.RunArtifactFollow env sv args).returned = true ∧
      (o.RunArtifactFollow env sv args).err =
        some ("unable to parse cron '" ++ o.cron ++ "': " ++ e) ∧
      (o.RunArtifactFollow env sv args).news = [] ∧
      (o.RunArtifactFollow env sv args).started = []) ∧
    (∀ entry ∈ (o.RunArtifactFollow env sv args).news,
      o.schedule env = Except.ok entry.2.2.Resync) := by
  refine ⟨fun d t => rfl, ?_, ?_, ?_, ?_⟩
  · unfold artifactFollowOptions.schedule
    by_cases hcron : o.cron = ""
    · simp [hcron]
    · simp only [ne_eq, hcron, not_false_eq_true, if_true, iff_false]
      cases env.parseStandard o.cron <;> simp
  · intro c hcron hparse
    simp [artifactFollowOptions.schedule, hcron, hparse]
  · intro e hcron hparse hne
    have hsched : o.schedule env =
        Except.error ("unable to parse cron '" ++ o.cron ++ "': " ++ e) := by
      simp [artifactFollowOptions.schedule, hcron, hparse]
    have hsetup : o.setup env args = (some ("unable to parse cron '" ++ o.cron ++ "': " ++ e),
        { followers := [], adds := 0, news := [] }) := by
      simp only [artifactFollowOptions.setup, hne, if_false, hsched]
    rw [runArtifactFollow_of_setup_error env sv o args _ _ hsetup]
    exact ⟨rfl, rfl, rfl, rfl⟩
  · intro entry hentry
    rw [runArtifactFollow_news] at hentry
    obtain ⟨sched, hsched, _, _, h3⟩ := setup_news env o args entry hentry
    rw [hsched, h3]
    rfl

/-- C20, witness: the cron expression `* *` does not parse; the run returns the error and
creates no follower. -/
theorem runArtifactFollow_schedule_witness :
    (artifactFollowOptions.RunArtifactFollow (exampleFollowEnv []) (exampleShutdown [])
      { exampleOptions with cron := "* *" } ["a"]).err =
      some "unable to parse cron '* *': expected exactly 5 fields" ∧
    (artifactFollowOptions.RunArtifactFollow (exampleFollowEnv []) (exampleShutdown [])
      { exampleOptions with cron := "* *" } ["a"]).news = [] :=
  have h := (runArtifactFollow_schedule (exampleFollowEnv []) (exampleShutdown [])
    { exampleOptions with cron := "* *" } ["a"]).2.2.2.1 "expected exactly 5 fields"
    (by decide) rfl (by decide)
  ⟨h.2.1, h.2.2.1⟩

/-! ## Lemmas: the registry of driver types -/

theorem getTypes_foldl {δ : Type} :
    ∀ (driverTypes : List (String × δ)) (acc : List String),
      driverTypes.foldl (fun driverTypesSlice entry => driverTypesSlice ++ [entry.1]) acc =
        acc ++ driverTypes.map Prod.fst
  | [], acc => by simp
  | entry :: rest, acc => by
    simp only [List.foldl_cons, List.map_cons]
    rw [getTypes_foldl rest (acc ++ [entry.1])]
    simp

/-- `GetTypes` returns the keys of the registry, in the order the loop visits them. -/
theorem getTypes_eq_keys {δ : Type} (driverTypes : List (String × δ)) :
    drivertype.GetTypes driverTypes = driverTypes.map Prod.fst := by
  simp [drivertype.GetTypes, getTypes_foldl]

theorem lookup_isSome_iff_mem_keys {α : Type} (k : String) :
    ∀ (m : List (String × α)), (∃ v, m.lookup k = some v) ↔ k ∈ m.map Prod.fst
  | [] => by simp
  | (k0, v0) :: rest => by
    have ih := lookup_isSome_iff_mem_keys k rest
    rw [lookup_cons_eq]
    by_cases h : k = k0
    · simp [h]
    · simp only [h, if_false, List.map_cons, List.mem_cons, false_or]
      exact ih

/-- `Parse` rejects exactly the strings that are not keys of the registry. -/
theorem parse_error_iff {δ : Type} (driverTypes : List (String × δ)) (s : String) :
    (∃ e, drivertype.Parse driverTypes s = Except.error e) ↔ driverTypes.lookup s = none := by
  unfold drivertype.Parse
  cases h : driverTypes.lookup s <;> simp

/-! ## The claims about the driver types -/

/-- C27. For every registry of driver types (a map: every key once) and every string `s`:
`Parse(s)` returns the type registered under `s` and no error when `s` is a key, and the
error "unsupported driver type specified: s" otherwise; `Parse(s)` succeeds exactly when `s`
is an element of `GetTypes()`; and `GetTypes()` lists the keys of the registry, every one
exactly once. -/
theorem parse_and_getTypes {δ : Type} (driverTypes : List (String × δ))
    (hmap : (driverTypes.map Prod.fst).Nodup) (s : String) :
    (∀ d, (s, d) ∈ driverTypes → drivertype.Parse driverTypes s = Except.ok d) ∧
    (s ∉ driverTypes.map Prod.fst →
      drivertype.Parse driverTypes s =
        Except.error ("unsupported driver type specified: " ++ s)) ∧
    ((∃ d, drivertype.Parse driverTypes s = Except.ok d) ↔
      s ∈ drivertype.GetTypes driverTypes) ∧
    (s ∈ drivertype.GetTypes driverTypes ↔ s ∈ driverTypes.map Prod.fst) ∧
    (s ∈ driverTypes.map Prod.fst → (drivertype.GetTypes driverTypes).count s = 1) ∧
    (drivertype.GetTypes driverTypes).length = driverTypes.length := by
  rw [getTypes_eq_keys]
  refine ⟨?_, ?_, ?_, Iff.rfl, ?_, by simp⟩
  · intro d hd
    have hkey : s ∈ driverTypes.map Prod.fst := List.mem_map.2 ⟨(s, d), hd, rfl⟩
    obtain ⟨v, hv⟩ := (lookup_isSome_iff_mem_keys s driverTypes).2 hkey
    have hmem : (s, v) ∈ driverTypes := by
      clear hd hkey
      induction driverTypes with
      | nil => simp at hv
      | cons entry rest ih =>
        obtain ⟨k0, v0⟩ := entry
        rw [lookup_cons_eq] at hv
        by_cases h : s = k0
        · simp only [h, if_true, Option.some.injEq] at hv
          subst hv
          subst h
          exact List.mem_cons_self _ _
        · simp only [h, if_false] at hv
          simp only [List.map_cons, List.nodup_cons] at hmap
          exact List.mem_cons_of_mem _ (ih hmap.2 hv)
    have huniq : v = d := by
      have := List.inj_on_of_nodup_map hmap hmem hd rfl
      exact (Prod.mk.inj this).2
    subst huniq
    simp [drivertype.Parse, hv]
  · intro hnot
    have hnone : driverTypes.lookup s = none := lookup_none_of_not_mem s driverTypes hnot
    simp [drivertype.Parse, hnone]
  · rw [← lookup_isSome_iff_mem_keys]
    unfold drivertype.Parse
    cases h : driverTypes.lookup s with
    | none => simp
    | some v => simp
  · intro hkey
    exact List.count_eq_one_of_mem hmap hkey

/-- C27, witness: the registry of the three driver engines. -/
theorem parse_and_getTypes_witness :
    drivertype.Parse exampleDriverTypes "ebpf" = Except.ok "ebpf" ∧
    drivertype.Parse exampleDriverTypes "gvisor" =
      Except.error "unsupported driver type specified: gvisor" ∧
    drivertype.GetTypes exampleDriverTypes = ["kmod", "ebpf", "modern_ebpf"] :=
  have h := parse_and_getTypes exampleDriverTypes (by decide) "ebpf"
  have g := parse_and_getTypes exampleDriverTypes (by decide) "gvisor"
  ⟨h.1 "ebpf" (by decide), g.2.1 (by decide), rfl⟩

/-! ## Lemmas: the loop over the config maps -/

/-- A config map is sent with `Update` only if it holds a `diginfra.yaml` whose engine kind
passes `checkDiginfraRunsWithDrivers`. -/
theorem updateConfigMaps_updates {δ γ : Type} (env : DriverConfigEnv δ γ)
    (driverTypes : List (String × δ)) (driverType : δ) :
    ∀ (items : List ConfigMap) (c : Nat) (st : ClusterCommit) (u : Nat × ConfigMap),
      u ∈ (driverConfigOptions.updateConfigMaps env driverTypes driverType items c st).updates →
      u ∈ st.updates ∨
        (c ≤ u.1 ∧ ∃ configMap diginfraYaml diginfraConfig,
          items.get? (u.1 - c) = some configMap ∧
          configMap.Data.lookup "diginfra.yaml" = some diginfraYaml ∧
          env.unmarshalCfg diginfraYaml = Except.ok diginfraConfig ∧
          checkDiginfraRunsWithDrivers driverTypes diginfraConfig.Engine.Kind = none)
  | [], c, st, u, h => by
    left
    simpa [driverConfigOptions.updateConfigMaps] using h
  | configMap :: rest, c, st, u, h => by
    have shift : ∀ (st2 : ClusterCommit),
        u ∈ (driverConfigOptions.updateConfigMaps env driverTypes driverType rest (c + 1)
          st2).updates → st2.updates = st.updates →
        u ∈ st.updates ∨
          (c ≤ u.1 ∧ ∃ configMap2 diginfraYaml diginfraConfig,
            (configMap :: rest).get? (u.1 - c) = some configMap2 ∧
            configMap2.Data.lookup "diginfra.yaml" = some diginfraYaml ∧
            env.unmarshalCfg diginfraYaml = Except.ok diginfraConfig ∧
            checkDiginfraRunsWithDrivers driverTypes diginfraConfig.Engine.Kind = none) := by
      intro st2 h2 heq
      rcases updateConfigMaps_updates env driverTypes driverType rest (c + 1) st2 u h2 with
        h3 | ⟨hle, cm, y, cfg, hget, h4⟩
      · left
        rw [← heq]
        exact h3
      · right
        refine ⟨by omega, cm, y, cfg, ?_, h4⟩
        have : u.1 - c = (u.1 - (c + 1)) + 1 := by omega
        rw [this]
        simpa using hget
    unfold driverConfigOptions.updateConfigMaps at h
    cases hdata : configMap.Data.lookup "diginfra.yaml" with
    | none =>
      simp only [hdata] at h
      exact shift _ h rfl
    | some diginfraYaml =>
      cases hcfg : env.unmarshalCfg diginfraYaml with
      | error e =>
        simp only [hdata, hcfg] at h
        exact shift _ h rfl
      | ok diginfraConfig =>
        cases hcheck : checkDiginfraRunsWithDrivers driverTypes diginfraConfig.Engine.Kind with
        | some e =>
          simp only [hdata, hcfg, hcheck] at h
          exact shift _ h rfl
        | none =>
          have found : c ≤ c ∧ ∃ configMap2 diginfraYaml2 diginfraConfig2,
              (configMap :: rest).get? (c - c) = some configMap2 ∧
              configMap2.Data.lookup "diginfra.yaml" = some diginfraYaml2 ∧
              env.unmarshalCfg diginfraYaml2 = Except.ok diginfraConfig2 ∧
              checkDiginfraRunsWithDrivers driverTypes diginfraConfig2.Engine.Kind = none :=
            ⟨Nat.le_refl c, configMap, diginfraYaml, diginfraConfig, by simp, hdata, hcfg,
              hcheck⟩
          simp only [hdata, hcfg, hcheck] at h
          cases hmap : env.unmarshalMap diginfraYaml with
          | error e =>
            simp only [hmap] at h
            exact shift _ h rfl
          | ok diginfraCfgData =>
            simp only [hmap] at h
            split at h
            · rename_i diginfraCfgEngine hengine
              split at h
              · exact shift _ h rfl
              · rename_i diginfraCfgBytes hbytes
                split at h
                · simp only [List.mem_append, List.mem_singleton] at h
                  rcases h with h | h
                  · exact Or.inl h
                  · right
                    rw [h]
                    exact found
                · rcases updateConfigMaps_updates env driverTypes driverType rest (c + 1) _ u h
                    with h3 | ⟨hle, cm, y, cfg, hget, h4⟩
                  · simp only [List.mem_append, List.mem_singleton] at h3
                    rcases h3 with h3 | h3
                    · exact Or.inl h3
                    · right
                      rw [h3]
                      exact found
                  · right
                    refine ⟨by omega, cm, y, cfg, ?_, h4⟩
                    have : u.1 - c = (u.1 - (c + 1)) + 1 := by omega
                    rw [this]
                    simpa using hget
            · exact shift _ h rfl

/-- The config maps `replaceDriverTypeInK8SConfigMap` sends are those its loop sends. -/
theorem replaceDriverTypeInK8SConfigMap_updates {δ γ : Type} (env : DriverConfigEnv δ γ)
    (driverTypes : List (String × δ)) (o : driverConfigOptions) (driverType : δ)
    (configMapList : ConfigMapList) (hlist : env.list o.Namespace = Except.ok configMapList)
    (u : Nat × ConfigMap)
    (h : u ∈ (o.replaceDriverTypeInK8SConfigMap env driverTypes driverType).updates) :
    u ∈ (driverConfigOptions.updateConfigMaps env driverTypes driverType configMapList.Items 0
      { err := none, updated := false, updates := [], logs := [] }).updates := by
  unfold driverConfigOptions.replaceDriverTypeInK8SConfigMap at h
  simp only at h
  split at h
  · simp at h
  · split at h
    · simp at h
    · rw [hlist] at h
      simp only at h
      split at h
      · simp at h
      · split at h
        · exact h
        · split at h
          · exact h
          · exact h

/-! ## The claims about `driver config` -/

/-- C26. For every engine kind that `drivertype.Parse` rejects:
`checkDiginfraRunsWithDrivers` returns the error "engine.kind is not driver driven: kind";
`replaceDriverTypeInDiginfraConfig`, having read a configuration file with that engine
kind, calls `ReplaceTextInFile` not once and returns nil; and
`replaceDriverTypeInK8SConfigMap` sends no `Update` for a config map of the list whose
`diginfra.yaml` carries that engine kind. -/
theorem non_driver_engine_untouched {δ γ : Type} (env : DriverConfigEnv δ γ)
    (driverTypes : List (String × δ)) (o : driverConfigOptions) (driverType : δ)
    (engineKind : String)
    (hreject : ∃ e, drivertype.Parse driverTypes engineKind = Except.error e) :
    checkDiginfraRunsWithDrivers driverTypes engineKind =
      some ("engine.kind is not driver driven: " ++ engineKind) ∧
    (∀ yamlFile, env.readFile diginfraCfgFile = Except.ok yamlFile →
      env.unmarshalCfg yamlFile = Except.ok { Engine := { Kind := engineKind } } →
      (o.replaceDriverTypeInDiginfraConfig env driverTypes driverType).err = none ∧
      (o.replaceDriverTypeInDiginfraConfig env driverTypes driverType).replacements = []) ∧
    (∀ configMapList i configMap diginfraYaml,
      env.list o.Namespace = Except.ok configMapList →
      configMapList.Items.get? i = some configMap →
      configMap.Data.lookup "diginfra.yaml" = some diginfraYaml →
      env.unmarshalCfg diginfraYaml = Except.ok { Engine := { Kind := engineKind } } →
      ∀ u ∈ (o.replaceDriverTypeInK8SConfigMap env driverTypes driverType).updates,
        u.1 ≠ i) := by
  obtain ⟨e, he⟩ := hreject
  have hcheck : checkDiginfraRunsWithDrivers driverTypes engineKind =
      some ("engine.kind is not driver driven: " ++ engineKind) := by
    simp [checkDiginfraRunsWithDrivers, he]
  refine ⟨hcheck, ?_, ?_⟩
  · intro yamlFile hread hcfg
    simp [driverConfigOptions.replaceDriverTypeInDiginfraConfig, hread, hcfg, hcheck]
  · intro configMapList i configMap diginfraYaml hlist hget hdata hcfg u hu hi
    have hloop := replaceDriverTypeInK8SConfigMap_updates env driverTypes o driverType
      configMapList hlist u hu
    rcases updateConfigMaps_updates env driverTypes driverType _ 0 _ u hloop with
      h | ⟨_, cm, y, cfg, hget2, hdata2, hcfg2, hcheck2⟩
    · simp at h
    · rw [hi] at hget2
      simp only [Nat.sub_zero] at hget2
      rw [hget] at hget2
      cases hget2
      rw [hdata] at hdata2
      cases hdata2
      rw [hcfg] at hcfg2
      cases hcfg2
      rw [hcheck] at hcheck2
      cases hcheck2

/-- C26, witness: the engine kind `gvisor`; the local configuration file is left alone,
and of the config maps of the cluster only the one of the `kmod` deployment is sent. -/
theorem non_driver_engine_untouched_witness :
    checkDiginfraRunsWithDrivers exampleDriverTypes "gvisor" =
      some "engine.kind is not driver driven: gvisor" ∧
    (driverConfigOptions.replaceDriverTypeInDiginfraConfig
      (exampleDriverConfigEnv "gvisor" exampleConfigMaps) exampleDriverTypes
      { Update := true, Namespace := "", KubeConfig := "" } "ebpf").replacements = [] ∧
    (∀ u ∈ (driverConfigOptions.replaceDriverTypeInK8SConfigMap
      (exampleDriverConfigEnv "gvisor" exampleConfigMaps) exampleDriverTypes
      { Update := true, Namespace := "diginfra", KubeConfig := "" } "ebpf").updates,
      u.1 ≠ 1) ∧
    List.map Prod.fst (driverConfigOptions.replaceDriverTypeInK8SConfigMap
      (exampleDriverConfigEnv "gvisor" exampleConfigMaps) exampleDriverTypes
      { Update := true, Namespace := "diginfra", KubeConfig := "" } "ebpf").updates = [0] :=
  have h := non_driver_engine_untouched (exampleDriverConfigEnv "gvisor" exampleConfigMaps)
    exampleDriverTypes { Update := true, Namespace := "diginfra", KubeConfig := "" } "ebpf"
    "gvisor" ⟨_, rfl⟩
  have g := non_driver_engine_untouched (exampleDriverConfigEnv "gvisor" exampleConfigMaps)
    exampleDriverTypes { Update := true, Namespace := "", KubeConfig := "" } "ebpf"
    "gvisor" ⟨_, rfl⟩
  ⟨h.1, (g.2.1 "gvisor" rfl rfl).2,
    h.2.2 { Items := exampleConfigMaps, Size := 4 } 1
      { Name := "diginfra-gvisor", Namespace := "diginfra",
        Data := [("diginfra.yaml", "gvisor")] } "gvisor" rfl rfl rfl rfl,
    by decide⟩

/-! ## Lemmas: splitting at a character -/

theorem splitChars_ne_nil (sep : Char) : ∀ (cs : List Char), splitChars sep cs ≠ []
  | [] => by simp [splitChars]
  | c :: cs => by
    unfold splitChars
    by_cases h : c = sep
    · simp [h]
    · simp only [h, if_false]
      cases hs : splitChars sep cs <;> simp

theorem splitChars_length (sep : Char) :
    ∀ (cs : List Char), (splitChars sep cs).length = cs.count sep + 1
  | [] => by simp [splitChars]
  | c :: cs => by
    have ih := splitChars_length sep cs
    unfold splitChars
    by_cases h : c = sep
    · subst h
      simp [ih]
    · have hne : (c == sep) = false := by simpa using h
      simp only [h, if_false, List.count_cons, hne]
      cases hs : splitChars sep cs with
      | nil => exact absurd hs (splitChars_ne_nil sep cs)
      | cons piece pieces =>
        rw [hs] at ih
        simpa using ih

/-- A string without the separator is one piece. -/
theorem splitChars_of_not_mem (sep : Char) :
    ∀ (cs : List Char), sep ∉ cs → splitChars sep cs = [cs]
  | [], _ => by simp [splitChars]
  | c :: cs, h => by
    simp only [List.mem_cons, not_or] at h
    have hc : ¬ c = sep := fun e => h.1 e.symm
    unfold splitChars
    simp only [hc, if_false, splitChars_of_not_mem sep cs h.2]

/-- Two pieces without the separator, joined by it, split into the two pieces. -/
theorem splitChars_join (sep : Char) (b : List Char) (hb : sep ∉ b) :
    ∀ (a : List Char), sep ∉ a → splitChars sep (a ++ sep :: b) = [a, b]
  | [], _ => by
    simp [splitChars, splitChars_of_not_mem sep b hb]
  | c :: a, h => by
    simp only [List.mem_cons, not_or] at h
    have hc : ¬ c = sep := fun e => h.1 e.symm
    simp only [List.cons_append]
    unfold splitChars
    simp only [hc, if_false, splitChars_join sep b hb a h.2]

/-- A string that splits into two pieces is the two pieces joined by the separator, and
neither piece contains the separator. -/
theorem splitChars_two (sep : Char) :
    ∀ (cs a b : List Char), splitChars sep cs = [a, b] →
      cs = a ++ sep :: b ∧ sep ∉ a ∧ sep ∉ b
  | [], a, b, h => by simp [splitChars] at h
  | c :: cs, a, b, h => by
    unfold splitChars at h
    by_cases hc : c = sep
    · subst hc
      simp only [if_true, List.cons.injEq] at h
      obtain ⟨ha, hrest⟩ := h
      subst ha
      have hcount : (splitChars c cs).length = 1 := by rw [hrest]; rfl
      rw [splitChars_length] at hcount
      have hnot : c ∉ cs := by
        intro hmem
        have := List.count_pos_iff.2 hmem
        omega
      rw [splitChars_of_not_mem c cs hnot] at hrest
      simp only [List.cons.injEq, and_true] at hrest
      subst hrest
      exact ⟨rfl, by simp, hnot⟩
    · simp only [hc, if_false] at h
      cases hs : splitChars sep cs with
      | nil => exact absurd hs (splitChars_ne_nil sep cs)
      | cons piece pieces =>
        rw [hs] at h
        simp only [List.cons.injEq] at h
        obtain ⟨ha, hrest⟩ := h
        subst ha
        subst hrest
        obtain ⟨h1, h2, h3⟩ := splitChars_two sep cs piece b hs
        refine ⟨by rw [h1]; rfl, ?_, h3⟩
        simp only [List.mem_cons, not_or]
        exact ⟨fun e => hc e.symm, h2⟩

/-- The tokens of a string of the form `os/arch`. -/
theorem stringsSplit_join (os arch : String) (hos : '/' ∉ os.data) (harch : '/' ∉ arch.data) :
    stringsSplit (os ++ "/" ++ arch) '/' = [os, arch] := by
  have hdata : (os ++ "/" ++ arch).data = os.data ++ '/' :: arch.data := by
    simp [String.data_append]
  simp [stringsSplit, hdata, splitChars_join '/' arch.data harch os.data hos]

/-- A string with two tokens is the two tokens joined by the slash. -/
theorem stringsSplit_two (s os arch : String) (h : stringsSplit s '/' = [os, arch]) :
    s = os ++ "/" ++ arch ∧ '/' ∉ os.data ∧ '/' ∉ arch.data := by
  unfold stringsSplit at h
  cases hs : splitChars '/' s.data with
  | nil => rw [hs] at h; simp at h
  | cons a rest =>
    cases rest with
    | nil => rw [hs] at h; simp at h
    | cons b rest2 =>
      cases rest2 with
      | cons c rest3 => rw [hs] at h; simp at h
      | nil =>
        rw [hs] at h
        simp only [List.map_cons, List.map_nil, List.cons.injEq, and_true] at h
        obtain ⟨ha, hb⟩ := h
        obtain ⟨h1, h2, h3⟩ := splitChars_two '/' s.data a b hs
        subst ha
        subst hb
        refine ⟨?_, h2, h3⟩
        apply String.ext
        simp [String.data_append, h1]

theorem stringsSplit_length (s : String) (sep : Char) :
    (stringsSplit s sep).length = s.data.count sep + 1 := by
  simp [stringsSplit, splitChars_length]

/-- Once the puller is built and the reference resolved, the command is decided by the
tokens of the platform. -/
theorem runArtifactConfig_resolved (env : ArtifactConfigEnv) (o : artifactConfigOptions)
    (arg ref : String) (rest : List String) (hstore : env.newStore = none)
    (hres : env.resolve arg = Except.ok ref) :
    o.RunArtifactConfig env (arg :: rest) =
      match stringsSplit o.platform '/' with
      | [os, arch] =>
        match env.rawConfigLayer ref os arch with
        | Except.error err =>
          some { err := some err, requested := some (ref, os, arch), printed := none }
        | Except.ok config =>
          some { err := none, requested := some (ref, os, arch), printed := some config }
      | _ =>
        some { err := some ("invalid platform format: " ++ o.platform), requested := none,
               printed := none } := by
  simp only [artifactConfigOptions.RunArtifactConfig, ociutils.Puller, ociutils.Client, hstore,
    hres]

/-- A reference that does not resolve ends the command with the error of the resolution,
whatever the platform is. -/
theorem runArtifactConfig_unresolved (env : ArtifactConfigEnv) (o : artifactConfigOptions)
    (arg err : String) (rest : List String) (hstore : env.newStore = none)
    (hres : env.resolve arg = Except.error err) :
    o.RunArtifactConfig env (arg :: rest) =
      some { err := some err, requested := none, printed := none } := by
  simp only [artifactConfigOptions.RunArtifactConfig, ociutils.Puller, ociutils.Client, hstore,
    hres]

/-- No index knows the key: the merged mapping has no entry for it. -/
theorem entryByName_none (key : String) :
    ∀ (indexes : List (List IndexEntry)),
      (∀ index ∈ indexes, ∀ entry ∈ index, entry.Name ≠ key) →
      entryByName indexes key = none
  | [], _ => rfl
  | index :: rest, h => by
    have hhere : index.find? (fun entry => entry.Name = key) = none := by
      rw [List.find?_eq_none]
      intro entry hentry
      simpa using h index (List.mem_cons_self _ _) entry hentry
    have ih := entryByName_none key rest
      (fun i hi => h i (List.mem_cons_of_mem _ hi))
    unfold entryByName at ih ⊢
    simp only [List.findSome?_cons, hhere, ih]

/-- The selection in a manifest list finds an entry of the requested platform when there is
one, the first of them, and fails otherwise. -/
theorem selectManifest_list (entries : List ManifestEntry) (os arch : String) :
    (∀ digest, selectManifest (TopManifest.manifestList entries) os arch = Except.ok digest →
      ∃ entry ∈ entries, entry.platform = { OS := os, Architecture := arch } ∧
        entry.digest = digest) ∧
    ((∃ entry ∈ entries, entry.platform = { OS := os, Architecture := arch }) →
      ∃ digest, selectManifest (TopManifest.manifestList entries) os arch =
        Except.ok digest) ∧
    ((∀ entry ∈ entries, entry.platform ≠ { OS := os, Architecture := arch }) →
      selectManifest (TopManifest.manifestList entries) os arch =
        Except.error ("unable to find a manifest matching the given platform: " ++ os ++
          "/" ++ arch)) := by
  unfold selectManifest
  refine ⟨?_, ?_, ?_⟩
  · intro digest h
    cases hf : entries.find? (fun entry => entry.platform = { OS := os, Architecture := arch })
      with
    | none => simp [hf] at h
    | some entry =>
      simp only [hf, Except.ok.injEq] at h
      refine ⟨entry, List.mem_of_find?_eq_some hf, ?_, h⟩
      simpa using List.find?_some hf
  · rintro ⟨entry, hmem, hplat⟩
    cases hf : entries.find? (fun entry => entry.platform = { OS := os, Architecture := arch })
      with
    | none =>
      rw [List.find?_eq_none] at hf
      have := hf entry hmem
      simp [hplat] at this
    | some found => exact ⟨found.digest, by simp only [hf]⟩
  · intro hnone
    have hf : entries.find? (fun entry => entry.platform = { OS := os, Architecture := arch })
        = none := by
      rw [List.find?_eq_none]
      intro entry hmem
      simpa using hnone entry hmem
    simp only [hf]

/-! ## The claims about `artifact config` -/

/-- C21. For every name that is not a fully-qualified reference and that no configured index
knows, `ResolveReference` fails with the error "cannot find name among the configured
indexes" (followed by ", skipping"), which contains the name; and the command
`artifact config`, with its puller built, returns that error without a call of
`RawConfigLayer` and without printing, whatever the platform is, a malformed one
included. -/
theorem runArtifactConfig_unknown_name (indexes : List (List IndexEntry))
    (env : ArtifactConfigEnv) (o : artifactConfigOptions) (name : String)
    (rest : List String)
    (hname : isQualified name = false)
    (habsent : ∀ index ∈ indexes, ∀ entry ∈ index, entry.Name ≠ referenceName name)
    (hstore : env.newStore = none) :
    ResolveReference indexes name =
      Except.error ("cannot find " ++ name ++ " among the configured indexes, skipping") ∧
    artifactConfigOptions.RunArtifactConfig { env with resolve := ResolveReference indexes } o
        (name :: rest) =
      some { err := some ("cannot find " ++ name ++
               " among the configured indexes, skipping"),
             requested := none, printed := none } := by
  have hres : ResolveReference indexes name = Except.error (notFoundError name) := by
    simp [ResolveReference, hname, entryByName_none _ indexes habsent]
  exact ⟨hres, runArtifactConfig_unresolved _ o name _ rest hstore hres⟩

/-- C21, witness: the name of the test "non parsable reference", one blank, with a platform
that is not of the form `OS/ARCH`. -/
theorem runArtifactConfig_unknown_name_witness :
    ResolveReference exampleIndexes " " =
      Except.error "cannot find   among the configured indexes, skipping" ∧
    artifactConfigOptions.RunArtifactConfig exampleArtifactConfigEnv
        { PlainHTTP := true, platform := "linux" } [" "] =
      some { err := some "cannot find   among the configured indexes, skipping",
             requested := none, printed := none } :=
  runArtifactConfig_unknown_name exampleIndexes exampleArtifactConfigEnv
    { PlainHTTP := true, platform := "linux" } " " [] (by decide) (by decide) rfl

/-- C22. For every manifest list and every requested `(os, arch)`: the selection returns
the manifest of an entry whose platform is the requested one, and does so whenever there is
such an entry; when no entry matches it fails with "unable to find a manifest matching the
given platform: os/arch"; and the command `artifact config`, for a reference whose
top-level manifest is that list and a platform `os/arch`, returns that error behind the
words "unable to get manifest: ". -/
theorem rawConfigLayer_platform_selection (entries : List ManifestEntry) (os arch : String) :
    (∀ digest, selectManifest (TopManifest.manifestList entries) os arch = Except.ok digest →
      ∃ entry ∈ entries, entry.platform = { OS := os, Architecture := arch } ∧
        entry.digest = digest) ∧
    ((∃ entry ∈ entries, entry.platform = { OS := os, Architecture := arch }) →
      ∃ digest, selectManifest (TopManifest.manifestList entries) os arch =
        Except.ok digest) ∧
    ((∀ entry ∈ entries, entry.platform ≠ { OS := os, Architecture := arch }) →
      selectManifest (TopManifest.manifestList entries) os arch =
        Except.error ("unable to find a manifest matching the given platform: " ++ os ++
          "/" ++ arch) ∧
      ∀ (env : ArtifactConfigEnv) (plainHTTP : Bool) (arg ref : String)
        (fetch : String → Except String TopManifest)
        (configOf : String → Except String String),
        env.newStore = none → env.resolve arg = Except.ok ref →
        fetch ref = Except.ok (TopManifest.manifestList entries) →
        '/' ∉ os.data → '/' ∉ arch.data →
        artifactConfigOptions.RunArtifactConfig
            { env with rawConfigLayer := RawConfigLayer fetch configOf }
            { PlainHTTP := plainHTTP, platform := os ++ "/" ++ arch } [arg] =
          some { err := some ("unable to get manifest: " ++
                   ("unable to find a manifest matching the given platform: " ++ os ++ "/" ++
                     arch)),
                 requested := some (ref, os, arch), printed := none }) := by
  obtain ⟨h1, h2, h3⟩ := selectManifest_list entries os arch
  refine ⟨h1, h2, fun hnone => ⟨h3 hnone, ?_⟩⟩
  intro env plainHTTP arg ref fetch configOf hstore hres hfetch hos harch
  rw [runArtifactConfig_resolved
    { env with rawConfigLayer := RawConfigLayer fetch configOf }
    { PlainHTTP := plainHTTP, platform := os ++ "/" ++ arch } arg ref [] hstore hres]
  simp only [stringsSplit_join os arch hos harch, RawConfigLayer, hfetch, h3 hnone]

/-- C22, witness: the manifest list with `linux/amd64` and `linux/arm64`; `linux/arm64`
selects its entry and `linux/wrong` fails, as in the test "no manifest for given
platform". -/
theorem rawConfigLayer_platform_selection_witness :
    selectManifest (TopManifest.manifestList
      [{ platform := { OS := "linux", Architecture := "amd64" }, digest := "sha256:aaaa" },
       { platform := { OS := "linux", Architecture := "arm64" }, digest := "sha256:bbbb" }])
      "linux" "arm64" = Except.ok "sha256:bbbb" ∧
    artifactConfigOptions.RunArtifactConfig exampleArtifactConfigEnv
        { PlainHTTP := true, platform := "linux" ++ "/" ++ "wrong" }
        ["localhost:5000/plugin:latest"] =
      some { err := some ("unable to get manifest: " ++
               ("unable to find a manifest matching the given platform: " ++ "linux" ++ "/" ++
                 "wrong")),
             requested := some ("localhost:5000/plugin:latest", "linux", "wrong"),
             printed := none } :=
  ⟨rfl,
    ((rawConfigLayer_platform_selection
      [{ platform := { OS := "linux", Architecture := "amd64" }, digest := "sha256:aaaa" },
       { platform := { OS := "linux", Architecture := "arm64" }, digest := "sha256:bbbb" }]
      "linux" "wrong").2.2 (by decide)).2 exampleArtifactConfigEnv true
      "localhost:5000/plugin:latest" "localhost:5000/plugin:latest" exampleFetch
      (fun digest => Except.ok digest) rfl rfl rfl (by decide) (by decide)⟩

/-- C23. Given a puller and a reference that resolves: the platform splits at `/` into
exactly two tokens exactly when it contains exactly one `/`; the command returns "invalid
platform format: platform", without a call of `RawConfigLayer`, exactly when the tokens are
not two; and otherwise it calls `RawConfigLayer` for the resolved reference with the text
before the slash as OS and the text after it as architecture, prints the config layer it
gets or returns the error it gets. -/
theorem runArtifactConfig_platform_format (env : ArtifactConfigEnv)
    (o : artifactConfigOptions) (arg ref : String) (rest : List String)
    (hstore : env.newStore = none) (hres : env.resolve arg = Except.ok ref) :
    ((stringsSplit o.platform '/').length = 2 ↔ o.platform.data.count '/' = 1) ∧
    (o.RunArtifactConfig env (arg :: rest) =
        some { err := some ("invalid platform format: " ++ o.platform), requested := none,
               printed := none } ↔
      (stringsSplit o.platform '/').length ≠ 2) ∧
    ((stringsSplit o.platform '/').length = 2 →
      ∃ os arch, o.platform = os ++ "/" ++ arch ∧ '/' ∉ os.data ∧ '/' ∉ arch.data ∧
        o.RunArtifactConfig env (arg :: rest) =
          match env.rawConfigLayer ref os arch with
          | Except.error err =>
            some { err := some err, requested := some (ref, os, arch), printed := none }
          | Except.ok config =>
            some { err := none, requested := some (ref, os, arch), printed := some config }) := by
  have hrun := runArtifactConfig_resolved env o arg ref rest hstore hres
  refine ⟨?_, ?_, ?_⟩
  · rw [stringsSplit_length]
    omega
  · rw [hrun]
    cases hs : stringsSplit o.platform '/' with
    | nil => simp
    | cons os rest1 =>
      cases rest1 with
      | nil => simp
      | cons arch rest2 =>
        cases rest2 with
        | cons x rest3 => simp
        | nil =>
          simp only [List.length_cons, List.length_nil, ne_eq, not_true_eq_false, iff_false]
          cases env.rawConfigLayer ref os arch <;> simp
  · intro hlen
    cases hs : stringsSplit o.platform '/' with
    | nil => rw [hs] at hlen; simp at hlen
    | cons os rest1 =>
      cases rest1 with
      | nil => rw [hs] at hlen; simp at hlen
      | cons arch rest2 =>
        cases rest2 with
        | cons x rest3 => rw [hs] at hlen; simp at hlen
        | nil =>
          obtain ⟨h1, h2, h3⟩ := stringsSplit_two o.platform os arch hs
          refine ⟨os, arch, h1, h2, h3, ?_⟩
          rw [hrun, hs]

/-- C23, witness: the platform `linux/arm64` of the test "with valid platform" and the
malformed platform `linux/arm64/v8`. -/
theorem runArtifactConfig_platform_format_witness :
    (artifactConfigOptions.RunArtifactConfig exampleArtifactConfigEnv
        { PlainHTTP := true, platform := "linux/arm64/v8" } ["localhost:5000/plugin:latest"] =
      some { err := some ("invalid platform format: " ++ "linux/arm64/v8"), requested := none,
             printed := none } ↔
      (stringsSplit "linux/arm64/v8" '/').length ≠ 2) ∧
    artifactConfigOptions.RunArtifactConfig exampleArtifactConfigEnv
        { PlainHTTP := true, platform := "linux/arm64" } ["localhost:5000/plugin:latest"] =
      some { err := none, requested := some ("localhost:5000/plugin:latest", "linux", "arm64"),
             printed := some "sha256:bbbb" } :=
  ⟨(runArtifactConfig_platform_format exampleArtifactConfigEnv
      { PlainHTTP := true, platform := "linux/arm64/v8" } "localhost:5000/plugin:latest"
      "localhost:5000/plugin:latest" [] rfl rfl).2.1,
    by decide⟩

/-! ## Lemmas: the flag set -/

/-- A flag found by its name has that name. -/
theorem lookupFlag_name (flags : List Flag) (name : String) (f : Flag)
    (h : lookupFlag flags name = some f) : f.Name = name := by
  simpa using List.find?_some h

/-- `Set` changes the flag of the given name, to what `Value.Set` makes of the text, and no
other flag. -/
theorem setFlag_ok (env : FlagsEnv) (name value : String) :
    ∀ (flags flags2 : List Flag), setFlag env flags name value = Except.ok flags2 →
      (∃ f text, lookupFlag flags name = some f ∧
        env.valueSet name f.Value value = Except.ok text ∧
        lookupFlag flags2 name = some { f with Value := text, Changed := true }) ∧
      (∀ other, other ≠ name → lookupFlag flags2 other = lookupFlag flags other)
  | [], flags2, h => by simp [setFlag] at h
  | f :: rest, flags2, h => by
    unfold setFlag at h
    by_cases hname : f.Name = name
    · simp only [hname, if_true] at h
      cases hv : env.valueSet name f.Value value with
      | error err => simp [hv] at h
      | ok text =>
        simp only [hv, Except.ok.injEq] at h
        subst h
        refine ⟨⟨f, text, by simp [lookupFlag, hname], hv, by simp [lookupFlag, hname]⟩, ?_⟩
        intro other hother
        have hne : ¬ name = other := fun e => hother e.symm
        simp [lookupFlag, List.find?_cons, hname, hne]
    · simp only [hname, if_false] at h
      cases hrest : setFlag env rest name value with
      | error err => simp [hrest] at h
      | ok rest2 =>
        simp only [hrest, Except.ok.injEq] at h
        subst h
        obtain ⟨⟨g, text, hg, hv, hg2⟩, hothers⟩ := setFlag_ok env name value rest rest2 hrest
        refine ⟨⟨g, text, ?_, hv, ?_⟩, ?_⟩
        · simpa [lookupFlag, List.find?_cons, hname] using hg
        · simpa [lookupFlag, List.find?_cons, hname] using hg2
        · intro other hother
          have := hothers other hother
          by_cases ho : f.Name = other
          · simp [lookupFlag, List.find?_cons, ho]
          · simpa [lookupFlag, List.find?_cons, ho] using this

/-- One block: its flag ends as the precedence says, and no other flag changes. -/
theorem overrideFlag_ok (env : FlagsEnv) (ov : Override) (flags flags2 : List Flag)
    (h : overrideFlag env ov flags = Except.ok flags2) :
    (∃ f f2, lookupFlag flags ov.flag = some f ∧ lookupFlag flags2 ov.flag = some f2 ∧
      Overridden env ov f f2) ∧
    (∀ other, other ≠ ov.flag → lookupFlag flags2 other = lookupFlag flags other) := by
  unfold overrideFlag at h
  cases hf : lookupFlag flags ov.flag with
  | none => simp [hf] at h
  | some f =>
    have hname := lookupFlag_name flags ov.flag f hf
    simp only [hf] at h
    by_cases hcond : (!f.Changed && env.isSet ov.key) = true
    · rw [if_pos hcond] at h
      simp only [Bool.and_eq_true, Bool.not_eq_true'] at hcond
      cases hval : configuredValue env ov with
      | error err => simp [hval] at h
      | ok val =>
        simp only [hval] at h
        cases hset : setFlag env flags f.Name val with
        | error err => simp [hset] at h
        | ok flags3 =>
          simp only [hset, Except.ok.injEq] at h
          subst h
          rw [hname] at hset
          obtain ⟨⟨g, text, hg, hv, hg2⟩, hothers⟩ := setFlag_ok env ov.flag val flags flags3 hset
          rw [hf] at hg
          cases hg
          refine ⟨⟨f, _, rfl, hg2, ?_, ?_, ?_⟩, hothers⟩
          · intro hch
            rw [hcond.1] at hch
            cases hch
          · intro _ _
            exact ⟨val, hval, hv⟩
          · intro _ hset2
            rw [hcond.2] at hset2
            cases hset2
    · rw [if_neg hcond] at h
      simp only [Except.ok.injEq] at h
      subst h
      refine ⟨⟨f, f, rfl, hf, fun _ => rfl, ?_, fun _ _ => rfl⟩, fun _ _ => rfl⟩
      intro hch hset
      simp [hch, hset] at hcond

/-- The blocks one after the other, for blocks of pairwise different flags: every block's
flag ends as the precedence says, and the flags of no block are unchanged. -/
theorem overrideFlags_ok (env : FlagsEnv) :
    ∀ (ovs : List Override) (flags flags2 : List Flag),
      (ovs.map (fun ov => ov.flag)).Nodup →
      overrideFlags env ovs flags = Except.ok flags2 →
      (∀ ov ∈ ovs, ∃ f f2, lookupFlag flags ov.flag = some f ∧
        lookupFlag flags2 ov.flag = some f2 ∧ Overridden env ov f f2) ∧
      (∀ other, other ∉ ovs.map (fun ov => ov.flag) →
        lookupFlag flags2 other = lookupFlag flags other)
  | [], flags, flags2, _, h => by
    simp only [overrideFlags, Except.ok.injEq] at h
    subst h
    simp
  | ov :: rest, flags, flags2, hnd, h => by
    simp only [List.map_cons, List.nodup_cons] at hnd
    unfold overrideFlags at h
    cases hstep : overrideFlag env ov flags with
    | error err => simp [hstep] at h
    | ok flags1 =>
      simp only [hstep] at h
      obtain ⟨⟨f, f1, hf, hf1, hov⟩, hothers1⟩ := overrideFlag_ok env ov flags flags1 hstep
      obtain ⟨hrest, hothers⟩ := overrideFlags_ok env rest flags1 flags2 hnd.2 h
      refine ⟨?_, ?_⟩
      · intro ov2 hmem
        rcases List.mem_cons.1 hmem with e | e
        · subst e
          exact ⟨f, f1, hf, by rw [hothers ov2.flag hnd.1]; exact hf1, hov⟩
        · obtain ⟨g, g2, hg, hg2, hov2⟩ := hrest ov2 e
          have hne : ov2.flag ≠ ov.flag := by
            intro heq
            exact hnd.1 (heq ▸ List.mem_map.2 ⟨ov2, e, rfl⟩)
          exact ⟨g, g2, by rw [← hothers1 ov2.flag hne]; exact hg, hg2, hov2⟩
      · intro other hother
        simp only [List.map_cons, List.mem_cons, not_or] at hother
        rw [hothers other hother.2, hothers1 other hother.1]

/-- A successful `PreRunE` ran its nine blocks. -/
theorem followPreRunE_ok (env : FlagsEnv) (flags flags2 : List Flag)
    (h : followPreRunE env flags = Except.ok flags2) :
    overrideFlags env followOverrides flags = Except.ok flags2 ∧ env.retrieve flags2 = none := by
  unfold followPreRunE at h
  cases hov : overrideFlags env followOverrides flags with
  | error err => simp [hov] at h
  | ok flags1 =>
    simp only [hov] at h
    cases hr : env.retrieve flags1 with
    | some err => simp [hr] at h
    | none =>
      simp only [hr, Except.ok.injEq] at h
      subst h
      exact ⟨rfl, hr⟩

/-! ## The claim about the precedence of the arguments -/

/-- C24. After a successful `PreRunE`, each of the flags `every`, `cron`,
`diginfra-versions`, `rulesfiles-dir`, `plugins-dir`, `assets-dir`, `tmp-dir`,
`allowed-types` and `no-verify` is as follows: a flag given on the command line is left as
the command line set it; a flag not given on the command line whose key is set in the
environment or the configuration holds what `Value.Set` made of the configured value; a
flag not given whose key is not set is left with its default. The flags outside the nine
blocks are left as they were. -/
theorem followPreRunE_precedence (env : FlagsEnv) (flags flags2 : List Flag)
    (h : followPreRunE env flags = Except.ok flags2) :
    (∀ ov ∈ followOverrides, ∃ f f2, lookupFlag flags ov.flag = some f ∧
      lookupFlag flags2 ov.flag = some f2 ∧
      (f.Changed = true → f2 = f) ∧
      (f.Changed = false → env.isSet ov.key = true →
        ∃ text, configuredValue env ov = Except.ok text ∧
          env.valueSet ov.flag f.Value text = Except.ok f2.Value) ∧
      (f.Changed = false → env.isSet ov.key = false → f2 = f)) ∧
    (followOverrides.map (fun ov => ov.flag) =
      ["every", "cron", "diginfra-versions", "rulesfiles-dir", "plugins-dir", "assets-dir",
       "tmp-dir", "allowed-types", "no-verify"]) ∧
    (∀ other, other ∉ followOverrides.map (fun ov => ov.flag) →
      lookupFlag flags2 other = lookupFlag flags other) := by
  obtain ⟨hov, _⟩ := followPreRunE_ok env flags flags2 h
  obtain ⟨h1, h2⟩ := overrideFlags_ok env followOverrides flags flags2 (by decide) hov
  exact ⟨h1, by decide, h2⟩

/-- C24, witness: `--every 1h` on the command line and a configuration that sets `every`
and `tmp-dir`: `every` stays at one hour, `tmp-dir` takes the configured value, and the
other flags keep their defaults. -/
theorem followPreRunE_precedence_witness :
    followPreRunE exampleFlagsEnv exampleFlags = Except.ok exampleFlagsAfter ∧
    lookupFlag exampleFlagsAfter "timeout" = lookupFlag exampleFlags "timeout" ∧
    ∃ f f2, lookupFlag exampleFlags "every" = some f ∧
      lookupFlag exampleFlagsAfter "every" = some f2 ∧ (f.Changed = true → f2 = f) :=
  have h := followPreRunE_precedence exampleFlagsEnv exampleFlags exampleFlagsAfter rfl
  have g := h.1 _ (List.mem_cons_self _ _)
  ⟨rfl, h.2.2 "timeout" (by decide),
    g.choose, g.choose_spec.choose, g.choose_spec.choose_spec.1,
    g.choose_spec.choose_spec.2.1, g.choose_spec.choose_spec.2.2.1⟩

/-! ## Lemmas: the retry budget -/

theorem sleepsFrom_concat (indef : Indefinite) (cfg : backoffConfig) (c k : Nat) :
    sleepsFrom indef cfg c (k + 1) =
      sleepsFrom indef cfg c k ++ [cfg.backoff indef ((c + k : Nat) : Int)] := by
  simp [sleepsFrom, List.range'_concat]

theorem sleepsFrom_get (indef : Indefinite) (cfg : backoffConfig) (k : Nat) :
    ∀ (i : Nat), i < k → (sleepsFrom indef cfg 0 k).get? i = some (cfg.backoff indef (i : Int)) := by
  intro i hi
  simp [sleepsFrom, List.getElem?_range', hi]

/-- A failure that is retried passed the budget check: for a budget below the largest
`Duration`, the projected wake time is within `MaxDelay` of the start. -/
theorem retried_wake_le {ρ : Type} (indef : Indefinite) (env : Env ρ) (cfg : backoffConfig)
    (start : Int) (i : Nat) (hmax : cfg.MaxDelay < (2 : Int) ^ 63 - 1)
    (hmin : -(2 : Int) ^ 63 ≤ cfg.MaxDelay)
    (h : retried indef env cfg start i = true) :
    env.now (i + 1) + cfg.backoff indef (i : Int) ≤ start + cfg.MaxDelay := by
  simp only [retried, Bool.and_eq_true, Bool.not_eq_true', decide_eq_false_iff_not] at h
  have h2 := h.2
  rw [timeSub_gt_iff _ _ _ hmax hmin] at h2
  unfold timeAdd at h2
  omega

/-- What the loop returns, it returns after some number `k` of retried failures, at the
first call that is not retried. -/
theorem roundTripLoop_outcome {ρ : Type} (indef : Indefinite) (env : Env ρ) :
    ∀ (fuel : Nat) (bt : backoffTransport) (c : Nat) (sl : List Int) (out : Outcome ρ),
      bt.attempts = (c : Int) →
      roundTripLoop indef env fuel bt c sl = some out →
      ∃ k, (∀ i, c ≤ i → i < c + k → retried indef env bt.Config bt.startTime i = true) ∧
        retried indef env bt.Config bt.startTime (c + k) = false ∧
        out.calls = c + k + 1 ∧
        out.sleeps = sl ++ sleepsFrom indef bt.Config c k ∧
        out.bt = { bt with attempts := ((c + k : Nat) : Int) } ∧
        k < fuel ∧
        (out.err = none → (env.base (c + k)).2 = none)
  | 0, bt, c, sl, out, _, h => by simp [roundTripLoop] at h
  | fuel + 1, bt, c, sl, out, hatt, h => by
    have hbt : { bt with attempts := ((c + 0 : Nat) : Int) } = bt := by
      cases bt
      simp only [Nat.add_zero] at hatt ⊢
      simp_all
    unfold roundTripLoop at h
    rcases hbase : env.base c with ⟨resp, err⟩
    rw [hbase] at h
    cases err with
    | none =>
      simp only [Option.some.injEq] at h
      subst h
      refine ⟨0, fun i h1 h2 => by omega, ?_, rfl, by simp [sleepsFrom], hbt.symm, by omega,
        fun _ => by simp [hbase]⟩
      simp [retried, hbase]
    | some e =>
      simp only at h
      cases hctx : env.ctxErr c with
      | some cerr =>
        simp only [hctx, Option.some.injEq] at h
        subst h
        refine ⟨0, fun i h1 h2 => by omega, ?_, rfl, by simp [sleepsFrom], hbt.symm, by omega,
          fun habs => by simp at habs⟩
        simp [retried, hbase, hctx]
      | none =>
        simp only [hctx] at h
        by_cases hover : bt.Config.MaxDelay <
            timeSub (timeAdd (env.now (c + 1)) (bt.Config.backoff indef bt.attempts)) bt.startTime
        · rw [if_pos hover] at h
          simp only [Option.some.injEq] at h
          subst h
          refine ⟨0, fun i h1 h2 => by omega, ?_, rfl, by simp [sleepsFrom], hbt.symm, by omega,
            fun habs => by simp at habs⟩
          rw [hatt] at hover
          simp [retried, hbase, hctx, hover]
        · rw [if_neg hover] at h
          obtain ⟨k, hk1, hk2, hk3, hk4, hk5, hk6, hk7⟩ := roundTripLoop_outcome indef env fuel
            { bt with attempts := bt.attempts + 1 } (c + 1) (sl ++ [bt.Config.backoff indef bt.attempts])
            out (by simp [hatt]) h
          refine ⟨k + 1, ?_, ?_, ?_, ?_, ?_, by omega, ?_⟩
          · intro i h1 h2
            by_cases hic : i = c
            · subst hic
              rw [hatt] at hover
              simp [retried, hbase, hctx, hover]
            · exact hk1 i (by omega) (by omega)
          · have e1 : c + (k + 1) = c + 1 + k := by omega
            rw [e1]
            exact hk2
          · rw [hk3]
            omega
          · rw [hk4, sleepsFrom_succ, hatt]
            simp
          · rw [hk5]
            have e1 : c + (k + 1) = c + 1 + k := by omega
            rw [e1]
          · have e1 : c + (k + 1) = c + 1 + k := by omega
            rw [e1]
            exact hk7

/-- What `RoundTrip` returns, it returns after some number of retried failures: the sleeps
are the delays `backoff(0), backoff(1), ...` of those failures, one call more was made than
sleeps, and the attempt counter is the number of sleeps. -/
theorem roundTrip_outcome {ρ : Type} (indef : Indefinite) (env : Env ρ)
    (bt : backoffTransport) (fuel : Nat) (out : Outcome ρ)
    (h : bt.RoundTrip indef env fuel = some out) :
    (∀ i, i < out.sleeps.length → retried indef env bt.Config (env.now 0) i = true) ∧
    retried indef env bt.Config (env.now 0) out.sleeps.length = false ∧
    out.calls = out.sleeps.length + 1 ∧
    out.sleeps = sleepsFrom indef bt.Config 0 out.sleeps.length ∧
    out.bt = { Config := bt.Config, attempts := (out.sleeps.length : Int),
               startTime := env.now 0 } ∧
    out.sleeps.length < fuel ∧
    (out.err = none → (env.base out.sleeps.length).2 = none) := by
  unfold backoffTransport.RoundTrip at h
  obtain ⟨k, hk1, hk2, hk3, hk4, hk5, hk6, hk7⟩ := roundTripLoop_outcome indef env fuel
    { Config := bt.Config, attempts := 0, startTime := env.now 0 } 0 [] out (by simp) h
  have hlen : out.sleeps.length = k := by
    rw [hk4]
    simp [sleepsFrom_length]
  rw [hlen]
  simp only [Nat.zero_add, List.nil_append] at hk1 hk2 hk3 hk4 hk5 hk7
  exact ⟨fun i hi => hk1 i (Nat.zero_le i) hi, hk2, hk3, hk4, hk5, hk6, hk7⟩

/-- The delays that were really slept: a negative delay makes `time.Sleep` return at
once. -/
theorem sum_le_sum_max (l : List Int) : l.sum ≤ (l.map (fun d => max 0 d)).sum := by
  induction l with
  | nil => simp
  | cons d rest ih =>
    simp only [List.sum_cons, List.map_cons]
    have : d ≤ max 0 d := le_max_right 0 d
    omega

/-- The budget of the retries. After `k` retried failures, on a clock that does not go
backwards and that every sleep advances by the delay slept at least, the delays slept add
up to no more than `MaxDelay`, or to nothing for a negative `MaxDelay`; and before the
next failure the clock has advanced by their sum at least. -/
theorem retried_sleep_budget {ρ : Type} (indef : Indefinite) (env : Env ρ)
    (cfg : backoffConfig) (hmax : cfg.MaxDelay < (2 : Int) ^ 63 - 1)
    (hmin : -(2 : Int) ^ 63 ≤ cfg.MaxDelay) :
    ∀ (k : Nat),
      (∀ i, i < k → retried indef env cfg (env.now 0) i = true) →
      (∀ i, i < k + 1 → env.now i ≤ env.now (i + 1)) →
      (∀ i, i < k → env.now (i + 1) + cfg.backoff indef (i : Int) ≤ env.now (i + 2)) →
      ((sleepsFrom indef cfg 0 k).map (fun d => max 0 d)).sum ≤ max 0 cfg.MaxDelay ∧
      env.now 0 + ((sleepsFrom indef cfg 0 k).map (fun d => max 0 d)).sum ≤ env.now (k + 1)
  | 0, _, hmono, _ => by
    simp only [sleepsFrom, List.range'_zero, List.map_nil, List.sum_nil, add_zero]
    exact ⟨le_max_left 0 _, hmono 0 (by omega)⟩
  | k + 1, hretry, hmono, hadv => by
    obtain ⟨ih1, ih2⟩ := retried_sleep_budget indef env cfg hmax hmin k
      (fun i hi => hretry i (by omega)) (fun i hi => hmono i (by omega))
      (fun i hi => hadv i (by omega))
    have hwake := retried_wake_le indef env cfg (env.now 0) k hmax hmin (hretry k (by omega))
    have hstep : env.now (k + 1) + cfg.backoff indef (k : Int) ≤ env.now (k + 1 + 1) :=
      hadv k (by omega)
    have hm := hmono (k + 1) (by omega)
    rw [sleepsFrom_concat]
    simp only [List.map_append, List.map_cons, List.map_nil, List.sum_append, List.sum_cons,
      List.sum_nil, add_zero, Nat.zero_add]
    have hM0 : (0 : Int) ≤ max 0 cfg.MaxDelay := le_max_left 0 _
    have hMM : cfg.MaxDelay ≤ max 0 cfg.MaxDelay := le_max_right 0 _
    rcases le_total (cfg.backoff indef (k : Int)) 0 with hneg | hpos
    · rw [max_eq_left hneg]
      constructor
      · omega
      · omega
    · rw [max_eq_right hpos]
      constructor
      · omega
      · omega

/-- With a positive base delay within the cap, every delay is the base delay at least. -/
theorem baseDelay_le_backoff (indef : Indefinite) (bc : backoffConfig) (i : Nat)
    (hB : 0 < bc.BaseDelay) (hBM : bc.BaseDelay ≤ bc.MaxDelay)
    (h53 : bc.MaxDelay ≤ (2 : Int) ^ 53)
    (hM : F64.le (F64.ofInt 1) bc.Multiplier = true) :
    bc.BaseDelay ≤ bc.backoff indef (i : Int) := by
  have h := backoff_mono_of_pos indef bc 0 (i : Int) hB hBM h53 hM (le_refl 0)
    (Int.natCast_nonneg i)
  simpa [backoffConfig.backoff] using h

/-- On a clock that every sleep advances by the delay slept at least, `j` sleeps of the
base delay at least take `j` base delays at least. -/
theorem clock_lower_bound {ρ : Type} (indef : Indefinite) (env : Env ρ) (cfg : backoffConfig)
    (n : Nat) (hmono : env.now 0 ≤ env.now 1)
    (hadv : ∀ i, i < n → env.now (i + 1) + cfg.backoff indef (i : Int) ≤ env.now (i + 2))
    (hs : ∀ i : Nat, cfg.BaseDelay ≤ cfg.backoff indef (i : Int)) :
    ∀ (j : Nat), j ≤ n → env.now 0 + (j : Int) * cfg.BaseDelay ≤ env.now (j + 1)
  | 0, _ => by simpa using hmono
  | j + 1, hj => by
    have ih := clock_lower_bound indef env cfg n hmono hadv hs j (by omega)
    have hstep : env.now (j + 1) + cfg.backoff indef (j : Int) ≤ env.now (j + 1 + 1) :=
      hadv j (by omega)
    have hsj := hs j
    have : ((j + 1 : Nat) : Int) * cfg.BaseDelay = (j : Int) * cfg.BaseDelay + cfg.BaseDelay := by
      push_cast
      ring
    rw [this]
    omega

/-- The budget is spent after `floor(MaxDelay / BaseDelay) + 1` failures at the latest: they
cannot all be retried. -/
theorem not_all_retried {ρ : Type} (indef : Indefinite) (env : Env ρ) (cfg : backoffConfig)
    (hB : 0 < cfg.BaseDelay) (hM : F64.le (F64.ofInt 1) cfg.Multiplier = true)
    (h53 : cfg.MaxDelay ≤ (2 : Int) ^ 53) (hmin : -(2 : Int) ^ 63 ≤ cfg.MaxDelay)
    (hmono : env.now 0 ≤ env.now 1)
    (hadv : ∀ i, i < (cfg.MaxDelay / cfg.BaseDelay).toNat →
      env.now (i + 1) + cfg.backoff indef (i : Int) ≤ env.now (i + 2)) :
    ¬ (∀ i, i < (cfg.MaxDelay / cfg.BaseDelay).toNat + 1 →
      retried indef env cfg (env.now 0) i = true) := by
  intro hall
  have hmax : cfg.MaxDelay < (2 : Int) ^ 63 - 1 := by
    have : ((2 : Int) ^ 53) < (2 : Int) ^ 63 - 1 := by norm_num
    omega
  by_cases hBM : cfg.BaseDelay ≤ cfg.MaxDelay
  · have hs : ∀ i : Nat, cfg.BaseDelay ≤ cfg.backoff indef (i : Int) :=
      fun i => baseDelay_le_backoff indef cfg i hB hBM h53 hM
    have hq : 0 ≤ cfg.MaxDelay / cfg.BaseDelay :=
      Int.ediv_nonneg (by omega) (by omega)
    have hN : (((cfg.MaxDelay / cfg.BaseDelay).toNat : Nat) : Int) =
        cfg.MaxDelay / cfg.BaseDelay := Int.toNat_of_nonneg hq
    have hclock := clock_lower_bound indef env cfg _ hmono hadv hs
      (cfg.MaxDelay / cfg.BaseDelay).toNat (le_refl _)
    have hwake := retried_wake_le indef env cfg (env.now 0) _ hmax hmin
      (hall (cfg.MaxDelay / cfg.BaseDelay).toNat (by omega))
    have hlast := hs (cfg.MaxDelay / cfg.BaseDelay).toNat
    have hdiv := Int.lt_ediv_add_one_mul_self cfg.MaxDelay hB
    rw [hN] at hclock
    have hexp : (cfg.MaxDelay / cfg.BaseDelay + 1) * cfg.BaseDelay =
        cfg.MaxDelay / cfg.BaseDelay * cfg.BaseDelay + cfg.BaseDelay := by ring
    rw [hexp] at hdiv
    omega
  · have hwake := retried_wake_le indef env cfg (env.now 0) 0 hmax hmin (hall 0 (by omega))
    have h0 : cfg.backoff indef ((0 : Nat) : Int) = cfg.BaseDelay := by
      simp [backoffConfig.backoff]
    rw [h0] at hwake
    simp only [Nat.zero_add] at hwake
    omega

/-- A failure that is not retried ends the call: with the error of the context when it is
cancelled, with the timeout error otherwise. -/
theorem roundTrip_stops {ρ : Type} (indef : Indefinite) (env : Env ρ) (bt : backoffTransport)
    (k extra : Nat)
    (hretry : ∀ i, i < k → retried indef env bt.Config (env.now 0) i = true)
    (hstop : retried indef env bt.Config (env.now 0) k = false)
    (hfail : (env.base k).2.isSome = true) :
    ∃ out, bt.RoundTrip indef env (extra + 1 + k) = some out ∧ out.calls = k + 1 ∧
      (out.err = some timeoutError ∨
        ∃ cerr, env.ctxErr k = some cerr ∧ out.err = some cerr) ∧
      out.sleeps = sleepsFrom indef bt.Config 0 k ∧
      out.bt.attempts = (k : Int) := by
  rw [roundTrip_after_retries indef env bt k (extra + 1) hretry]
  rcases hbase : env.base k with ⟨resp, err⟩
  rw [hbase] at hfail
  cases err with
  | none => simp at hfail
  | some e =>
    cases hctx : env.ctxErr k with
    | some cerr =>
      exact ⟨{ resp := none, err := some cerr, calls := k + 1,
               sleeps := sleepsFrom indef bt.Config 0 k,
               bt := { Config := bt.Config, attempts := (k : Int), startTime := env.now 0 } },
        by simp only [roundTripLoop, hbase, hctx], rfl, Or.inr ⟨cerr, rfl, rfl⟩, rfl, rfl⟩
    | none =>
      have hover : bt.Config.MaxDelay <
          timeSub (timeAdd (env.now (k + 1)) (bt.Config.backoff indef (k : Int))) (env.now 0) := by
        simp only [retried, hbase, hctx, Option.isSome_some, Option.isNone_none, Bool.and_self,
          Bool.true_and, Bool.not_eq_false', decide_eq_true_eq] at hstop
        exact hstop
      exact ⟨{ resp := resp, err := some timeoutError, calls := k + 1,
               sleeps := sleepsFrom indef bt.Config 0 k,
               bt := { Config := bt.Config, attempts := (k : Int), startTime := env.now 0 } },
        by simp only [roundTripLoop, hbase, hctx, if_pos hover], rfl, Or.inl rfl, rfl, rfl⟩

/-- When every call of the base transport fails, `RoundTrip` does not return without an
error. -/
theorem roundTrip_err_of_failing {ρ : Type} (indef : Indefinite) (env : Env ρ)
    (bt : backoffTransport) (fuel : Nat) (out : Outcome ρ)
    (hfail : ∀ i, (env.base i).2.isSome = true)
    (h : bt.RoundTrip indef env fuel = some out) : out.err ≠ none := by
  intro hnone
  have := (roundTrip_outcome indef env bt fuel out h).2.2.2.2.2.2 hnone
  have h2 := hfail out.sleeps.length
  rw [this] at h2
  simp at h2

/-! ## The claims about the retry budget -/

/-- C28, counterexample. With `--timeout -1s` the first failure spends the budget: nothing
is slept, and the sum of the delays slept, zero, exceeds `MaxDelay`. With the largest
`Duration` as `MaxDelay`, `BaseDelay = 2^62` ns and `Multiplier = 1`, on a clock that each
sleep advances by exactly the delay slept, `Time.Sub` saturates at `MaxDelay`, the budget
check never fires, and two sleeps add up to `2^63` ns, more than `MaxDelay`. -/
theorem roundTrip_budget_exceeded :
    Option.map (fun (out : Outcome String) => out.sleeps)
      (backoffTransport.RoundTrip amd64
        (failingEnv amd64 (followBackoffConfig (-1 * second)) "connection refused")
        { Config := followBackoffConfig (-1 * second), attempts := 0, startTime := 0 } 1) =
      some [] ∧
    ¬ (List.sum ([] : List Int) ≤ (followBackoffConfig (-1 * second)).MaxDelay) ∧
    Option.map (fun (out : Outcome String) => out.sleeps)
      (backoffTransport.RoundTrip amd64
        (exampleEnv 2 9 [0, 0, 2 ^ 62, 2 ^ 63])
        { Config := { BaseDelay := 2 ^ 62, Multiplier := F64.fin 1 0, MaxDelay := 2 ^ 63 - 1 },
          attempts := 0, startTime := 0 } 3) =
      some [2 ^ 62, 2 ^ 62] ∧
    ¬ (List.sum [(2 : Int) ^ 62, 2 ^ 62] ≤ 2 ^ 63 - 1) := by
  refine ⟨by decide, by decide, by decide, by decide⟩

/-- C28, amended. For a budget `MaxDelay` below the largest `Duration`, on a clock that
does not go backwards and that every sleep advances by the delay slept at least: the delays
slept during a call of `RoundTrip` add up to no more than `MaxDelay` when `MaxDelay` is not
negative, and to nothing when it is; and every sleep is projected to end, at
`now + backoff`, no later than `startTime + MaxDelay`, so that it ends no later than that
plus its overrun. The sleeps are the delays `backoff(0), backoff(1), ...` in order. -/
theorem roundTrip_sleep_budget {ρ : Type} (indef : Indefinite) (env : Env ρ)
    (bt : backoffTransport) (fuel : Nat) (out : Outcome ρ)
    (hmax : bt.Config.MaxDelay < (2 : Int) ^ 63 - 1)
    (hmin : -(2 : Int) ^ 63 ≤ bt.Config.MaxDelay)
    (hrun : bt.RoundTrip indef env fuel = some out)
    (hmono : ∀ i, i < out.sleeps.length + 1 → env.now i ≤ env.now (i + 1))
    (hadv : ∀ i, i < out.sleeps.length →
      env.now (i + 1) + bt.Config.backoff indef (i : Int) ≤ env.now (i + 2)) :
    (out.sleeps.map (fun d => max 0 d)).sum ≤ max 0 bt.Config.MaxDelay ∧
    (0 ≤ bt.Config.MaxDelay → out.sleeps.sum ≤ bt.Config.MaxDelay) ∧
    (∀ i, i < out.sleeps.length →
      env.now (i + 1) + bt.Config.backoff indef (i : Int) ≤ env.now 0 + bt.Config.MaxDelay) ∧
    out.sleeps = sleepsFrom indef bt.Config 0 out.sleeps.length := by
  obtain ⟨hretry, _, _, hsleeps, _, _, _⟩ := roundTrip_outcome indef env bt fuel out hrun
  have hbudget := (retried_sleep_budget indef env bt.Config hmax hmin out.sleeps.length hretry
    hmono hadv).1
  rw [← hsleeps] at hbudget
  refine ⟨hbudget, ?_, ?_, hsleeps⟩
  · intro h0
    have := sum_le_sum_max out.sleeps
    rw [max_eq_right h0] at hbudget
    omega
  · intro i hi
    exact retried_wake_le indef env bt.Config (env.now 0) i hmax hmin (hretry i hi)

/-- C28, witness: `--timeout 2s`; call 0 fails at 0.1 s and is retried after a sleep of 1 s;
call 1 fails at 1.2 s and the budget is spent. -/
theorem roundTrip_sleep_budget_witness :
    (List.map (fun d => max 0 d)
      (sleepsFrom amd64 (followBackoffConfig (2 * second)) 0 1)).sum ≤ max 0 (2 * second) ∧
    (0 ≤ 2 * second →
      (sleepsFrom amd64 (followBackoffConfig (2 * second)) 0 1).sum ≤ 2 * second) :=
  have h := roundTrip_sleep_budget amd64
    (exampleEnv 5 9 [0, 100 * millisecond, 1200 * millisecond])
    { Config := followBackoffConfig (2 * second), attempts := 0, startTime := 0 } 2
    { resp := none, err := some timeoutError, calls := 2,
      sleeps := sleepsFrom amd64 (followBackoffConfig (2 * second)) 0 1,
      bt := { Config := followBackoffConfig (2 * second), attempts := 1, startTime := 0 } }
    (by decide) (by decide) (by decide) (by decide) (by decide)
  ⟨h.1, h.2.1⟩

/-- C29, counterexample. With `--timeout -1s` the bound `floor(MaxDelay / BaseDelay) + 1`
is zero, and `RoundTrip` makes one call. With `BaseDelay = 2^53 + 1` ns, `Multiplier = 1`
and `MaxDelay = 2^54 + 1` ns, on a clock that each sleep advances by exactly the delay
slept, the bound is two calls and `RoundTrip` makes three: `float64` rounds the base delay
down to `2^53`, so that two sleeps fit the budget. -/
theorem roundTrip_more_calls_than_bound :
    Option.map (fun (out : Outcome String) => (out.calls, out.err))
      (backoffTransport.RoundTrip amd64
        (failingEnv amd64 (followBackoffConfig (-1 * second)) "connection refused")
        { Config := followBackoffConfig (-1 * second), attempts := 0, startTime := 0 } 1) =
      some (1, some timeoutError) ∧
    ¬ ((1 : Int) ≤ (followBackoffConfig (-1 * second)).MaxDelay /
      (followBackoffConfig (-1 * second)).BaseDelay + 1) ∧
    Option.map (fun (out : Outcome String) => (out.calls, out.err, out.sleeps))
      (backoffTransport.RoundTrip amd64
        (failingEnv amd64
          { BaseDelay := 2 ^ 53 + 1, Multiplier := F64.fin 1 0, MaxDelay := 2 ^ 54 + 1 }
          "connection refused")
        { Config := { BaseDelay := 2 ^ 53 + 1, Multiplier := F64.fin 1 0,
                      MaxDelay := 2 ^ 54 + 1 },
          attempts := 0, startTime := 0 } 3) =
      some (3, some timeoutError, [2 ^ 53 + 1, 2 ^ 53]) ∧
    ¬ ((3 : Int) ≤ ((2 : Int) ^ 54 + 1) / (2 ^ 53 + 1) + 1) := by
  refine ⟨by decide, by decide, by decide, by decide⟩

/-- C29, amended. For every configuration with `BaseDelay > 0`, `Multiplier ≥ 1` and
`MaxDelay ≤ 2^53` ns, a base transport that fails on every call, and a clock that does not
go backwards before the first failure and that every sleep advances by the delay slept at
least: `RoundTrip`, given fuel for `floor(MaxDelay / BaseDelay) + 1` iterations (one
iteration for a negative `MaxDelay`), returns, with the timeout error or the error of the
cancelled context, after at most that many calls of the base transport; it slept once
after every call but the last, sleep `i` for the delay `backoff(i)`, and its attempt
counter is the number of sleeps. -/
theorem roundTrip_terminates {ρ : Type} (indef : Indefinite) (env : Env ρ)
    (bt : backoffTransport) (extra : Nat)
    (hB : 0 < bt.Config.BaseDelay) (hM : F64.le (F64.ofInt 1) bt.Config.Multiplier = true)
    (h53 : bt.Config.MaxDelay ≤ (2 : Int) ^ 53) (hmin : -(2 : Int) ^ 63 ≤ bt.Config.MaxDelay)
    (hfail : ∀ i, i < (bt.Config.MaxDelay / bt.Config.BaseDelay).toNat + 1 →
      (env.base i).2.isSome = true)
    (hmono : env.now 0 ≤ env.now 1)
    (hadv : ∀ i, i < (bt.Config.MaxDelay / bt.Config.BaseDelay).toNat →
      env.now (i + 1) + bt.Config.backoff indef (i : Int) ≤ env.now (i + 2)) :
    ∃ out,
      bt.RoundTrip indef env ((bt.Config.MaxDelay / bt.Config.BaseDelay).toNat + 1 + extra) =
        some out ∧
      out.calls ≤ (bt.Config.MaxDelay / bt.Config.BaseDelay).toNat + 1 ∧
      (out.err = some timeoutError ∨
        ∃ cerr, env.ctxErr (out.calls - 1) = some cerr ∧ out.err = some cerr) ∧
      out.sleeps.length = out.calls - 1 ∧
      (∀ i, i < out.calls - 1 → out.sleeps.get? i = some (bt.Config.backoff indef (i : Int))) ∧
      out.bt.attempts = ((out.calls - 1 : Nat) : Int) := by
  have hex : ∃ k, k < (bt.Config.MaxDelay / bt.Config.BaseDelay).toNat + 1 ∧
      retried indef env bt.Config (env.now 0) k = false := by
    by_contra hno
    apply not_all_retried indef env bt.Config hB hM h53 hmin hmono hadv
    intro i hi
    by_contra hi2
    exact hno ⟨i, hi, by simpa using hi2⟩
  have hk := Nat.find_spec hex
  have hbefore : ∀ i, i < Nat.find hex → retried indef env bt.Config (env.now 0) i = true := by
    intro i hi
    have := Nat.find_min hex hi
    by_contra hi2
    exact this ⟨by omega, by simpa using hi2⟩
  have hfuel : (bt.Config.MaxDelay / bt.Config.BaseDelay).toNat + 1 + extra =
      ((bt.Config.MaxDelay / bt.Config.BaseDelay).toNat - Nat.find hex + extra) + 1 +
        Nat.find hex := by omega
  obtain ⟨out, hrun, hcalls, herr, hsleeps, hatt⟩ := roundTrip_stops indef env bt (Nat.find hex)
    ((bt.Config.MaxDelay / bt.Config.BaseDelay).toNat - Nat.find hex + extra) hbefore hk.2
    (hfail _ hk.1)
  refine ⟨out, by rw [hfuel]; exact hrun, by omega, ?_, ?_, ?_, ?_⟩
  · rw [hcalls]
    simpa using herr
  · rw [hsleeps, sleepsFrom_length, hcalls]
    simp
  · intro i hi
    rw [hsleeps]
    exact sleepsFrom_get indef bt.Config _ i (by omega)
  · rw [hatt, hcalls]
    simp

/-- C29, witness: `--timeout 2s`, two calls at most three. -/
theorem roundTrip_terminates_witness :
    ∃ out,
      backoffTransport.RoundTrip amd64
          (exampleEnv 5 9 [0, 100 * millisecond, 1200 * millisecond, 2900 * millisecond])
          { Config := followBackoffConfig (2 * second), attempts := 0, startTime := 0 }
          (((2 * second) / second).toNat + 1 + 0) = some out ∧
      out.calls ≤ ((2 * second) / second).toNat + 1 :=
  have h := roundTrip_terminates amd64
    (exampleEnv 5 9 [0, 100 * millisecond, 1200 * millisecond, 2900 * millisecond])
    { Config := followBackoffConfig (2 * second), attempts := 0, startTime := 0 } 0
    (by decide) (by decide) (by decide) (by decide) (by decide) (by decide) (by decide)
  ⟨h.choose, h.choose_spec.1, h.choose_spec.2.1⟩

/-- C30. For every configuration with `BaseDelay > MaxDelay`, a first call of the base
transport that fails, a context that is not cancelled and a clock that has not gone
backwards since the entry: `RoundTrip` returns the timeout error, with what the base
transport returned as response, after that one call and without a sleep; one iteration of
fuel is enough. -/
theorem roundTrip_no_retry {ρ : Type} (indef : Indefinite) (env : Env ρ)
    (bt : backoffTransport) (extra : Nat) (resp : Option ρ) (e : String)
    (hBM : bt.Config.MaxDelay < bt.Config.BaseDelay)
    (hB : bt.Config.BaseDelay < (2 : Int) ^ 63)
    (hfail : env.base 0 = (resp, some e)) (hctx : env.ctxErr 0 = none)
    (hclock : env.now 0 ≤ env.now 1) :
    bt.RoundTrip indef env (extra + 1) =
      some { resp := resp, err := some timeoutError, calls := 1, sleeps := [],
             bt := { Config := bt.Config, attempts := 0, startTime := env.now 0 } } := by
  have hover : bt.Config.MaxDelay <
      timeSub (timeAdd (env.now (0 + 1)) (bt.Config.backoff indef 0)) (env.now 0) := by
    have h0 : bt.Config.backoff indef 0 = bt.Config.BaseDelay := by
      simp [backoffConfig.backoff]
    rw [h0]
    unfold timeSub timeAdd
    simp only [Nat.zero_add]
    split_ifs <;> omega
  simp only [backoffTransport.RoundTrip, roundTripLoop, hfail, hctx, if_pos hover]

/-- C30, witness: `--timeout 500ms`, below the base delay of one second; the first call is
refused after 0.1 s. -/
theorem roundTrip_no_retry_witness :
    backoffTransport.RoundTrip amd64 (exampleEnv 5 9 [0, 100 * millisecond])
        { Config := followBackoffConfig (500 * millisecond), attempts := 0, startTime := 0 }
        (0 + 1) =
      some { resp := none, err := some timeoutError, calls := 1, sleeps := [],
             bt := { Config := followBackoffConfig (500 * millisecond), attempts := 0,
                     startTime := 0 } } :=
  roundTrip_no_retry amd64 (exampleEnv 5 9 [0, 100 * millisecond])
    { Config := followBackoffConfig (500 * millisecond), attempts := 0, startTime := 0 } 0 none
    "connection refused" (by decide) (by decide) rfl rfl (by decide)

/-! ## The claim about a file as source of the versions -/

/-- Whatever the value of `--diginfra-versions` is, the versions come through the base
transport: when every call of the base transport fails, `retrieveDiginfraVersions` does not
succeed. -/
theorem retrieveDiginfraVersions_needs_transport {ρ : Type} (indef : Indefinite)
    (env : VersionsEnv ρ) (o o2 : artifactFollowOptions) (fuel : Nat)
    (hfail : ∀ i, (env.transport.base i).2.isSome = true) :
    o.retrieveDiginfraVersions indef env fuel ≠ some (none, o2) := by
  intro h
  obtain ⟨resp, _, _, hdo, _⟩ := retrieveDiginfraVersions_success indef env o o2 fuel h
  unfold clientDo at hdo
  cases hrt : backoffTransport.RoundTrip indef env.transport
      { Config := followBackoffConfig o.timeout, attempts := 0, startTime := 0 } fuel with
  | none => simp [hrt] at hdo
  | some out =>
    have herr := roundTrip_err_of_failing indef env.transport _ fuel out hfail hrt
    simp only [hrt] at hdo
    cases he : out.err with
    | none => exact herr he
    | some e => simp [he] at hdo

/-- C25. The flag `--diginfra-versions` set to the path of a file,
`/etc/diginfra/versions.json`, with the default timeout of two minutes: the path is
accepted as a request URI and a GET request is built for it; the base transport refuses a
URL without the scheme `http` or `https` on every call; `RoundTrip` retries until the
budget is spent, and `retrieveDiginfraVersions` returns the timeout error and leaves the
versions map empty. No file is read. -/
theorem retrieveDiginfraVersions_file_path :
    artifactFollowOptions.retrieveDiginfraVersions amd64
        (fileVersionsEnv amd64 (120 * second))
        { exampleOptions with diginfraVersions := "/etc/diginfra/versions.json" } 10 =
      some (some ("unable to get versions from URL \"/etc/diginfra/versions.json\": " ++
          "timeout occurred while retrieving versions from Diginfra"),
        { exampleOptions with diginfraVersions := "/etc/diginfra/versions.json" }) ∧
    exampleOptions.versions = [] ∧
    exampleOptions.timeout = 120 * second := by
  refine ⟨by decide, by decide, by decide⟩

end Diginfractl
